import Mathlib

/-!
# bitxor-hd-wallets: a shallow embedding of the Ed25519 HD node

The definitions follow `dist/src/Curves/NodeEd25519.js`,
`dist/src/Compat/DeterministicKey.js`, `dist/src/Network.js`,
`dist/src/MACImpl.js` and `dist/src/Cryptography.js`.

* A `Buffer` is a list of bytes, a byte is a `Fin 256`.
* A JavaScript exception is the `Except.error` case of the result; the
  constructors of `Err` are the `throw` sites of the sources.
* The hash functions, the Ed25519 key pair expansion and the Base58Check codec
  come from npm packages; they are the fields of `Primitives` and every theorem
  holds for all of them.
* `Buffer.allocUnsafe` returns memory that was not cleared: the bytes it hands
  out are read from a parameter `mem : Nat → Byte`.
-/

namespace BitxorHD

/-! ## Buffers -/

abbrev Byte := Fin 256

abbrev Buffer := List Byte

/-- The byte `n mod 256`. -/
def byte (n : Nat) : Byte := ⟨n % 256, Nat.mod_lt n (by decide)⟩

/-- The exceptions of the sources, one constructor per `throw` site (and one per
exception raised inside a library call). -/
inductive Err
  /-- Thrown as `TypeError('Seed should be at least 128 bits')` -/
  | seedTooShort
  /-- Thrown as `TypeError('Seed should be at most 512 bits')` -/
  | seedTooLong
  /-- Thrown as `TypeError('Base58 payload must be exactly 78 bytes, but got: ' + n + ' bytes.')` -/
  | payloadLength (n : Nat)
  /-- Thrown as `TypeError('Payload Version must be one of: ' + ... + ' or ' + ... + '.')` -/
  | payloadVersion
  /-- Thrown as `TypeError('Expected master node but got child with parentFingerprint: ' + pf + '.')` -/
  | masterWithParent (pf : Nat)
  /-- Thrown as `TypeError('Expected index 0 with depth 0 but got index: ' + i + '.')` -/
  | masterWithIndex (i : Nat)
  /-- Thrown as `TypeError('Private key must start be prepended by 0x00.')` -/
  | privateKeyMarker
  /-- Thrown as `TypeError('Invalid BIP32 derivation path provided.')` -/
  | invalidPath
  /-- Thrown as `TypeError('Expected master node with "m" derivation, but got child with parentFingerprint.')` -/
  | nonMaster
  /-- Thrown as `TypeError('Hardened derivation maximum index overflow.')` -/
  | hardenedOverflow
  /-- Thrown as `TypeError('Missing private key for hardened child key derivation.')` -/
  | missingPrivateKeyHardened
  /-- Thrown as `Error('Non-Hardened key derivation is not permitted with ED25519 curve.')` -/
  | nonHardened
  /-- Thrown as `Error('Missing private key.')`, thrown by the `privateKey` getter -/
  | missingPrivateKey
  /-- Thrown as `TypeError('Bitxor BIP32 keys cannot be converted to WIF. Please use the toHex() method.')` -/
  | wif
  /-- Thrown as the `RangeError` of `Buffer.writeUInt8` / `Buffer.writeUInt32BE` on a value out of range -/
  | outOfRange
  /-- Thrown as `Error('bad seed size')` of `nacl.sign.keyPair.fromSeed` -/
  | badSeedSize
  /-- The exception of `bs58check.decode` on a text that is not Base58Check -/
  | base58
  /-- Stands for a `NaN` out of `parseInt` (never reached behind `isValidPath`) -/
  | notANumber
  /-- Thrown as `Error('Cannot read private key out of extended public key.')` -/
  | extendedPublicKey
  /-- Thrown as `Error('Missing private key, please use method getAccountPublicKey().')` -/
  | walletReadOnly
  /-- Thrown as `Error('Missing private key, please use method getChildAccountPublicKey().')` -/
  | walletReadOnlyChild
  /-- Stands for the `TypeError` of `undefined.toString('hex')`: the private key of a
  `bip32` node that is not neutered, which the package always defines -/
  | undefinedKey
  deriving DecidableEq, Repr

deriving instance DecidableEq for Except

/-- Models `Buffer.allocUnsafe(n)`: `n` bytes of memory that was not cleared. -/
def allocUnsafe (mem : Nat → Byte) (n : Nat) : Buffer := (List.range n).map mem

/-- Models `Buffer.alloc(n, fill)`. -/
def alloc (n : Nat) (fill : Byte) : Buffer := List.replicate n fill

/-- Models `source.copy(target, targetStart)`: the bytes of `source` overwrite `target`
from `targetStart` on; what does not fit in `target` is dropped. -/
def copy (source target : Buffer) (targetStart : Nat) : Buffer :=
  target.take targetStart ++ source.take (target.length - targetStart)
    ++ target.drop (targetStart + source.length)

/-- Models `buf.writeUInt8(value, offset)`; a value outside `0..255` is a `RangeError`. -/
def writeUInt8 (buf : Buffer) (value : Int) (offset : Nat) : Except Err Buffer :=
  if value < 0 ∨ 255 < value then .error Err.outOfRange
  else .ok (copy [byte value.toNat] buf offset)

/-- The four bytes of a 32-bit value, most significant first. -/
def be32 (value : Nat) : Buffer :=
  [byte (value / 2 ^ 24), byte (value / 2 ^ 16), byte (value / 2 ^ 8), byte value]

/-- Models `buf.writeUInt32BE(value, offset)`; a value outside `0..2^32-1` is a `RangeError`. -/
def writeUInt32BE (buf : Buffer) (value : Int) (offset : Nat) : Except Err Buffer :=
  if value < 0 ∨ 4294967295 < value then .error Err.outOfRange
  else .ok (copy (be32 value.toNat) buf offset)

/-- Reads `buf[offset]` as a number, for an offset inside the buffer. -/
def readUInt8 (buf : Buffer) (offset : Nat) : Nat := (buf.getD offset 0).val

/-- Models `buf.readUInt32BE(offset)`, for four bytes inside the buffer. -/
def readUInt32BE (buf : Buffer) (offset : Nat) : Nat :=
  readUInt8 buf offset * 2 ^ 24 + readUInt8 buf (offset + 1) * 2 ^ 16
    + readUInt8 buf (offset + 2) * 2 ^ 8 + readUInt8 buf (offset + 3)

/-- Models `buf.slice(start, end)`. -/
def slice (buf : Buffer) (start stop : Nat) : Buffer := (buf.take stop).drop start

/-- The thirteen bytes before the chain code in the payload of `toBase58`. -/
def header (version depth parentFingerprint index : Nat) : Buffer :=
  be32 version ++ [byte depth] ++ be32 parentFingerprint ++ be32 index

/-! ## Network, MAC -/

inductive CurveAlgorithm
  | secp256k1
  | ed25519
  deriving DecidableEq, Repr

structure Network where
  publicKeyPrefix : Nat
  privateKeyPrefix : Nat
  curve : CurveAlgorithm
  deriving DecidableEq, Repr

/-- The constant `Network.BITCOIN`. -/
def Network.BITCOIN : Network := ⟨0x0488b21e, 0x0488ade4, CurveAlgorithm.secp256k1⟩

/-- The constant `Network.BITXOR`. -/
def Network.BITXOR : Network := ⟨0x0488b21e, 0x0488ade4, CurveAlgorithm.ed25519⟩

/-- Models `equals(b)` of `Network`: the three fields are compared with `===`, the
private prefix first. -/
def Network.equals (self b : Network) : Bool :=
  decide (self.privateKeyPrefix = b.privateKeyPrefix)
    && decide (self.publicKeyPrefix = b.publicKeyPrefix)
    && decide (self.curve = b.curve)

/-- Modelled from the spec: `dist/src/MACType.js` is not among the sources; the
spec gives `MACType ∈ {HMAC, KMAC}`. -/
inductive MACType
  | HMAC
  | KMAC
  deriving DecidableEq, Repr

/-- The functions of the npm packages the sources call. -/
structure Primitives where
  /-- Stands for `createHash('sha256').update(b).digest()` -/
  sha256 : Buffer → Buffer
  /-- Stands for `createHash('rmd160').update(b).digest()` -/
  ripemd160 : Buffer → Buffer
  /-- Stands for `createHmac('sha512', key).update(data).digest()` -/
  hmacSha512 : Buffer → Buffer → Buffer
  /-- Stands for `Buffer.from(kmac256(key, data, 512, customization), 'hex')` -/
  kmac256 : Buffer → Buffer → Buffer → Buffer
  /-- Stands for `nacl.sign.keyPair.fromSeed(seed).publicKey`, for a seed of 32 bytes -/
  ed25519PublicKey : Buffer → Buffer
  /-- Stands for `bs58check.encode` -/
  bs58encode : Buffer → String
  /-- Stands for `bs58check.decode`; `none` when it throws -/
  bs58decode : String → Option Buffer

/-- Models `Cryptography.hash160`. -/
def hash160 (P : Primitives) (buffer : Buffer) : Buffer :=
  P.ripemd160 (P.sha256 buffer)

/-- Models `Cryptography.HMAC`. -/
def HMAC (P : Primitives) (key data : Buffer) : Buffer := P.hmacSha512 key data

/-- Models `Cryptography.KMAC`; `publicSalt || ''` is the empty customization when the
salt is absent. -/
def KMAC (P : Primitives) (key data : Buffer) (publicSalt : Option Buffer) : Buffer :=
  P.kmac256 key data (publicSalt.getD [])

/-- Models `MACImpl.create`. -/
def MACImpl.create (P : Primitives) (type : MACType) (key data : Buffer)
    (publicSalt : Option Buffer) : Buffer :=
  if MACType.KMAC = type then KMAC P key data publicSalt else HMAC P key data

/-! ## DeterministicKey -/

/-- The fields of `DeterministicKey` (and of its subclass `NodeEd25519`, which adds
none): `__D`, `__Q`, `chainCode`, `network`, `__DEPTH`, `__INDEX`,
`__PARENT_FINGERPRINT`. -/
structure NodeEd25519 where
  D : Option Buffer
  Q : Option Buffer
  chainCode : Buffer
  network : Network
  DEPTH : Nat
  INDEX : Nat
  PARENT_FINGERPRINT : Nat
  deriving DecidableEq, Repr

namespace NodeEd25519

/-- The constructor called with all seven arguments. -/
def new (D Q : Option Buffer) (chainCode : Buffer) (network : Network)
    (DEPTH INDEX PARENT_FINGERPRINT : Nat) : NodeEd25519 :=
  ⟨D, Q, chainCode, network, DEPTH, INDEX, PARENT_FINGERPRINT⟩

/-- The constructor called with four arguments: the defaults `__DEPTH = 0`,
`__INDEX = 0`, `__PARENT_FINGERPRINT = 0x00000000` apply. -/
def new4 (D Q : Option Buffer) (chainCode : Buffer) (network : Network) : NodeEd25519 :=
  new D Q chainCode network 0 0 0

/-- The constant `NodeEd25519.HIGHEST_BIT = 0x80000000`. -/
def HIGHEST_BIT : Int := 0x80000000

/-- Models `isNeutered()`: `this.__D === undefined`. -/
def isNeutered (self : NodeEd25519) : Bool := self.D.isNone

/-- The `privateKey` getter. -/
def privateKey (self : NodeEd25519) : Except Err Buffer :=
  match self.D with
  | none => .error Err.missingPrivateKey
  | some d => .ok d

/-- Models `nacl.sign.keyPair.fromSeed(seed).publicKey`; tweetnacl throws on a seed that
is not 32 bytes long. -/
def keyPairFromSeed (P : Primitives) (seed : Buffer) : Except Err Buffer :=
  if seed.length ≠ 32 then .error Err.badSeedSize else .ok (P.ed25519PublicKey seed)

/-- The `publicKey` getter. -/
def publicKey (P : Primitives) (self : NodeEd25519) : Except Err Buffer :=
  match self.Q with
  | some q => .ok q
  | none => do
    let d ← self.privateKey
    keyPairFromSeed P d

/-- The `identifier` getter. -/
def identifier (P : Primitives) (self : NodeEd25519) : Except Err Buffer := do
  let pub ← self.publicKey P
  pure (hash160 P pub)

/-- The `fingerprint` getter. -/
def fingerprint (P : Primitives) (self : NodeEd25519) : Except Err Buffer := do
  let id ← self.identifier P
  pure (slice id 0 4)

/-- Models `CKDPriv(parent, index, macType)`. The four bytes of
`Buffer.allocUnsafe(4)` are all overwritten by `writeUInt32BE`, so what they held
before, taken as zero here, does not show (`writeUInt32BE_allocUnsafe`). -/
def CKDPriv (P : Primitives) (parent : NodeEd25519) (index : Int)
    (macType : MACType) : Except Err NodeEd25519 := do
  let indexBuffer ← writeUInt32BE (allocUnsafe (fun _ => 0) 4) index 0
  let d ← parent.privateKey
  let data := alloc 1 0 ++ d ++ indexBuffer
  let I := MACImpl.create P macType parent.chainCode data none
  let IL := slice I 0 32
  let IR := I.drop 32
  pure (new4 (some IL) none IR parent.network)

/-- Models `derive(index)`; `CKDPriv` is called without its third argument, whose
default is `MACType.HMAC`. -/
def derive (P : Primitives) (self : NodeEd25519) (index : Int) : Except Err NodeEd25519 :=
  let isHardened := decide (HIGHEST_BIT ≤ index)
  if isHardened && self.isNeutered then .error Err.missingPrivateKeyHardened
  else if !self.isNeutered then CKDPriv P self index MACType.HMAC
  else .error Err.nonHardened

/-- Models `deriveHardened(index)`. -/
def deriveHardened (P : Primitives) (self : NodeEd25519) (index : Int) :
    Except Err NodeEd25519 :=
  let UINT31_MAX : Int := 2 ^ 31 - 1
  if UINT31_MAX < index then .error Err.hardenedOverflow
  else self.derive P (index + HIGHEST_BIT)

/-- Models `Buffer.from(text, 'utf8')` for a text of ASCII characters, whose UTF-8
bytes are its code points. -/
def utf8 (text : String) : Buffer := text.data.map (fun c => byte c.toNat)

/-- Models `NodeEd25519.fromSeed(seed, network, macType)`. -/
def fromSeed (P : Primitives) (seed : Buffer) (network : Network) (macType : MACType) :
    Except Err NodeEd25519 :=
  if seed.length < 16 then .error Err.seedTooShort
  else if seed.length > 64 then .error Err.seedTooLong
  else
    let pfx := "ed25519 seed"
    let I := MACImpl.create P macType (utf8 pfx) seed none
    let kL := slice I 0 32
    let kR := I.drop 32
    .ok (new4 (some kL) none kR network)

/-- Models `neutered()`. -/
def neutered (P : Primitives) (self : NodeEd25519) : Except Err NodeEd25519 := do
  let pub ← self.publicKey P
  pure (new none (some pub) self.chainCode self.network self.DEPTH self.INDEX
    self.PARENT_FINGERPRINT)

/-- The 78 bytes that `toBase58()` hands to `bs58check.encode`. -/
def toBase58Buffer (P : Primitives) (mem : Nat → Byte) (self : NodeEd25519) :
    Except Err Buffer := do
  let version := if !self.isNeutered then self.network.privateKeyPrefix
    else self.network.publicKeyPrefix
  let buffer := allocUnsafe mem 78
  let buffer ← writeUInt32BE buffer version 0
  let buffer ← writeUInt8 buffer self.DEPTH 4
  let buffer ← writeUInt32BE buffer self.PARENT_FINGERPRINT 5
  let buffer ← writeUInt32BE buffer self.INDEX 9
  let buffer := copy self.chainCode buffer 13
  if !self.isNeutered then
    let buffer ← writeUInt8 buffer 0 45
    let d ← self.privateKey
    pure (copy d buffer 46)
  else
    let pub ← self.publicKey P
    pure (copy pub buffer 45)

/-- The payload of `toBase58` after the four header writes and the copy of the chain
code, for header fields in range. -/
def afterChainCode (mem : Nat → Byte) (self : NodeEd25519) : Buffer :=
  copy self.chainCode (header (if !self.isNeutered then self.network.privateKeyPrefix
    else self.network.publicKeyPrefix) self.DEPTH self.PARENT_FINGERPRINT self.INDEX
    ++ (allocUnsafe mem 78).drop 13) 13

/-- Models `toBase58()`. -/
def toBase58 (P : Primitives) (mem : Nat → Byte) (self : NodeEd25519) : Except Err String := do
  let buffer ← toBase58Buffer P mem self
  pure (P.bs58encode buffer)

/-- Models `toWIF()`, whose body is a single `throw`. -/
def toWIF (_self : NodeEd25519) : Except Err String := .error Err.wif

/-- The body of `NodeEd25519.fromBase58` after `bs58check.decode`. -/
def fromPayload (buffer : Buffer) (network : Network) : Except Err NodeEd25519 :=
  if buffer.length ≠ 78 then .error (Err.payloadLength buffer.length)
  else
    let version := readUInt32BE buffer 0
    if version ≠ Network.BITXOR.privateKeyPrefix ∧ version ≠ Network.BITXOR.publicKeyPrefix then
      .error Err.payloadVersion
    else
      let depth := readUInt8 buffer 4
      let parentFingerprint := readUInt32BE buffer 5
      if depth = 0 ∧ parentFingerprint ≠ 0 then .error (Err.masterWithParent parentFingerprint)
      else
        let index := readUInt32BE buffer 9
        if depth = 0 ∧ index ≠ 0 then .error (Err.masterWithIndex index)
        else
          let chainCode := slice buffer 13 45
          if version = Network.BITXOR.privateKeyPrefix then
            if readUInt8 buffer 45 ≠ 0 then .error Err.privateKeyMarker
            else
              let k := slice buffer 46 78
              .ok (new (some k) none chainCode network depth index parentFingerprint)
          else
            let X := slice buffer 45 78
            .ok (new none (some X) chainCode network depth index parentFingerprint)

/-- Models `NodeEd25519.fromBase58(inString, network)`. -/
def fromBase58 (P : Primitives) (inString : String) (network : Network) :
    Except Err NodeEd25519 :=
  match P.bs58decode inString with
  | none => .error Err.base58
  | some buffer => fromPayload buffer network

/-! ## Derivation paths -/

/-- The apostrophe, U+0027. -/
def apostrophe : Char := Char.ofNat 39

/-- The class `\d` of a JavaScript regular expression: the ten ASCII digits. -/
def reDigit : RegularExpression Char :=
  .plus (.char '0') (.plus (.char '1') (.plus (.char '2') (.plus (.char '3') (.plus (.char '4')
    (.plus (.char '5') (.plus (.char '6') (.plus (.char '7') (.plus (.char '8') (.char '9')))))))))

/-- The postfix `?` of a regular expression. -/
def reOpt (r : RegularExpression Char) : RegularExpression Char := .plus r .epsilon

/-- The postfix `+` of a regular expression. -/
def rePlus (r : RegularExpression Char) : RegularExpression Char := .comp r (.star r)

/-- The part `\d+'?` of the path expression. -/
def reSegment : RegularExpression Char := .comp (rePlus reDigit) (reOpt (.char apostrophe))

/-- The part `(\d+'?\/)*\d+'?` of the path expression. -/
def reBody : RegularExpression Char :=
  .comp (.star (.comp reSegment (.char '/'))) reSegment

/-- The expression `(m\/)?(\d+'?\/)*\d+'?` between the anchors `^` and `$` of
`isValidPath`. The anchors (the expression has no `m` flag) make `match` succeed
exactly when the whole text is in the language of the expression. -/
def pathRegex : RegularExpression Char :=
  .comp (reOpt (.comp (.char 'm') (.char '/'))) reBody

/-- Models `isValidPath(path)`. -/
def isValidPath (path : String) : Bool := pathRegex.rmatch path.data

/-- Models `text.split(sep)` for a separator of one character. -/
def split (sep : Char) : List Char → List (List Char)
  | [] => [[]]
  | c :: cs =>
    if c = sep then [] :: split sep cs
    else
      match split sep cs with
      | [] => [[c]]
      | seg :: rest => (c :: seg) :: rest

/-- The white space and line terminators that `parseInt` skips at the start. -/
def isStrWhiteSpaceChar (c : Char) : Bool :=
  c.toNat ∈ [0x09, 0x0A, 0x0B, 0x0C, 0x0D, 0x20, 0xA0, 0x1680, 0x2000, 0x2001, 0x2002,
    0x2003, 0x2004, 0x2005, 0x2006, 0x2007, 0x2008, 0x2009, 0x200A, 0x2028, 0x2029, 0x202F,
    0x205F, 0x3000, 0xFEFF]

/-- The value of a list of decimal digits, most significant first. -/
def digitsValue (ds : List Char) : Nat :=
  ds.foldl (fun acc c => 10 * acc + (c.toNat - 48)) 0

/-- Models `parseInt(text, 10)`: leading white space is skipped, a sign is read, then
the longest run of decimal digits; `none` is `NaN` (no digit). The value is exact; a
JavaScript number rounds it above `2^53`, which leaves it above `2^31 - 1`, the only
thing `deriveHardened` asks of a value that large. -/
def parseInt (text : List Char) : Option Int :=
  let S := text.dropWhile isStrWhiteSpaceChar
  let sign : Int := if S.head? = some '-' then -1 else 1
  let S := if S.head? = some '+' ∨ S.head? = some '-' then S.drop 1 else S
  let Z := S.takeWhile Char.isDigit
  if Z = [] then none else some (sign * digitsValue Z)

/-- The callback of the `reduce` in `derivePath`:
`index = parseInt(indexStr.replace(/'/, ''), 10); return prevHd.deriveHardened(index)`,
where the `replace` removes the first apostrophe. -/
def pathStep (P : Primitives) (prevHd : NodeEd25519) (indexStr : List Char) :
    Except Err NodeEd25519 :=
  match parseInt (indexStr.erase apostrophe) with
  | none => .error Err.notANumber
  | some index => prevHd.deriveHardened P index

/-- Models `derivePath(path)`. -/
def derivePath (P : Primitives) (self : NodeEd25519) (path : String) :
    Except Err NodeEd25519 :=
  if !isValidPath path then .error Err.invalidPath
  else
    let splitPath := split '/' path.data
    if splitPath.head? = some ['m'] ∧ self.PARENT_FINGERPRINT ≠ 0 then .error Err.nonMaster
    else
      let splitPath := if splitPath.head? = some ['m'] then splitPath.drop 1 else splitPath
      splitPath.foldlM (pathStep P) self

/-! ## The path grammar of the spec -/

/-- A decimal digit, `0` to `9`. -/
def isDecimalDigit (c : Char) : Bool :=
  decide (c ∈ ['0', '1', '2', '3', '4', '5', '6', '7', '8', '9'])

/-- The spec's path segment: a non-empty string of decimal digits, optionally followed
by a single apostrophe. -/
def isSegment (s : List Char) : Bool :=
  let digits := if s.getLast? = some apostrophe then s.dropLast else s
  !digits.isEmpty && digits.all isDecimalDigit

/-- The path without its optional leading `m/`. -/
def pathBody : List Char → List Char
  | 'm' :: '/' :: rest => rest
  | path => path

/-- Whether the path starts with `m/`. -/
def startsWithMaster : List Char → Bool
  | 'm' :: '/' :: _ => true
  | _ => false

/-- The spec's path grammar: an optional leading `m/` followed by one or more
`/`-separated segments. -/
def pathGrammar (path : String) : Bool :=
  (split '/' (pathBody path.data)).all isSegment

/-- The spec's index of a segment: the decimal value of the segment with its
apostrophe removed. -/
def segmentIndex (s : List Char) : Int :=
  digitsValue (s.filter (fun c => c ≠ apostrophe))

/-- The spec's indices of a path: the indices of its segments after the optional
leading `m`, from left to right. -/
def pathIndices (path : String) : List Int :=
  (split '/' (pathBody path.data)).map segmentIndex

/-- The spec's left fold of hardened derivations: the indices are derived one after
the other from the running node; the first step that fails gives the error, otherwise
the last node is the result. -/
def hardenedFold (P : Primitives) : NodeEd25519 → List Int → Except Err NodeEd25519
  | node, [] => .ok node
  | node, index :: rest =>
    match node.deriveHardened P index with
    | .error e => .error e
    | .ok child => hardenedFold P child rest

/-- The errors a derivation step can raise. -/
def isStepError (e : Err) : Bool :=
  e = Err.hardenedOverflow || e = Err.missingPrivateKeyHardened || e = Err.nonHardened
    || e = Err.outOfRange || e = Err.missingPrivateKey

/-- The path with every apostrophe removed. -/
def removeApostrophes (path : String) : String :=
  String.mk (path.data.filter (fun c => c ≠ apostrophe))

end NodeEd25519

/-! ## ExtendedKey -/

/-- The UTF-16 code units of a character: a JavaScript string is a sequence of such
units, one for a character below U+10000 and a surrogate pair for the others. -/
def utf16Units (c : Char) : List Nat :=
  if c.toNat < 0x10000 then [c.toNat]
  else [0xD800 + (c.toNat - 0x10000) / 0x400, 0xDC00 + (c.toNat - 0x10000) % 0x400]

/-- The UTF-16 code units of a text. -/
def utf16 : List Char → List Nat
  | [] => []
  | c :: cs => utf16Units c ++ utf16 cs

/-- The value of a code unit as a hexadecimal digit, as the hex decoder of Node reads
it: the unit is cut down to its low byte (`unhex(uint8_t)`), which is looked up among
`0`-`9`, `A`-`F` and `a`-`f`; so U+0130 reads as `0` and U+0146 as `F`. -/
def unhex (unit : Nat) : Option Nat :=
  let x := unit % 256
  if 48 ≤ x ∧ x ≤ 57 then some (x - 48)
  else if 65 ≤ x ∧ x ≤ 70 then some (x - 55)
  else if 97 ≤ x ∧ x ≤ 102 then some (x - 87)
  else none

/-- The hex decoder of Node on the code units of a text: two digits make a byte; the
decoding stops at the first pair with a unit that is not a digit, and a last unit alone
is dropped. -/
def hexDecode : List Nat → Buffer
  | a :: b :: rest =>
    match unhex a, unhex b with
    | some x, some y => byte (16 * x + y) :: hexDecode rest
    | _, _ => []
  | _ => []

/-- Models `Buffer.from(text, 'hex')`. -/
def fromHex (text : List Char) : Buffer := hexDecode (utf16 text)

/-- A hexadecimal digit of `Buffer.toString('hex')`, in lower case. -/
def hexChar (n : Nat) : Char := if n < 10 then Char.ofNat (48 + n) else Char.ofNat (87 + n)

/-- The characters of `buffer.toString('hex')`: two digits per byte. -/
def toHexChars : Buffer → List Char
  | [] => []
  | x :: rest => hexChar (x.val / 16) :: hexChar (x.val % 16) :: toHexChars rest

/-- Models `buffer.toString('hex')`. -/
def toHex (buffer : Buffer) : String := String.mk (toHexChars buffer)

/-- Modelled from the spec: `dist/src/KeyEncoding.js` is not among the sources; the spec
and the tests give the two encodings, a hexadecimal string (the default) and the raw
bytes. -/
inductive KeyEncoding
  | ENC_HEX
  | ENC_BIN
  deriving DecidableEq, Repr

/-- What `encodeAs` returns: a hexadecimal string or the buffer itself. -/
inductive Encoded
  | hex (text : String)
  | bin (key : Buffer)
  deriving DecidableEq, Repr

/-- Models `value.toString('hex')` on what `encodeAs` returned: the hexadecimal digits
of a buffer, and a string as it is. -/
def Encoded.toStringHex : Encoded → String
  | .hex text => text
  | .bin key => toHex key

/-- A `Network` object. JavaScript compares objects by reference, so
`network === Network.BITXOR` holds for the static object `Network.BITXOR` alone and not
for another object with the same three fields, as `new Network(...)` makes them. -/
inductive NetworkObject
  | BITCOIN
  | BITXOR
  | fresh (fields : Network)
  deriving DecidableEq, Repr

/-- The fields of a `Network` object. -/
def NetworkObject.val : NetworkObject → Network
  | .BITCOIN => Network.BITCOIN
  | .BITXOR => Network.BITXOR
  | .fresh fields => fields

/-- The `bip32` npm package (the secp256k1 engine), as far as `ExtendedKey` calls it. -/
structure Bip32 where
  /-- The class `BIP32` of the package -/
  Node : Type
  /-- Stands for `bip32.fromSeed(seed)` -/
  fromSeed : Buffer → Except Err Node
  /-- Stands for `bip32.fromBase58(payload)` -/
  fromBase58 : String → Except Err Node
  /-- Stands for `node.toBase58()` -/
  toBase58 : Node → String
  /-- Stands for `node.derivePath(path)` -/
  derivePath : Node → String → Except Err Node
  /-- Stands for `node.neutered()` -/
  neutered : Node → Node
  /-- Stands for `node.isNeutered()` -/
  isNeutered : Node → Bool
  /-- Stands for `node.privateKey`, `none` for `undefined` -/
  privateKey : Node → Option Buffer
  /-- Stands for `node.publicKey` -/
  publicKey : Node → Buffer

/-- The field `node` of an `ExtendedKey`: a `BIP32` node or a `NodeEd25519`. -/
inductive HDNode (E : Bip32)
  | bip32 (node : E.Node)
  | ed25519 (node : NodeEd25519)

/-- Whether the node is a `NodeEd25519` (`node instanceof NodeEd25519`). -/
def HDNode.isEd25519 {E : Bip32} : HDNode E → Bool
  | .bip32 _ => false
  | .ed25519 _ => true

/-- The fields of `ExtendedKey`. -/
structure ExtendedKey (E : Bip32) where
  node : HDNode E
  network : NetworkObject
  macType : MACType

namespace ExtendedKey

/-- Models `ExtendedKey.createFromBase58(payload, network, macType)`. -/
def createFromBase58 (P : Primitives) (E : Bip32) (payload : String) (network : NetworkObject)
    (macType : MACType) : Except Err (ExtendedKey E) :=
  if network = NetworkObject.BITXOR ∨ network = NetworkObject.BITXOR then do
    let ed25519Node ← NodeEd25519.fromBase58 P payload network.val
    pure ⟨HDNode.ed25519 ed25519Node, network, macType⟩
  else do
    let bip32Node ← E.fromBase58 payload
    pure ⟨HDNode.bip32 bip32Node, network, macType⟩

/-- Models `ExtendedKey.createFromSeed(seed, network, macType)`. -/
def createFromSeed (P : Primitives) (E : Bip32) (seed : String) (network : NetworkObject)
    (macType : MACType) : Except Err (ExtendedKey E) :=
  if network = NetworkObject.BITXOR ∨ network = NetworkObject.BITXOR then do
    let ed25519Node ← NodeEd25519.fromSeed P (fromHex seed.data) network.val macType
    pure ⟨HDNode.ed25519 ed25519Node, network, macType⟩
  else do
    let bip32Node ← E.fromSeed (fromHex seed.data)
    pure ⟨HDNode.bip32 bip32Node, network, macType⟩

/-- Models `toBase58()` of `ExtendedKey`: `this.node.toBase58()`. -/
def toBase58 (P : Primitives) {E : Bip32} (mem : Nat → Byte) (self : ExtendedKey E) :
    Except Err String :=
  match self.node with
  | HDNode.bip32 node => .ok (E.toBase58 node)
  | HDNode.ed25519 node => node.toBase58 P mem

/-- Models `derivePath(path)` of `ExtendedKey`: both branches wrap the derived node
with the network and the MAC type of the key. -/
def derivePath (P : Primitives) {E : Bip32} (self : ExtendedKey E) (path : String) :
    Except Err (ExtendedKey E) :=
  match self.node with
  | HDNode.bip32 node => do
    let derived ← E.derivePath node path
    pure ⟨HDNode.bip32 derived, self.network, self.macType⟩
  | HDNode.ed25519 node => do
    let derived ← node.derivePath P path
    pure ⟨HDNode.ed25519 derived, self.network, self.macType⟩

/-- Models `isNeutered()` of `ExtendedKey`: `this.node.isNeutered()`. -/
def isNeutered {E : Bip32} (self : ExtendedKey E) : Bool :=
  match self.node with
  | HDNode.bip32 node => E.isNeutered node
  | HDNode.ed25519 node => node.isNeutered

/-- Models `isMaster()`; `readUInt32BE(5)` throws a `RangeError` on a buffer of fewer
than 9 bytes. -/
def isMaster (P : Primitives) {E : Bip32} (mem : Nat → Byte) (self : ExtendedKey E) :
    Except Err Bool := do
  let base58 ← self.toBase58 P mem
  match P.bs58decode base58 with
  | none => .error Err.base58
  | some buffer =>
    if buffer.length < 9 then .error Err.outOfRange
    else
      let parent := readUInt32BE buffer 5
      pure (decide (parent = 0))

/-- Models `getPublicNode()`: both branches wrap `this.node.neutered()`. -/
def getPublicNode (P : Primitives) {E : Bip32} (self : ExtendedKey E) :
    Except Err (ExtendedKey E) :=
  match self.node with
  | HDNode.bip32 node => .ok ⟨HDNode.bip32 (E.neutered node), self.network, self.macType⟩
  | HDNode.ed25519 node => do
    let node ← node.neutered P
    pure ⟨HDNode.ed25519 node, self.network, self.macType⟩

/-- Models `encodeAs(key, encoding)`. -/
def encodeAs (key : Buffer) (encoding : KeyEncoding) : Encoded :=
  if encoding = KeyEncoding.ENC_HEX then Encoded.hex (toHex key) else Encoded.bin key

/-- Models `getPrivateKey(encoding)`. -/
def getPrivateKey {E : Bip32} (self : ExtendedKey E) (encoding : KeyEncoding) :
    Except Err Encoded :=
  if self.isNeutered then .error Err.extendedPublicKey
  else
    match self.node with
    | HDNode.bip32 node =>
      match E.privateKey node with
      | none => .error Err.undefinedKey
      | some d => .ok (encodeAs d encoding)
    | HDNode.ed25519 node => do
      let d ← node.privateKey
      pure (encodeAs d encoding)

/-- The getter `this.node.publicKey` of an `ExtendedKey`. -/
def nodePublicKey (P : Primitives) {E : Bip32} (self : ExtendedKey E) : Except Err Buffer :=
  match self.node with
  | HDNode.bip32 node => .ok (E.publicKey node)
  | HDNode.ed25519 node => node.publicKey P

/-- Models `getPublicKey(encoding)`; `slice(1)` drops the first byte. -/
def getPublicKey (P : Primitives) {E : Bip32} (self : ExtendedKey E) (encoding : KeyEncoding) :
    Except Err Encoded := do
  let publicKey ← self.nodePublicKey P
  let publicKey := if publicKey.length = 33 then publicKey.drop 1 else publicKey
  pure (encodeAs publicKey encoding)

end ExtendedKey

/-! ## Wallet -/

/-- The fields of `Wallet`: `extendedKey`, `readOnly`, `publicKey`. -/
structure Wallet (E : Bip32) where
  extendedKey : ExtendedKey E
  readOnly : Bool
  publicKey : Encoded

namespace Wallet

/-- The constant `Wallet.DEFAULT_WALLET_PATH`. -/
def DEFAULT_WALLET_PATH : String := "m/44'/4343'/0'/0'/0'"

/-- The constructor `new Wallet(extendedKey)`. -/
def new (P : Primitives) {E : Bip32} (extendedKey : ExtendedKey E) : Except Err (Wallet E) := do
  let readOnly := if extendedKey.isNeutered then true else false
  let publicKey ← extendedKey.getPublicKey P KeyEncoding.ENC_BIN
  pure ⟨extendedKey, readOnly, publicKey⟩

/-- Models `isReadOnly()`. -/
def isReadOnly {E : Bip32} (self : Wallet E) : Bool := self.readOnly

/-- Models `getAccountPrivateKey()`. -/
def getAccountPrivateKey {E : Bip32} (self : Wallet E) : Except Err Encoded :=
  if self.readOnly then .error Err.walletReadOnly
  else self.extendedKey.getPrivateKey KeyEncoding.ENC_HEX

/-- Models `getAccountPublicKey()`: `this.publicKey.toString('hex')`. -/
def getAccountPublicKey {E : Bip32} (self : Wallet E) : String := self.publicKey.toStringHex

/-- Models `getChildAccountPrivateKey(path)`; `none` is the call without argument, for
which the default `Wallet.DEFAULT_WALLET_PATH` applies. -/
def getChildAccountPrivateKey (P : Primitives) {E : Bip32} (self : Wallet E)
    (path : Option String) : Except Err Encoded :=
  let path := path.getD DEFAULT_WALLET_PATH
  if self.readOnly then .error Err.walletReadOnlyChild
  else do
    let childKeyNode ← self.extendedKey.derivePath P path
    childKeyNode.getPrivateKey KeyEncoding.ENC_HEX

/-- Models `getChildAccountPublicKey(path)`; `none` is the call without argument. -/
def getChildAccountPublicKey (P : Primitives) {E : Bip32} (self : Wallet E)
    (path : Option String) : Except Err Encoded := do
  let path := path.getD DEFAULT_WALLET_PATH
  let childKeyNode ← self.extendedKey.derivePath P path
  childKeyNode.getPublicKey P KeyEncoding.ENC_HEX

end Wallet

/-! ## Invariants of the spec -/

/-- The master-node constraint as `fromBase58` enforces it: a node of depth `0` has the
parent fingerprint `0` and the index `0`. -/
def masterConstraint (n : NodeEd25519) : Prop :=
  n.DEPTH = 0 → n.PARENT_FINGERPRINT = 0 ∧ n.INDEX = 0

/-- The master-node constraint as the spec words it: the depth, the parent fingerprint
and the index are all three zero or none of them is. -/
def masterConstraintIff (n : NodeEd25519) : Prop :=
  (n.DEPTH = 0 ↔ n.PARENT_FINGERPRINT = 0) ∧ (n.PARENT_FINGERPRINT = 0 ↔ n.INDEX = 0)

/-- The key-presence invariant of the spec: a private key or a stored public key. -/
def hasKey (n : NodeEd25519) : Prop := n.D.isSome = true ∨ n.Q.isSome = true

/-- The shape of the nodes `fromSeed` and `CKDPriv` return: a private key, no stored
public key, and the constructor defaults for depth, index and parent fingerprint. -/
def isFreshPrivate (n : NodeEd25519) : Prop :=
  n.D.isSome = true ∧ n.Q = none ∧ n.DEPTH = 0 ∧ n.INDEX = 0 ∧ n.PARENT_FINGERPRINT = 0

/-- The sizes of a node with a private key: a chain code and a private key of 32
bytes each. -/
def privateSizes (n : NodeEd25519) : Prop :=
  n.chainCode.length = 32 ∧ n.D.map List.length = some 32

/-- The sizes of a neutered node: a chain code of 32 bytes, no private key and a
stored public key of 33 bytes. -/
def publicSizes (n : NodeEd25519) : Prop :=
  n.chainCode.length = 32 ∧ n.D = none ∧ n.Q.map List.length = some 33

/-- The header fields of a node fit their places in the payload of `toBase58`: one
byte for the depth, four for the index and four for the parent fingerprint. -/
def headerInRange (n : NodeEd25519) : Prop :=
  n.DEPTH ≤ 255 ∧ n.INDEX < 2 ^ 32 ∧ n.PARENT_FINGERPRINT < 2 ^ 32

/-! ## Sample values -/

/-- A concrete instance of `Primitives`, to evaluate the definitions on sample
inputs: the digests are paddings of their input and the codec writes one character
per byte. No theorem depends on it except the evaluations at sample inputs. -/
def samplePrimitives : Primitives where
  sha256 := fun b => (b ++ List.replicate 32 0).take 32
  ripemd160 := fun b => (b ++ List.replicate 20 0).take 20
  hmacSha512 := fun key data => (data ++ key ++ List.replicate 64 0).take 64
  kmac256 := fun key data custom => (custom ++ data ++ key ++ List.replicate 64 0).take 64
  ed25519PublicKey := fun seed => (seed.reverse ++ List.replicate 32 0).take 32
  bs58encode := fun b => String.mk (b.map (fun x => Char.ofNat x.val))
  bs58decode := fun s => some (s.data.map (fun c => byte c.toNat))

/-- A master node with a private key, as `fromSeed` builds them. -/
def sampleMaster : NodeEd25519 :=
  NodeEd25519.new4 (some (List.replicate 32 7)) none (List.replicate 32 9) Network.BITXOR

/-- A child node with a private key, as `fromBase58` reads them. -/
def sampleChild : NodeEd25519 :=
  NodeEd25519.new (some (List.replicate 32 7)) none (List.replicate 32 9) Network.BITXOR
    1 2147483648 0x01020304

/-- A network with the ed25519 curve and the prefixes `tprv` / `tpub`. -/
def sampleNetwork : Network := ⟨0x043587cf, 0x04358394, CurveAlgorithm.ed25519⟩

/-- A master node with a private key on `sampleNetwork`. -/
def sampleTestnetNode : NodeEd25519 :=
  NodeEd25519.new4 (some (List.replicate 32 7)) none (List.replicate 32 9) sampleNetwork

/-- A payload of 78 bytes with the private version, the depth, parent fingerprint and
index given, a chain code of nines, the marker byte given and a key of sevens. -/
def samplePayload (depth parentFingerprint index : Nat) (marker : Byte) : Buffer :=
  header 0x0488ade4 depth parentFingerprint index ++ List.replicate 32 9
    ++ marker :: List.replicate 32 7

/-- A concrete instance of `Bip32`, to evaluate the definitions on sample inputs: its
node is the seed or the text it was made from. -/
def sampleBip32 : Bip32 where
  Node := String
  fromSeed := fun seed => .ok (String.mk (seed.map (fun x => Char.ofNat x.val)))
  fromBase58 := fun payload => .ok payload
  toBase58 := fun node => node
  derivePath := fun node path => .ok (node ++ path)
  neutered := fun node => node
  isNeutered := fun _ => false
  privateKey := fun _ => none
  publicKey := fun _ => []

/-- A network object made by `new Network(0x0488b21e, 0x0488ade4, CurveAlgorithm.ed25519)`:
the fields of `Network.BITXOR` in another object. -/
def sampleEd25519Network : NetworkObject :=
  NetworkObject.fresh ⟨0x0488b21e, 0x0488ade4, CurveAlgorithm.ed25519⟩

/-- An instance of `Primitives` like `samplePrimitives`, whose KMAC differs from its
HMAC. -/
def sampleKmacPrimitives : Primitives where
  sha256 := samplePrimitives.sha256
  ripemd160 := samplePrimitives.ripemd160
  hmacSha512 := samplePrimitives.hmacSha512
  kmac256 := fun key data custom => (custom ++ key ++ data ++ List.replicate 64 1).take 64
  ed25519PublicKey := samplePrimitives.ed25519PublicKey
  bs58encode := samplePrimitives.bs58encode
  bs58decode := samplePrimitives.bs58decode

/-- The seed of the tests, `000102030405060708090a0b0c0d0e0f`. -/
def sampleSeedHex : String := "000102030405060708090a0b0c0d0e0f"

/-- The seed of the tests with its last two digits replaced by U+0130 and U+0146, whose
low bytes are those of `0` and `F`. -/
def sampleSeedHexLowByte : String :=
  String.mk (sampleSeedHex.data.take 30 ++ [Char.ofNat 0x130, Char.ofNat 0x146])

/-- The master node of the seed of the tests, for `samplePrimitives`. -/
def sampleSeedMaster : NodeEd25519 :=
  NodeEd25519.new4
    (some (slice (MACImpl.create samplePrimitives MACType.HMAC (NodeEd25519.utf8 "ed25519 seed")
      (fromHex sampleSeedHex.data) none) 0 32)) none
    ((MACImpl.create samplePrimitives MACType.HMAC (NodeEd25519.utf8 "ed25519 seed")
      (fromHex sampleSeedHex.data) none).drop 32) Network.BITXOR

/-- The public node of `sampleSeedMaster`. -/
def sampleSeedPublic : NodeEd25519 :=
  NodeEd25519.new none
    (some (samplePrimitives.ed25519PublicKey
      (slice (MACImpl.create samplePrimitives MACType.HMAC (NodeEd25519.utf8 "ed25519 seed")
        (fromHex sampleSeedHex.data) none) 0 32)))
    sampleSeedMaster.chainCode Network.BITXOR 0 0 0

/-- The extended key `ExtendedKey.createFromSeed` makes of the seed of the tests on
`Network.BITXOR`, for `samplePrimitives`. -/
def sampleSeedKey : ExtendedKey sampleBip32 :=
  ⟨HDNode.ed25519 sampleSeedMaster, NetworkObject.BITXOR, MACType.HMAC⟩

/-- The extended public key of `sampleSeedKey`. -/
def sampleSeedPublicKey : ExtendedKey sampleBip32 :=
  ⟨HDNode.ed25519 sampleSeedPublic, NetworkObject.BITXOR, MACType.HMAC⟩

/-- The public key of `sampleSeedMaster`. -/
def sampleSeedQ : Buffer :=
  samplePrimitives.ed25519PublicKey
    (slice (MACImpl.create samplePrimitives MACType.HMAC (NodeEd25519.utf8 "ed25519 seed")
      (fromHex sampleSeedHex.data) none) 0 32)

/-- The wallet of `sampleSeedKey`. -/
def sampleWallet : Wallet sampleBip32 := ⟨sampleSeedKey, false, Encoded.bin sampleSeedQ⟩

/-- The read-only wallet of `sampleSeedPublicKey`. -/
def sampleReadOnlyWallet : Wallet sampleBip32 :=
  ⟨sampleSeedPublicKey, true, Encoded.bin sampleSeedQ⟩

/-- The master node of the seed of the tests made with `MACType.KMAC`, for
`sampleKmacPrimitives`. -/
def sampleKmacMaster : NodeEd25519 :=
  NodeEd25519.new4
    (some (slice (sampleKmacPrimitives.kmac256 (NodeEd25519.utf8 "ed25519 seed")
      (fromHex sampleSeedHex.data) []) 0 32)) none
    ((sampleKmacPrimitives.kmac256 (NodeEd25519.utf8 "ed25519 seed")
      (fromHex sampleSeedHex.data) []).drop 32) Network.BITXOR

/-- The node `sampleKmacMaster.deriveHardened(0)` returns: its halves come from
`hmacSha512`. -/
def sampleKmacChild : NodeEd25519 :=
  NodeEd25519.new4
    (some (slice (sampleKmacPrimitives.hmacSha512 sampleKmacMaster.chainCode
      ([0] ++ slice (sampleKmacPrimitives.kmac256 (NodeEd25519.utf8 "ed25519 seed")
        (fromHex sampleSeedHex.data) []) 0 32 ++ be32 2147483648)) 0 32)) none
    ((sampleKmacPrimitives.hmacSha512 sampleKmacMaster.chainCode
      ([0] ++ slice (sampleKmacPrimitives.kmac256 (NodeEd25519.utf8 "ed25519 seed")
        (fromHex sampleSeedHex.data) []) 0 32 ++ be32 2147483648)).drop 32) Network.BITXOR

/-! # Theorems -/

open RegularExpression

/-! ## Buffers: one write after the other -/

theorem length_allocUnsafe (mem : Nat → Byte) (n : Nat) : (allocUnsafe mem n).length = n := by
  simp [allocUnsafe]

theorem length_be32 (v : Nat) : (be32 v).length = 4 := rfl

/-- One write into a buffer whose first `k` bytes are already known. -/
theorem copy_step (w src b0 : Buffer) (k : Nat) (hw : w.length = k) :
    copy src (w ++ b0.drop k) k = w ++ src.take (b0.length - k) ++ b0.drop (k + src.length) := by
  unfold copy
  have h1 : (w ++ List.drop k b0).take k = w := by
    rw [List.take_append_of_le_length (by omega)]
    exact List.take_of_length_le (by omega)
  have h2 : (w ++ List.drop k b0).length - k = b0.length - k := by
    simp [List.length_append, hw]
  have h3 : (w ++ List.drop k b0).drop (k + src.length) = b0.drop (k + src.length) := by
    rw [List.drop_append_eq_append_drop]
    rw [List.drop_of_length_le (by omega)]
    simp [hw, List.drop_drop]
  rw [h1, h2, h3]

theorem copy_step_fit (w src b0 : Buffer) (k m : Nat) (hw : w.length = k)
    (hm : k + src.length = m) (hk : m ≤ b0.length) :
    copy src (w ++ b0.drop k) k = (w ++ src) ++ b0.drop m := by
  subst hm
  rw [copy_step w src b0 k hw, List.take_of_length_le (by omega)]

/-- A 32-bit write fills a buffer of four bytes, whatever the buffer held. -/
theorem writeUInt32BE_allocUnsafe (mem : Nat → Byte) (v : Int) :
    writeUInt32BE (allocUnsafe mem 4) v 0 =
      if v < 0 ∨ 4294967295 < v then .error Err.outOfRange else .ok (be32 v.toNat) := by
  unfold writeUInt32BE
  split_ifs
  · rfl
  · have := copy_step_fit [] (be32 v.toNat) (allocUnsafe mem 4) 0 4 rfl rfl
      (by rw [length_allocUnsafe])
    have hd4 : List.drop 4 (allocUnsafe mem 4) = [] :=
      List.drop_of_length_le (by rw [length_allocUnsafe])
    rw [hd4] at this
    simpa using this

theorem writeUInt32BE_nat (buf : Buffer) (v off : Nat) (h : v < 2 ^ 32) :
    writeUInt32BE buf (v : Int) off = .ok (copy (be32 v) buf off) := by
  unfold writeUInt32BE
  rw [if_neg (by omega)]
  simp

theorem writeUInt8_nat (buf : Buffer) (v off : Nat) (h : v ≤ 255) :
    writeUInt8 buf (v : Int) off = .ok (copy [byte v] buf off) := by
  unfold writeUInt8
  rw [if_neg (by omega)]
  simp

theorem length_header (v d p i : Nat) : (header v d p i).length = 13 := rfl

namespace NodeEd25519

theorem toBase58Buffer_private (P : Primitives) (mem : Nat → Byte) (n : NodeEd25519)
    (d : Buffer) (hD : n.D = some d) (hv : n.network.privateKeyPrefix < 2 ^ 32)
    (hd : n.DEPTH ≤ 255) (hp : n.PARENT_FINGERPRINT < 2 ^ 32) (hi : n.INDEX < 2 ^ 32)
    (hcc : n.chainCode.length = 32) :
    toBase58Buffer P mem n = .ok (header n.network.privateKeyPrefix n.DEPTH
      n.PARENT_FINGERPRINT n.INDEX ++ n.chainCode ++ [0] ++ d.take 32
      ++ (allocUnsafe mem 78).drop (46 + d.length)) := by
  have hlen := length_allocUnsafe mem 78
  have e0 : copy (be32 n.network.privateKeyPrefix) (allocUnsafe mem 78) 0
      = be32 n.network.privateKeyPrefix ++ (allocUnsafe mem 78).drop 4 := by
    have := copy_step_fit [] (be32 n.network.privateKeyPrefix) (allocUnsafe mem 78) 0 4 rfl rfl
      (by omega)
    simpa using this
  unfold toBase58Buffer
  simp only [isNeutered, hD, Option.isNone_some, Bool.not_false, if_true, privateKey]
  rw [writeUInt32BE_nat _ _ _ hv]
  simp only [Except.bind, bind, pure, Except.pure]
  rw [e0, writeUInt8_nat _ _ _ hd]
  simp only
  rw [copy_step_fit (be32 _) [byte _] (allocUnsafe mem 78) 4 5 rfl rfl (by omega)]
  rw [writeUInt32BE_nat _ _ _ hp]
  simp only
  rw [copy_step_fit (be32 _ ++ [byte _]) (be32 _) (allocUnsafe mem 78) 5 9 rfl rfl (by omega)]
  rw [writeUInt32BE_nat _ _ _ hi]
  simp only
  rw [copy_step_fit (be32 _ ++ [byte _] ++ be32 _) (be32 _) (allocUnsafe mem 78) 9 13 rfl rfl
    (by omega)]
  rw [copy_step_fit (be32 _ ++ [byte _] ++ be32 _ ++ be32 _) n.chainCode (allocUnsafe mem 78)
    13 45 rfl (by simp [hcc]) (by omega)]
  have h8 := writeUInt8_nat (be32 n.network.privateKeyPrefix ++ [byte n.DEPTH]
    ++ be32 n.PARENT_FINGERPRINT ++ be32 n.INDEX ++ n.chainCode
    ++ List.drop 45 (allocUnsafe mem 78)) 0 45 (by omega)
  simp only [Nat.cast_zero] at h8
  rw [h8]
  simp only
  rw [copy_step_fit _ [byte 0] (allocUnsafe mem 78) 45 46 (by simp [hcc, length_be32]) rfl
    (by omega)]
  rw [copy_step _ d (allocUnsafe mem 78) 46 (by simp [hcc, length_be32])]
  simp [header, hlen, byte]

theorem toBase58Buffer_public (P : Primitives) (mem : Nat → Byte) (n : NodeEd25519)
    (q : Buffer) (hD : n.D = none) (hQ : n.Q = some q)
    (hv : n.network.publicKeyPrefix < 2 ^ 32)
    (hd : n.DEPTH ≤ 255) (hp : n.PARENT_FINGERPRINT < 2 ^ 32) (hi : n.INDEX < 2 ^ 32)
    (hcc : n.chainCode.length = 32) :
    toBase58Buffer P mem n = .ok (header n.network.publicKeyPrefix n.DEPTH
      n.PARENT_FINGERPRINT n.INDEX ++ n.chainCode ++ q.take 33
      ++ (allocUnsafe mem 78).drop (45 + q.length)) := by
  have hlen := length_allocUnsafe mem 78
  have e0 : copy (be32 n.network.publicKeyPrefix) (allocUnsafe mem 78) 0
      = be32 n.network.publicKeyPrefix ++ (allocUnsafe mem 78).drop 4 := by
    have := copy_step_fit [] (be32 n.network.publicKeyPrefix) (allocUnsafe mem 78) 0 4 rfl rfl
      (by omega)
    simpa using this
  unfold toBase58Buffer
  simp only [isNeutered, hD, Option.isNone_none, Bool.not_true, publicKey, hQ]
  rw [if_neg (by simp), writeUInt32BE_nat _ _ _ hv]
  simp only [Except.bind, bind, pure, Except.pure]
  rw [e0, writeUInt8_nat _ _ _ hd]
  simp only
  rw [copy_step_fit (be32 _) [byte _] (allocUnsafe mem 78) 4 5 rfl rfl (by omega)]
  rw [writeUInt32BE_nat _ _ _ hp]
  simp only
  rw [copy_step_fit (be32 _ ++ [byte _]) (be32 _) (allocUnsafe mem 78) 5 9 rfl rfl (by omega)]
  rw [writeUInt32BE_nat _ _ _ hi]
  simp only
  rw [copy_step_fit (be32 _ ++ [byte _] ++ be32 _) (be32 _) (allocUnsafe mem 78) 9 13 rfl rfl
    (by omega)]
  rw [copy_step_fit (be32 _ ++ [byte _] ++ be32 _ ++ be32 _) n.chainCode (allocUnsafe mem 78)
    13 45 rfl (by simp [hcc]) (by omega)]
  rw [if_neg (by simp)]
  rw [copy_step _ q (allocUnsafe mem 78) 45 (by simp [hcc, length_be32])]
  simp [header, hlen]

end NodeEd25519

/-! ## Reading a payload -/

theorem byte_val (n : Nat) : (byte n).val = n % 256 := rfl

theorem be32_value (v : Nat) (h : v < 2 ^ 32) :
    (byte (v / 2 ^ 24)).val * 2 ^ 24 + (byte (v / 2 ^ 16)).val * 2 ^ 16
      + (byte (v / 2 ^ 8)).val * 2 ^ 8 + (byte v).val = v := by
  simp only [byte_val]
  omega

theorem length_payload (v d p i : Nat) (cc key : Buffer) (hcc : cc.length = 32)
    (hkey : key.length = 33) : (header v d p i ++ cc ++ key).length = 78 := by
  simp [length_header, hcc, hkey]

theorem read_version (v d p i : Nat) (rest : Buffer) (hv : v < 2 ^ 32) :
    readUInt32BE (header v d p i ++ rest) 0 = v := by
  have := be32_value v hv
  simpa [readUInt32BE, readUInt8, header, be32] using this

theorem read_depth (v d p i : Nat) (rest : Buffer) (hd : d ≤ 255) :
    readUInt8 (header v d p i ++ rest) 4 = d := by
  simp [readUInt8, header, be32, byte_val]
  omega

theorem read_parentFingerprint (v d p i : Nat) (rest : Buffer) (hp : p < 2 ^ 32) :
    readUInt32BE (header v d p i ++ rest) 5 = p := by
  have := be32_value p hp
  simpa [readUInt32BE, readUInt8, header, be32] using this

theorem read_index (v d p i : Nat) (rest : Buffer) (hi : i < 2 ^ 32) :
    readUInt32BE (header v d p i ++ rest) 9 = i := by
  have := be32_value i hi
  simpa [readUInt32BE, readUInt8, header, be32] using this

theorem slice_chainCode (v d p i : Nat) (cc key : Buffer) (hcc : cc.length = 32) :
    slice (header v d p i ++ cc ++ key) 13 45 = cc := by
  unfold slice
  rw [List.append_assoc, List.take_append_eq_append_take, List.drop_append_eq_append_drop]
  simp [length_header, hcc, List.take_append_eq_append_take]

theorem slice_key (v d p i : Nat) (cc key : Buffer) (hcc : cc.length = 32)
    (hkey : key.length = 33) :
    slice (header v d p i ++ cc ++ key) 45 78 = key := by
  unfold slice
  rw [List.take_of_length_le (by simp [length_header, hcc, hkey])]
  rw [List.drop_append_eq_append_drop]
  simp [length_header, hcc]

theorem slice_privateKey (v d p i : Nat) (cc key : Buffer) (hcc : cc.length = 32)
    (hkey : key.length = 33) :
    slice (header v d p i ++ cc ++ key) 46 78 = key.drop 1 := by
  unfold slice
  rw [List.take_of_length_le (by simp [length_header, hcc, hkey])]
  rw [List.drop_append_eq_append_drop]
  simp [length_header, hcc]

theorem read_marker (v d p i : Nat) (cc key : Buffer) (hcc : cc.length = 32) :
    readUInt8 (header v d p i ++ cc ++ key) 45 = (key.getD 0 0).val := by
  unfold readUInt8
  rw [List.getD_append_right _ _ _ _ (by simp [length_header, hcc])]
  simp [length_header, hcc]

namespace NodeEd25519

/-- What `fromBase58` makes of a decoded payload, field by field. -/
theorem fromPayload_layout (v d p i : Nat) (cc key : Buffer) (network : Network)
    (hv : v < 2 ^ 32) (hd : d ≤ 255) (hp : p < 2 ^ 32) (hi : i < 2 ^ 32)
    (hcc : cc.length = 32) (hkey : key.length = 33) :
    fromPayload (header v d p i ++ cc ++ key) network =
      if v ≠ Network.BITXOR.privateKeyPrefix ∧ v ≠ Network.BITXOR.publicKeyPrefix then
        .error Err.payloadVersion
      else if d = 0 ∧ p ≠ 0 then .error (Err.masterWithParent p)
      else if d = 0 ∧ i ≠ 0 then .error (Err.masterWithIndex i)
      else if v = Network.BITXOR.privateKeyPrefix then
        if (key.getD 0 0).val ≠ 0 then .error Err.privateKeyMarker
        else .ok (new (some (key.drop 1)) none cc network d i p)
      else .ok (new none (some key) cc network d i p) := by
  unfold fromPayload
  rw [if_neg (by rw [length_payload v d p i cc key hcc hkey]; simp)]
  simp only [slice_chainCode v d p i cc key hcc, slice_key v d p i cc key hcc hkey,
    slice_privateKey v d p i cc key hcc hkey, read_marker v d p i cc key hcc]
  simp only [List.append_assoc, read_version v d p i _ hv, read_depth v d p i _ hd,
    read_parentFingerprint v d p i _ hp, read_index v d p i _ hi]

end NodeEd25519

/-! ## The sample codec -/

set_option maxRecDepth 100000 in
theorem sample_byte_char (x : Byte) : byte (Char.ofNat x.val).toNat = x := by
  revert x
  decide

theorem samplePrimitives_codec (b : Buffer) :
    samplePrimitives.bs58decode (samplePrimitives.bs58encode b) = some b := by
  simp only [samplePrimitives, List.map_map]
  congr 1
  conv_rhs => rw [← List.map_id b]
  apply List.map_congr_left
  intro x _
  exact sample_byte_char x

/-! ## Child derivation -/

namespace NodeEd25519

/-- The node `CKDPriv` returns for a parent with a private key and a 32-bit index. -/
theorem CKDPriv_ok (P : Primitives) (p : NodeEd25519) (d : Buffer) (i : Int) (m : MACType)
    (hd : p.D = some d) (h0 : 0 ≤ i) (h1 : i < 2 ^ 32) :
    CKDPriv P p i m = .ok (new4
      (some (slice (MACImpl.create P m p.chainCode ([0] ++ d ++ be32 i.toNat) none) 0 32))
      none
      ((MACImpl.create P m p.chainCode ([0] ++ d ++ be32 i.toNat) none).drop 32)
      p.network) := by
  unfold CKDPriv
  rw [writeUInt32BE_allocUnsafe, if_neg (by omega)]
  simp only [privateKey, hd]
  rfl

theorem derive_private (P : Primitives) (p : NodeEd25519) (d : Buffer) (i : Int)
    (hd : p.D = some d) : p.derive P i = CKDPriv P p i MACType.HMAC := by
  unfold derive
  simp [isNeutered, hd]

/-- C1 (as the code behaves): for a parent with a private key and an index `i` with
`2^31 ≤ i < 2^32`, `derive(i)` returns a child built with the constructor defaults:
its depth, index and parent fingerprint are all `0`, so its depth is not
`p.depth + 1` and its index is not `i`. -/
theorem derive_child_has_default_metadata (P : Primitives) (p : NodeEd25519) (d : Buffer)
    (i : Int) (hd : p.D = some d) (hlo : 2 ^ 31 ≤ i) (hhi : i < 2 ^ 32) :
    ∃ child, p.derive P i = .ok child ∧ child.DEPTH = 0 ∧ child.INDEX = 0 ∧
      child.PARENT_FINGERPRINT = 0 ∧ child.DEPTH ≠ p.DEPTH + 1 ∧ (child.INDEX : Int) ≠ i := by
  rw [derive_private P p d i hd, CKDPriv_ok P p d i _ hd (by omega) hhi]
  refine ⟨_, rfl, rfl, rfl, rfl, ?_, ?_⟩
  · simp [new4, new]
  · simp only [new4, new]
    omega

theorem derive_child_has_default_metadata_witness :
    ∃ child, sampleChild.derive samplePrimitives 2147483649 = .ok child ∧ child.DEPTH = 0 ∧
      child.INDEX = 0 ∧ child.PARENT_FINGERPRINT = 0 ∧ child.DEPTH ≠ sampleChild.DEPTH + 1 ∧
      (child.INDEX : Int) ≠ 2147483649 :=
  derive_child_has_default_metadata samplePrimitives sampleChild (List.replicate 32 7)
    2147483649 rfl (by decide) (by decide)

/-- C5 (as the code behaves): for an index `0 ≤ i < 2^31`, `derive(i)` fails with the
non-hardened error on a neutered node, and on a node with a private key it does not
fail: it returns the node `CKDPriv(node, i)`. -/
theorem derive_nonHardened (P : Primitives) (p : NodeEd25519) (i : Int)
    (hlo : 0 ≤ i) (hhi : i < 2 ^ 31) :
    (p.isNeutered = true → p.derive P i = .error Err.nonHardened) ∧
    (p.isNeutered = false →
      ∃ child, p.derive P i = .ok child ∧ CKDPriv P p i MACType.HMAC = .ok child) := by
  constructor
  · intro hn
    unfold derive
    have h : ¬ HIGHEST_BIT ≤ i := by unfold HIGHEST_BIT; omega
    simp [hn, h]
  · intro hn
    obtain ⟨d, hd⟩ : ∃ d, p.D = some d := by
      cases h : p.D with
      | none => simp [isNeutered, h] at hn
      | some d => exact ⟨d, rfl⟩
    rw [derive_private P p d i hd, CKDPriv_ok P p d i _ hd hlo (by omega)]
    exact ⟨_, rfl, rfl⟩

theorem derive_nonHardened_witness :
    (sampleMaster.isNeutered = true →
      sampleMaster.derive samplePrimitives 0 = .error Err.nonHardened) ∧
    (sampleMaster.isNeutered = false →
      ∃ child, sampleMaster.derive samplePrimitives 0 = .ok child ∧
        CKDPriv samplePrimitives sampleMaster 0 MACType.HMAC = .ok child) :=
  derive_nonHardened samplePrimitives sampleMaster 0 (by decide) (by decide)

end NodeEd25519

/-! ## Serialization round trips -/

namespace NodeEd25519

theorem BITXOR_privateKeyPrefix : Network.BITXOR.privateKeyPrefix = 0x0488ade4 := rfl

theorem BITXOR_publicKeyPrefix : Network.BITXOR.publicKeyPrefix = 0x0488b21e := rfl

/-- C2: an extended private key on `Network.BITXOR` survives `toBase58` followed by
`fromBase58` (given that the Base58Check decoder inverts the encoder): the parsed node
has a private key, and its private key, chain code, depth, index, parent fingerprint
and network are those of the node that was serialized. -/
theorem fromBase58_toBase58_private (P : Primitives) (mem : Nat → Byte) (n : NodeEd25519)
    (d : Buffer) (hcodec : ∀ b, P.bs58decode (P.bs58encode b) = some b)
    (hnet : n.network = Network.BITXOR) (hD : n.D = some d) (hdl : d.length = 32)
    (hcc : n.chainCode.length = 32) (hdepth : n.DEPTH ≤ 255) (hidx : n.INDEX < 2 ^ 32)
    (hpf : n.PARENT_FINGERPRINT < 2 ^ 32)
    (hmaster : n.DEPTH = 0 → n.PARENT_FINGERPRINT = 0 ∧ n.INDEX = 0) :
    ∃ s m, n.toBase58 P mem = .ok s ∧ fromBase58 P s n.network = .ok m ∧
      m.isNeutered = false ∧ m.D = some d ∧ m.chainCode = n.chainCode ∧
      m.DEPTH = n.DEPTH ∧ m.INDEX = n.INDEX ∧
      m.PARENT_FINGERPRINT = n.PARENT_FINGERPRINT ∧ m.network = n.network := by
  have hbuf := toBase58Buffer_private P mem n d hD (by rw [hnet]; decide) hdepth hpf hidx hcc
  have hdrop : (allocUnsafe mem 78).drop (46 + d.length) = [] :=
    List.drop_of_length_le (by rw [length_allocUnsafe, hdl])
  rw [hdrop, List.take_of_length_le (by omega), List.append_nil,
    List.append_assoc _ [0] d] at hbuf
  refine ⟨_, new (some d) none n.chainCode n.network n.DEPTH n.INDEX n.PARENT_FINGERPRINT,
    by simp only [toBase58, hbuf]; rfl, ?_, rfl, rfl, rfl, rfl, rfl, rfl, rfl⟩
  unfold fromBase58
  rw [hcodec]
  simp only
  rw [fromPayload_layout _ _ _ _ _ _ _ (by rw [hnet]; decide) hdepth hpf hidx hcc
    (by simp [hdl])]
  rw [if_neg (by simp [hnet])]
  rw [if_neg (fun h => by have := hmaster h.1; omega)]
  rw [if_neg (fun h => by have := hmaster h.1; omega)]
  rw [if_pos (by rw [hnet]), if_neg (by simp)]
  rfl

theorem fromBase58_toBase58_private_witness :
    ∃ s m, sampleChild.toBase58 samplePrimitives (fun _ => 255) = .ok s ∧
      fromBase58 samplePrimitives s sampleChild.network = .ok m ∧
      m.isNeutered = false ∧ m.D = some (List.replicate 32 7) ∧
      m.chainCode = sampleChild.chainCode ∧
      m.DEPTH = sampleChild.DEPTH ∧ m.INDEX = sampleChild.INDEX ∧
      m.PARENT_FINGERPRINT = sampleChild.PARENT_FINGERPRINT ∧
      m.network = sampleChild.network :=
  fromBase58_toBase58_private samplePrimitives (fun _ => 255) sampleChild
    (List.replicate 32 7) samplePrimitives_codec rfl rfl rfl rfl (by decide) (by decide)
    (by decide) (by decide)

/-- C3 (as the code behaves): let `n0` be a node on `Network.BITXOR` with a 32-byte
private key and no stored public key (what `fromSeed` and `CKDPriv` return), whose
Ed25519 public key `pk` has 32 bytes. Then `n0.neutered()` has the public key `pk`, its
`toBase58()` leaves byte 77 of the unsafely allocated buffer as it was, and
`fromBase58` of that text is a neutered node whose public key is the 33 bytes
`pk ++ [mem 77]`: not the public key that was serialized. -/
theorem fromBase58_toBase58_neutered (P : Primitives) (mem : Nat → Byte) (n0 : NodeEd25519)
    (d : Buffer) (hcodec : ∀ b, P.bs58decode (P.bs58encode b) = some b)
    (hnet : n0.network = Network.BITXOR) (hD : n0.D = some d) (hQ : n0.Q = none)
    (hdl : d.length = 32) (hpk : (P.ed25519PublicKey d).length = 32)
    (hcc : n0.chainCode.length = 32) (hdepth : n0.DEPTH ≤ 255) (hidx : n0.INDEX < 2 ^ 32)
    (hpf : n0.PARENT_FINGERPRINT < 2 ^ 32)
    (hmaster : n0.DEPTH = 0 → n0.PARENT_FINGERPRINT = 0 ∧ n0.INDEX = 0) :
    ∃ n s m, n0.neutered P = .ok n ∧ n.publicKey P = .ok (P.ed25519PublicKey d) ∧
      n.toBase58 P mem = .ok s ∧ fromBase58 P s n.network = .ok m ∧
      m.isNeutered = true ∧ m.publicKey P = .ok (P.ed25519PublicKey d ++ [mem 77]) ∧
      m.publicKey P ≠ n.publicKey P ∧
      m.chainCode = n.chainCode ∧ m.DEPTH = n.DEPTH ∧ m.INDEX = n.INDEX ∧
      m.PARENT_FINGERPRINT = n.PARENT_FINGERPRINT := by
  have hneut : n0.neutered P = .ok (new none (some (P.ed25519PublicKey d)) n0.chainCode
      n0.network n0.DEPTH n0.INDEX n0.PARENT_FINGERPRINT) := by
    simp [neutered, publicKey, hQ, privateKey, hD, keyPairFromSeed, hdl, bind, Except.bind,
      pure, Except.pure]
  have hbuf := toBase58Buffer_public P mem
    (new none (some (P.ed25519PublicKey d)) n0.chainCode n0.network n0.DEPTH n0.INDEX
      n0.PARENT_FINGERPRINT) (P.ed25519PublicKey d) rfl rfl
    (by show n0.network.publicKeyPrefix < 2 ^ 32; rw [hnet]; decide) hdepth hpf hidx hcc
  simp only [new] at hbuf hneut
  have hdrop : (allocUnsafe mem 78).drop (45 + (P.ed25519PublicKey d).length) = [mem 77] := by
    rw [hpk]
    rfl
  rw [hdrop, List.take_of_length_le (by omega), List.append_assoc _ _ [mem 77]] at hbuf
  refine ⟨_, _, ⟨none, some (P.ed25519PublicKey d ++ [mem 77]), n0.chainCode, n0.network,
    n0.DEPTH, n0.INDEX, n0.PARENT_FINGERPRINT⟩, hneut, rfl,
    by simp only [toBase58, hbuf]; rfl, ?_, rfl, rfl, ?_, rfl, rfl, rfl, rfl⟩
  · unfold fromBase58
    rw [hcodec]
    simp only [new]
    rw [fromPayload_layout _ _ _ _ _ _ _
      (by rw [hnet]; decide) hdepth hpf hidx hcc (by simp [hpk])]
    have hv : n0.network.publicKeyPrefix = 0x0488b21e := by rw [hnet]; rfl
    rw [hv]
    rw [if_neg (by simp [BITXOR_publicKeyPrefix])]
    rw [if_neg (fun h => by have := hmaster h.1; omega)]
    rw [if_neg (fun h => by have := hmaster h.1; omega)]
    rw [if_neg (by simp [BITXOR_privateKeyPrefix])]
    rfl
  · intro h
    simp [publicKey] at h

theorem fromBase58_toBase58_neutered_witness :
    ∃ n s m, sampleMaster.neutered samplePrimitives = .ok n ∧
      n.publicKey samplePrimitives =
        .ok (samplePrimitives.ed25519PublicKey (List.replicate 32 7)) ∧
      n.toBase58 samplePrimitives (fun _ => 255) = .ok s ∧
      fromBase58 samplePrimitives s n.network = .ok m ∧
      m.isNeutered = true ∧
      m.publicKey samplePrimitives =
        .ok (samplePrimitives.ed25519PublicKey (List.replicate 32 7) ++ [255]) ∧
      m.publicKey samplePrimitives ≠ n.publicKey samplePrimitives ∧
      m.chainCode = n.chainCode ∧ m.DEPTH = n.DEPTH ∧ m.INDEX = n.INDEX ∧
      m.PARENT_FINGERPRINT = n.PARENT_FINGERPRINT :=
  fromBase58_toBase58_neutered samplePrimitives (fun _ => 255) sampleMaster
    (List.replicate 32 7) samplePrimitives_codec rfl rfl rfl rfl rfl rfl (by decide)
    (by decide) (by decide) (by decide)

end NodeEd25519

/-! ## The version test of `fromBase58` -/

namespace NodeEd25519

/-- The version test of `fromBase58` on a payload of 78 bytes: it reads the two
prefixes of `Network.BITXOR`, whatever the network argument is. -/
theorem fromPayload_version (b : Buffer) (N : Network) (hb : b.length = 78) :
    fromPayload b N = .error Err.payloadVersion ↔
      readUInt32BE b 0 ≠ Network.BITXOR.privateKeyPrefix ∧
      readUInt32BE b 0 ≠ Network.BITXOR.publicKeyPrefix := by
  unfold fromPayload
  rw [if_neg (by simp [hb])]
  constructor
  · intro h
    by_contra hc
    rw [if_neg hc] at h
    dsimp only at h
    split_ifs at h <;> cases h
  · intro h
    rw [if_pos h]

/-- C4 (as the code behaves): `fromBase58(text, N)` tests the version of a 78-byte
payload against the prefixes of `Network.BITXOR`, not against those of `N`; so the
text that `toBase58` makes of a node with a private key on a network `N` whose private
prefix is neither `0x0488ade4` nor `0x0488b21e` is rejected by `fromBase58(text, N)`
with the version error. -/
theorem fromBase58_version_not_from_network (P : Primitives) (mem : Nat → Byte)
    (n : NodeEd25519) (d : Buffer) (hcodec : ∀ b, P.bs58decode (P.bs58encode b) = some b)
    (hD : n.D = some d) (hdl : d.length = 32) (hcc : n.chainCode.length = 32)
    (hdepth : n.DEPTH ≤ 255) (hidx : n.INDEX < 2 ^ 32) (hpf : n.PARENT_FINGERPRINT < 2 ^ 32)
    (hv : n.network.privateKeyPrefix < 2 ^ 32)
    (hv1 : n.network.privateKeyPrefix ≠ 0x0488ade4)
    (hv2 : n.network.privateKeyPrefix ≠ 0x0488b21e) :
    (∀ (b : Buffer) (N : Network), b.length = 78 →
      (fromPayload b N = .error Err.payloadVersion ↔
        readUInt32BE b 0 ≠ Network.BITXOR.privateKeyPrefix ∧
        readUInt32BE b 0 ≠ Network.BITXOR.publicKeyPrefix)) ∧
    ∃ s, n.toBase58 P mem = .ok s ∧ fromBase58 P s n.network = .error Err.payloadVersion := by
  refine ⟨fun b N hb => fromPayload_version b N hb, ?_⟩
  have hbuf := toBase58Buffer_private P mem n d hD hv hdepth hpf hidx hcc
  have hdrop : (allocUnsafe mem 78).drop (46 + d.length) = [] :=
    List.drop_of_length_le (by rw [length_allocUnsafe, hdl])
  rw [hdrop, List.take_of_length_le (by omega), List.append_nil,
    List.append_assoc _ [0] d] at hbuf
  refine ⟨_, by simp only [toBase58, hbuf]; rfl, ?_⟩
  unfold fromBase58
  rw [hcodec]
  simp only
  rw [fromPayload_layout _ _ _ _ _ _ _ hv hdepth hpf hidx hcc (by simp [hdl])]
  rw [if_pos ⟨by simpa [BITXOR_privateKeyPrefix] using hv1,
    by simpa [BITXOR_publicKeyPrefix] using hv2⟩]

theorem fromBase58_version_not_from_network_witness :
    (∀ (b : Buffer) (N : Network), b.length = 78 →
      (fromPayload b N = .error Err.payloadVersion ↔
        readUInt32BE b 0 ≠ Network.BITXOR.privateKeyPrefix ∧
        readUInt32BE b 0 ≠ Network.BITXOR.publicKeyPrefix)) ∧
    ∃ s, sampleTestnetNode.toBase58 samplePrimitives (fun _ => 0) = .ok s ∧
      fromBase58 samplePrimitives s sampleNetwork = .error Err.payloadVersion :=
  fromBase58_version_not_from_network samplePrimitives (fun _ => 0) sampleTestnetNode
    (List.replicate 32 7) samplePrimitives_codec rfl rfl rfl (by decide) (by decide)
    (by decide) (by decide) (by decide) (by decide)

end NodeEd25519

/-! ## The path expression: segments -/

namespace NodeEd25519

theorem isDecimalDigit_iff (c : Char) :
    isDecimalDigit c = true ↔ c = '0' ∨ c = '1' ∨ c = '2' ∨ c = '3' ∨ c = '4' ∨ c = '5' ∨
      c = '6' ∨ c = '7' ∨ c = '8' ∨ c = '9' := by
  simp [isDecimalDigit]

theorem reDigit_rmatch_iff (x : List Char) :
    reDigit.rmatch x ↔ ∃ c, x = [c] ∧ isDecimalDigit c = true := by
  simp only [reDigit, plus_def, add_rmatch_iff, char_rmatch_iff, isDecimalDigit_iff]
  constructor
  · intro h
    rcases h with h | h | h | h | h | h | h | h | h | h <;> exact ⟨_, h, by simp⟩
  · rintro ⟨c, rfl, h⟩
    simpa using h

theorem isDecimalDigit_ne_slash (c : Char) (h : isDecimalDigit c = true) : c ≠ '/' := by
  rw [isDecimalDigit_iff] at h
  rcases h with h | h | h | h | h | h | h | h | h | h <;> subst h <;> decide

theorem isDecimalDigit_ne_apostrophe (c : Char) (h : isDecimalDigit c = true) :
    c ≠ apostrophe := by
  rw [isDecimalDigit_iff] at h
  rcases h with h | h | h | h | h | h | h | h | h | h <;> subst h <;> decide

theorem isDecimalDigit_ne_m (c : Char) (h : isDecimalDigit c = true) : c ≠ 'm' := by
  rw [isDecimalDigit_iff] at h
  rcases h with h | h | h | h | h | h | h | h | h | h <;> subst h <;> decide

theorem isDecimalDigit_isDigit (c : Char) (h : isDecimalDigit c = true) : c.isDigit = true := by
  rw [isDecimalDigit_iff] at h
  rcases h with h | h | h | h | h | h | h | h | h | h <;> subst h <;> decide

theorem flatten_singletons (x : List Char) : (x.map (fun c => [c])).flatten = x := by
  induction x with
  | nil => rfl
  | cons a x ih => simp [ih]

/-- The expression `\d*` matches the strings of digits. -/
theorem star_reDigit_rmatch_iff (x : List Char) :
    (star reDigit).rmatch x ↔ ∀ c ∈ x, isDecimalDigit c = true := by
  rw [star_rmatch_iff]
  constructor
  · rintro ⟨S, rfl, hS⟩ c hc
    rw [List.mem_flatten] at hc
    obtain ⟨t, ht, hct⟩ := hc
    obtain ⟨c', rfl, hc'⟩ := (reDigit_rmatch_iff t).1 (hS t ht).2
    rw [List.mem_singleton] at hct
    simpa [hct] using hc'
  · intro h
    refine ⟨x.map (fun c => [c]), (flatten_singletons x).symm, ?_⟩
    · intro t ht
      rw [List.mem_map] at ht
      obtain ⟨c, hc, rfl⟩ := ht
      exact ⟨by simp, (reDigit_rmatch_iff _).2 ⟨c, rfl, h c hc⟩⟩

/-- The expression `\d+` matches the non-empty strings of digits. -/
theorem rePlus_reDigit_rmatch_iff (x : List Char) :
    (rePlus reDigit).rmatch x ↔ x ≠ [] ∧ ∀ c ∈ x, isDecimalDigit c = true := by
  simp only [rePlus, comp_def, mul_rmatch_iff, reDigit_rmatch_iff, star_reDigit_rmatch_iff]
  constructor
  · rintro ⟨t, u, rfl, ⟨c, rfl, hc⟩, hu⟩
    refine ⟨by simp, ?_⟩
    intro c' hc'
    simp only [List.singleton_append, List.mem_cons] at hc'
    rcases hc' with rfl | hc'
    · exact hc
    · exact hu c' hc'
  · rintro ⟨hne, h⟩
    cases x with
    | nil => exact absurd rfl hne
    | cons a x =>
      exact ⟨[a], x, rfl, ⟨a, rfl, h a (by simp)⟩, fun c hc => h c (by simp [hc])⟩

/-- The shape of a segment: digits, then nothing or one apostrophe. -/
theorem isSegment_iff (s : List Char) :
    isSegment s = true ↔ ∃ ds, ds ≠ [] ∧ (∀ c ∈ ds, isDecimalDigit c = true) ∧
      (s = ds ∨ s = ds ++ [apostrophe]) := by
  unfold isSegment
  constructor
  · intro h
    by_cases hl : s.getLast? = some apostrophe
    · simp only [hl, if_true, Bool.and_eq_true, Bool.not_eq_true', List.isEmpty_eq_false,
        List.all_eq_true] at h
      exact ⟨s.dropLast, h.1, h.2, Or.inr (List.dropLast_append_getLast? _ hl).symm⟩
    · simp only [hl, if_false, Bool.and_eq_true, Bool.not_eq_true', List.isEmpty_eq_false,
        List.all_eq_true] at h
      exact ⟨s, h.1, h.2, Or.inl rfl⟩
  · rintro ⟨ds, hne, hds, h | h⟩
    · rw [h]
      have hl : ds.getLast? ≠ some apostrophe := by
        intro hl
        have hmem := List.mem_of_getLast?_eq_some hl
        exact isDecimalDigit_ne_apostrophe _ (hds _ hmem) rfl
      simp only [hl, if_false, Bool.and_eq_true, Bool.not_eq_true', List.isEmpty_eq_false,
        List.all_eq_true]
      exact ⟨hne, hds⟩
    · rw [h]
      have hl : (ds ++ [apostrophe]).getLast? = some apostrophe := by simp
      simp only [hl, if_true, List.dropLast_concat, Bool.and_eq_true, Bool.not_eq_true',
        List.isEmpty_eq_false, List.all_eq_true]
      exact ⟨hne, hds⟩

/-- The expression `\d+'?` matches the segments. -/
theorem reSegment_rmatch_iff (s : List Char) : reSegment.rmatch s ↔ isSegment s = true := by
  rw [isSegment_iff]
  simp only [reSegment, reOpt, comp_def, plus_def, mul_rmatch_iff, add_rmatch_iff,
    rePlus_reDigit_rmatch_iff, char_rmatch_iff]
  constructor
  · rintro ⟨t, u, rfl, ⟨hne, ht⟩, hu | hu⟩
    · exact ⟨t, hne, ht, Or.inr (by rw [hu])⟩
    · have hu' : u = [] := (one_rmatch_iff u).1 hu
      exact ⟨t, hne, ht, Or.inl (by rw [hu', List.append_nil])⟩
  · rintro ⟨ds, hne, hds, h | h⟩
    · exact ⟨ds, [], by simp [h], ⟨hne, hds⟩, Or.inr ((one_rmatch_iff _).2 rfl)⟩
    · exact ⟨ds, [apostrophe], h, ⟨hne, hds⟩, Or.inl rfl⟩

end NodeEd25519

/-! ## The path expression: splitting at slashes -/

namespace NodeEd25519

theorem split_ne_nil (sep : Char) (x : List Char) : split sep x ≠ [] := by
  induction x with
  | nil => simp [split]
  | cons c cs ih =>
    unfold split
    split_ifs
    · simp
    · split <;> simp

theorem split_of_not_mem (sep : Char) (a : List Char) (h : sep ∉ a) : split sep a = [a] := by
  induction a with
  | nil => rfl
  | cons c cs ih =>
    have hc : c ≠ sep := fun e => h (by simp [e])
    have hcs : sep ∉ cs := fun e => h (by simp [e])
    unfold split
    rw [if_neg hc, ih hcs]

theorem split_append (sep : Char) (a b : List Char) (h : sep ∉ a) :
    split sep (a ++ sep :: b) = a :: split sep b := by
  induction a with
  | nil => simp [split]
  | cons c cs ih =>
    have hc : c ≠ sep := fun e => h (by simp [e])
    have hcs : sep ∉ cs := fun e => h (by simp [e])
    rw [List.cons_append, split, if_neg hc, ih hcs]

/-- A text has no separator, or it has a first one. -/
theorem exists_first_sep (sep : Char) (x : List Char) :
    sep ∉ x ∨ ∃ a b, x = a ++ sep :: b ∧ sep ∉ a := by
  induction x with
  | nil => exact Or.inl (by simp)
  | cons c cs ih =>
    by_cases hc : c = sep
    · exact Or.inr ⟨[], cs, by simp [hc], by simp⟩
    · rcases ih with h | ⟨a, b, hab, ha⟩
      · exact Or.inl (by simp [h, Ne.symm hc])
      · exact Or.inr ⟨c :: a, b, by simp [hab], by simp [ha, Ne.symm hc]⟩

theorem isSegment_no_slash (s : List Char) (h : isSegment s = true) : '/' ∉ s := by
  obtain ⟨ds, _, hds, hs | hs⟩ := (isSegment_iff s).1 h
  · rw [hs]
    intro hm
    exact isDecimalDigit_ne_slash _ (hds _ hm) rfl
  · rw [hs]
    intro hm
    rw [List.mem_append, List.mem_singleton] at hm
    rcases hm with hm | hm
    · exact isDecimalDigit_ne_slash _ (hds _ hm) rfl
    · exact absurd hm (by decide)

theorem isSegment_head (s : List Char) (h : isSegment s = true) :
    ∃ c rest, s = c :: rest ∧ isDecimalDigit c = true := by
  obtain ⟨ds, hne, hds, hs | hs⟩ := (isSegment_iff s).1 h
  · cases ds with
    | nil => exact absurd rfl hne
    | cons c t => exact ⟨c, t, hs, hds c (by simp)⟩
  · cases ds with
    | nil => exact absurd rfl hne
    | cons c t => exact ⟨c, t ++ [apostrophe], by simp [hs], hds c (by simp)⟩

theorem reSegmentSlash_rmatch_iff (s : List Char) :
    (comp reSegment (char '/')).rmatch s ↔ ∃ seg, s = seg ++ ['/'] ∧ isSegment seg = true := by
  simp only [comp_def, mul_rmatch_iff, reSegment_rmatch_iff, char_rmatch_iff]
  constructor
  · rintro ⟨t, u, h, ht, hu⟩
    exact ⟨t, by rw [h, hu], ht⟩
  · rintro ⟨seg, h, hseg⟩
    exact ⟨seg, ['/'], h, hseg, rfl⟩

theorem split_flatten_segments (S : List (List Char)) (u : List Char)
    (hS : ∀ t ∈ S, ∃ seg, t = seg ++ ['/'] ∧ isSegment seg = true) (hu : isSegment u = true) :
    (split '/' (S.flatten ++ u)).all isSegment = true := by
  induction S with
  | nil =>
    simp only [List.flatten_nil, List.nil_append]
    rw [split_of_not_mem _ _ (isSegment_no_slash u hu)]
    simp [hu]
  | cons s S ih =>
    obtain ⟨seg, hs, hseg⟩ := hS s (by simp)
    have ih' := ih (fun t ht => hS t (by simp [ht]))
    rw [List.flatten_cons, hs, List.append_assoc, List.append_assoc, List.singleton_append,
      split_append _ _ _ (isSegment_no_slash seg hseg)]
    simp only [List.all_cons, Bool.and_eq_true]
    exact ⟨hseg, ih'⟩

theorem reBody_of_split (n : Nat) :
    ∀ x : List Char, x.length ≤ n → (split '/' x).all isSegment = true → reBody.rmatch x := by
  induction n with
  | zero =>
    intro x hx h
    have hx' : x = [] := List.length_eq_zero.1 (by omega)
    subst hx'
    simp [split, isSegment] at h
  | succ n ih =>
    intro x hx h
    rcases exists_first_sep '/' x with hno | ⟨a, b, hab, ha⟩
    · rw [split_of_not_mem _ _ hno] at h
      simp only [List.all_cons, List.all_nil, Bool.and_true] at h
      rw [reBody, comp_def, mul_rmatch_iff]
      refine ⟨[], x, rfl, ?_, (reSegment_rmatch_iff x).2 h⟩
      rw [star_rmatch_iff]
      exact ⟨[], rfl, by simp⟩
    · rw [hab, split_append _ _ _ ha] at h
      simp only [List.all_cons, Bool.and_eq_true] at h
      have hb : b.length ≤ n := by
        have := congrArg List.length hab
        simp at this
        omega
      have hrec := ih b hb h.2
      rw [reBody, comp_def, mul_rmatch_iff] at hrec ⊢
      obtain ⟨t, u, htu, ht, hu⟩ := hrec
      rw [star_rmatch_iff] at ht
      obtain ⟨S, hS, hSall⟩ := ht
      refine ⟨a ++ ['/'] ++ t, u, by simp [hab, htu], ?_, hu⟩
      rw [star_rmatch_iff]
      refine ⟨(a ++ ['/']) :: S, by simp [hS], ?_⟩
      intro t' ht'
      rw [List.mem_cons] at ht'
      rcases ht' with rfl | ht'
      · exact ⟨by simp, (reSegmentSlash_rmatch_iff _).2 ⟨a, rfl, h.1⟩⟩
      · exact hSall t' ht'

/-- The expression `(\d+'?\/)*\d+'?` matches the texts whose pieces between slashes
are all segments. -/
theorem reBody_rmatch_iff (x : List Char) :
    reBody.rmatch x ↔ (split '/' x).all isSegment = true := by
  constructor
  · intro h
    rw [reBody, comp_def, mul_rmatch_iff] at h
    obtain ⟨t, u, htu, ht, hu⟩ := h
    rw [star_rmatch_iff] at ht
    obtain ⟨S, hS, hSall⟩ := ht
    rw [htu, hS]
    exact split_flatten_segments S u
      (fun t ht => (reSegmentSlash_rmatch_iff t).1 (hSall t ht).2)
      ((reSegment_rmatch_iff u).1 hu)
  · exact reBody_of_split x.length x (le_refl _)

end NodeEd25519

/-! ## The path expression and the grammar -/

namespace NodeEd25519

theorem pathBody_cases (x : List Char) :
    (∃ rest, x = 'm' :: '/' :: rest ∧ pathBody x = rest ∧ startsWithMaster x = true) ∨
    (pathBody x = x ∧ startsWithMaster x = false ∧ ∀ rest, x ≠ 'm' :: '/' :: rest) := by
  unfold pathBody startsWithMaster
  split
  · exact Or.inl ⟨_, rfl, rfl, rfl⟩
  · rename_i h
    exact Or.inr ⟨rfl, rfl, fun rest e => h rest e⟩

theorem reBody_head (x : List Char) (h : (split '/' x).all isSegment = true) :
    ∃ s rest, split '/' x = s :: rest ∧ isSegment s = true ∧
      ∃ c t, x = c :: t ∧ isDecimalDigit c = true := by
  rcases exists_first_sep '/' x with hno | ⟨a, b, hab, ha⟩
  · rw [split_of_not_mem _ _ hno] at h ⊢
    simp only [List.all_cons, List.all_nil, Bool.and_true] at h
    exact ⟨x, [], rfl, h, isSegment_head x h⟩
  · rw [hab, split_append _ _ _ ha] at h
    rw [hab, split_append _ _ _ ha]
    simp only [List.all_cons, Bool.and_eq_true] at h
    obtain ⟨c, t, hct, hc⟩ := isSegment_head a h.1
    exact ⟨a, _, rfl, h.1, c, t ++ '/' :: b, by simp [hct], hc⟩

/-- The path expression matches a text exactly when the text without its optional
`m/` splits at the slashes into segments. -/
theorem pathRegex_rmatch_iff (x : List Char) :
    pathRegex.rmatch x ↔ (split '/' (pathBody x)).all isSegment = true := by
  rw [← reBody_rmatch_iff]
  simp only [pathRegex, reOpt, comp_def, plus_def, mul_rmatch_iff, add_rmatch_iff,
    char_rmatch_iff]
  constructor
  · rintro ⟨t, u, htu, ht, hu⟩
    rcases ht with ⟨t1, t2, ht12, ht1, ht2⟩ | ht
    · rw [htu, ht12, ht1, ht2]
      exact hu
    · have ht' : t = [] := (one_rmatch_iff t).1 ht
      rw [ht', List.nil_append] at htu
      rw [htu]
      obtain ⟨_, _, _, _, c, r, hcr, hc⟩ := reBody_head u ((reBody_rmatch_iff u).1 hu)
      rcases pathBody_cases u with ⟨rest, hrest, _, _⟩ | ⟨hb, _, _⟩
      · rw [hcr] at hrest
        injection hrest with h1 _
        exact absurd h1 (isDecimalDigit_ne_m c hc)
      · rw [hb]
        exact hu
  · intro h
    rcases pathBody_cases x with ⟨rest, hrest, hb, _⟩ | ⟨hb, _, _⟩
    · rw [hb] at h
      exact ⟨['m', '/'], rest, hrest, Or.inl ⟨['m'], ['/'], rfl, rfl, rfl⟩, h⟩
    · rw [hb] at h
      exact ⟨[], x, rfl, Or.inr ((one_rmatch_iff _).2 rfl), h⟩

/-- The regular expression of `isValidPath` and the grammar of the spec accept the
same paths. -/
theorem isValidPath_eq_pathGrammar (path : String) : isValidPath path = pathGrammar path := by
  have h := pathRegex_rmatch_iff path.data
  unfold isValidPath pathGrammar
  cases h1 : pathRegex.rmatch path.data <;>
    cases h2 : (split '/' (pathBody path.data)).all isSegment <;> simp_all

end NodeEd25519

/-! ## `derivePath` as a fold -/

namespace NodeEd25519

theorem isDecimalDigit_not_whiteSpace (c : Char) (h : isDecimalDigit c = true) :
    isStrWhiteSpaceChar c = false := by
  rw [isDecimalDigit_iff] at h
  rcases h with h | h | h | h | h | h | h | h | h | h <;> subst h <;> decide

theorem isDecimalDigit_not_sign (c : Char) (h : isDecimalDigit c = true) :
    c ≠ '+' ∧ c ≠ '-' := by
  rw [isDecimalDigit_iff] at h
  rcases h with h | h | h | h | h | h | h | h | h | h <;> subst h <;> decide

/-- On a non-empty string of digits `parseInt` gives its decimal value. -/
theorem parseInt_digits (ds : List Char) (hne : ds ≠ [])
    (hds : ∀ c ∈ ds, isDecimalDigit c = true) : parseInt ds = some (digitsValue ds : Int) := by
  cases ds with
  | nil => exact absurd rfl hne
  | cons c t =>
    have hc := hds c (by simp)
    have hw := isDecimalDigit_not_whiteSpace c hc
    have hs := isDecimalDigit_not_sign c hc
    have htw : (c :: t).takeWhile Char.isDigit = c :: t := by
      rw [List.takeWhile_eq_self_iff]
      intro x hx
      exact isDecimalDigit_isDigit x (hds x hx)
    unfold parseInt
    simp only [List.dropWhile_cons, hw, Bool.false_eq_true, if_false, List.head?_cons,
      Option.some.injEq, hs.1, hs.2, or_self, htw]
    simp

/-- The text left of a segment once its apostrophe is gone. -/
theorem segment_digits (s : List Char) (h : isSegment s = true) :
    ∃ ds, ds ≠ [] ∧ (∀ c ∈ ds, isDecimalDigit c = true) ∧ s.erase apostrophe = ds ∧
      s.filter (fun c => c ≠ apostrophe) = ds := by
  obtain ⟨ds, hne, hds, hs | hs⟩ := (isSegment_iff s).1 h
  all_goals
    have hno : apostrophe ∉ ds := fun hm => isDecimalDigit_ne_apostrophe _ (hds _ hm) rfl
    have hf : ds.filter (fun c => c ≠ apostrophe) = ds := by
      rw [List.filter_eq_self]
      intro c hc
      have := isDecimalDigit_ne_apostrophe c (hds c hc)
      simpa using this
    refine ⟨ds, hne, hds, ?_, ?_⟩
  · rw [hs, List.erase_of_not_mem hno]
  · rw [hs, hf]
  · rw [hs, List.erase_append_right _ hno]
    simp
  · rw [hs, List.filter_append, hf]
    simp

theorem parseInt_segment (s : List Char) (h : isSegment s = true) :
    parseInt (s.erase apostrophe) = some (segmentIndex s) := by
  obtain ⟨ds, hne, hds, he, hf⟩ := segment_digits s h
  rw [he, segmentIndex, hf]
  exact parseInt_digits ds hne hds

theorem foldlM_pathStep (P : Primitives) (segs : List (List Char))
    (h : ∀ s ∈ segs, isSegment s = true) (n : NodeEd25519) :
    segs.foldlM (pathStep P) n = hardenedFold P n (segs.map segmentIndex) := by
  induction segs generalizing n with
  | nil => rfl
  | cons s segs ih =>
    rw [List.foldlM_cons, List.map_cons, hardenedFold]
    have hs := parseInt_segment s (h s (by simp))
    simp only [pathStep, hs]
    cases hd : n.deriveHardened P (segmentIndex s) with
    | error e => rfl
    | ok child =>
      simp only [bind, Except.bind]
      exact ih (fun t ht => h t (by simp [ht])) child

theorem derivePath_eq_fold (P : Primitives) (n : NodeEd25519) (path : String)
    (hvalid : isValidPath path = true) :
    n.derivePath P path =
      if startsWithMaster path.data = true ∧ n.PARENT_FINGERPRINT ≠ 0 then .error Err.nonMaster
      else hardenedFold P n (pathIndices path) := by
  have hsegs := (pathRegex_rmatch_iff path.data).1 hvalid
  have hall : ∀ s ∈ split '/' (pathBody path.data), isSegment s = true := by
    simpa [List.all_eq_true] using hsegs
  have hfold := foldlM_pathStep P _ hall
  unfold derivePath pathIndices
  rw [hvalid]
  simp only [Bool.not_true, Bool.false_eq_true, if_false]
  rcases pathBody_cases path.data with ⟨rest, hrest, hb, hm⟩ | ⟨hb, hm, _⟩
  · have hsplit : split '/' path.data = ['m'] :: split '/' rest := by
      rw [hrest]
      exact split_append '/' ['m'] rest (by decide)
    rw [hb] at hfold
    rw [hsplit, hm, hb]
    simp only [List.head?_cons, true_and, if_true, List.drop_one, List.tail_cons]
    split_ifs
    · rfl
    · exact hfold n
  · obtain ⟨s, r, hsr, hseg, _⟩ := reBody_head (pathBody path.data) hsegs
    rw [hb] at hsr hfold
    have hsm : s ≠ ['m'] := by
      intro e
      rw [e] at hseg
      exact absurd hseg (by decide)
    rw [hm, hb, hsr]
    rw [hsr] at hfold
    simp only [List.head?_cons, Option.some.injEq, hsm, false_and, if_false,
      Bool.false_eq_true]
    exact hfold n

end NodeEd25519

/-! ## Errors of `derivePath` -/

namespace NodeEd25519

theorem CKDPriv_error (P : Primitives) (p : NodeEd25519) (i : Int) (m : MACType) (e : Err)
    (h : CKDPriv P p i m = .error e) : isStepError e = true := by
  unfold CKDPriv writeUInt32BE privateKey at h
  split_ifs at h
  · cases h
    rfl
  · cases hD : p.D with
    | none =>
      simp only [hD, bind, Except.bind] at h
      cases h
      rfl
    | some d => simp [hD, bind, Except.bind, pure, Except.pure] at h

theorem deriveHardened_error (P : Primitives) (p : NodeEd25519) (i : Int) (e : Err)
    (h : p.deriveHardened P i = .error e) : isStepError e = true := by
  unfold deriveHardened derive at h
  dsimp only at h
  split_ifs at h
  · cases h; rfl
  · cases h; rfl
  · exact CKDPriv_error P p _ _ e h
  · cases h; rfl

theorem hardenedFold_error (P : Primitives) (is : List Int) (n : NodeEd25519) (e : Err)
    (h : hardenedFold P n is = .error e) : isStepError e = true := by
  induction is generalizing n with
  | nil => cases h
  | cons i is ih =>
    rw [hardenedFold] at h
    cases hd : n.deriveHardened P i with
    | error e' =>
      rw [hd] at h
      cases h
      exact deriveHardened_error P n i e hd
    | ok child =>
      rw [hd] at h
      exact ih child h

/-- The first derivation step of a node with a private key. -/
theorem deriveHardened_private (P : Primitives) (p : NodeEd25519) (d : Buffer) (i : Int)
    (hd : p.D = some d) (h0 : 0 ≤ i) (h1 : i ≤ 2 ^ 31 - 1) :
    ∃ child d', p.deriveHardened P i = .ok child ∧ child.D = some d' := by
  unfold deriveHardened
  dsimp only
  rw [if_neg (by omega), derive_private P p d _ hd,
    CKDPriv_ok P p d _ _ hd (by unfold HIGHEST_BIT; omega) (by unfold HIGHEST_BIT; omega)]
  exact ⟨_, _, rfl, rfl⟩

theorem hardenedFold_private (P : Primitives) (is : List Int) (hnn : ∀ i ∈ is, 0 ≤ i)
    (p : NodeEd25519) (d : Buffer) (hd : p.D = some d) :
    ((∃ i ∈ is, 2 ^ 31 - 1 < i) → hardenedFold P p is = .error Err.hardenedOverflow) ∧
    ((∀ i ∈ is, i ≤ 2 ^ 31 - 1) → ∃ child, hardenedFold P p is = .ok child) := by
  induction is generalizing p d with
  | nil =>
    exact ⟨fun ⟨i, hi, _⟩ => absurd hi (List.not_mem_nil i), fun _ => ⟨p, rfl⟩⟩
  | cons i is ih =>
    have hnn' : ∀ j ∈ is, 0 ≤ j := fun j hj => hnn j (by simp [hj])
    by_cases hi : i ≤ 2 ^ 31 - 1
    · obtain ⟨child, d', hstep, hd'⟩ := deriveHardened_private P p d i hd (hnn i (by simp)) hi
      have ih' := ih hnn' child d' hd'
      rw [hardenedFold, hstep]
      constructor
      · rintro ⟨j, hj, hjbig⟩
        rw [List.mem_cons] at hj
        rcases hj with rfl | hj
        · omega
        · exact ih'.1 ⟨j, hj, hjbig⟩
      · intro hall
        exact ih'.2 (fun j hj => hall j (by simp [hj]))
    · have hstep : p.deriveHardened P i = .error Err.hardenedOverflow := by
        unfold deriveHardened
        dsimp only
        rw [if_pos (by omega)]
      rw [hardenedFold, hstep]
      exact ⟨fun _ => rfl, fun hall => absurd (hall i (by simp)) hi⟩

theorem segmentIndex_nonneg (s : List Char) : 0 ≤ segmentIndex s := by
  unfold segmentIndex
  exact Int.natCast_nonneg _

theorem pathIndices_nonneg (path : String) : ∀ i ∈ pathIndices path, 0 ≤ i := by
  intro i hi
  unfold pathIndices at hi
  rw [List.mem_map] at hi
  obtain ⟨s, _, rfl⟩ := hi
  exact segmentIndex_nonneg s

theorem derivePath_invalid (P : Primitives) (n : NodeEd25519) (path : String)
    (h : isValidPath path = false) : n.derivePath P path = .error Err.invalidPath := by
  unfold derivePath
  rw [h]
  rfl

/-- C6: `derivePath(path)` fails with the invalid-path error exactly when the path does
not match the expression of `isValidPath`; the expression accepts exactly the paths of
the spec's grammar (an optional leading `m/`, then one or more segments between
slashes, a segment being digits with an optional apostrophe); the error comes before
any derivation step, whatever the node is, and the eight sample paths are rejected. -/
theorem derivePath_invalidPath_iff (P : Primitives) (n : NodeEd25519) (path : String) :
    (n.derivePath P path = .error Err.invalidPath ↔ isValidPath path = false) ∧
    isValidPath path = pathGrammar path ∧
    ∀ p ∈ ["", "m/", "/0", "0/", "0''", "M/0", "m/-1", "m/0x1"],
      isValidPath p = false ∧ n.derivePath P p = .error Err.invalidPath := by
  refine ⟨⟨?_, derivePath_invalid P n path⟩, isValidPath_eq_pathGrammar path, ?_⟩
  · intro h
    cases hv : isValidPath path with
    | false => rfl
    | true =>
      rw [derivePath_eq_fold P n path hv] at h
      split_ifs at h
      · cases h
      · have := hardenedFold_error P _ n _ h
        exact absurd this (by decide)
  · intro p hp
    have hv : isValidPath p = false := by
      simp only [List.mem_cons, List.mem_singleton, List.not_mem_nil, or_false] at hp
      rcases hp with h | h | h | h | h | h | h | h <;> subst h <;> decide
    exact ⟨hv, derivePath_invalid P n p hv⟩

end NodeEd25519

/-! ## The bare path and the fold -/

namespace NodeEd25519

/-- C7 (refuted as stated): on a master node the path `m` is rejected, it does not
return the node. -/
theorem bare_m_rejected_on_master :
    sampleMaster.PARENT_FINGERPRINT = 0 ∧
    sampleMaster.derivePath samplePrimitives "m" = .error Err.invalidPath ∧
    sampleMaster.derivePath samplePrimitives "m" ≠ .ok sampleMaster := by
  decide

/-- C7 (amended): the bare path `m` is not valid: for every node, master or not,
`derivePath("m")` fails with the invalid-path error and no derivation step is
performed. -/
theorem derivePath_bare_m (P : Primitives) (n : NodeEd25519) :
    isValidPath "m" = false ∧ n.derivePath P "m" = .error Err.invalidPath :=
  ⟨by decide, derivePath_invalid P n "m" (by decide)⟩

/-- C8 (refuted as stated): on a node that is not a master, the valid path `m/0` does
not give the fold of hardened derivations: `derivePath` fails with the non-master
error where `deriveHardened(0)` returns a node. -/
theorem derivePath_fold_counterexample :
    isValidPath "m/0" = true ∧ pathIndices "m/0" = [0] ∧
    sampleChild.derivePath samplePrimitives "m/0" = .error Err.nonMaster ∧
    sampleChild.derivePath samplePrimitives "m/0"
      ≠ hardenedFold samplePrimitives sampleChild (pathIndices "m/0") := by
  decide

/-- C8 (amended): for every node `n` and every valid path that does not start with
`m/` or is derived from a node with `parentFingerprint = 0`, `derivePath(path)` is the
left fold of `deriveHardened` over the indices of the segments (there is at least
one), starting from `n`: the error of the first failing step, otherwise the last node.
When `n` has a private key the fold fails with the index overflow error if some index
exceeds `2^31 - 1` and returns a node if none does. -/
theorem derivePath_eq_hardenedFold (P : Primitives) (n : NodeEd25519) (path : String)
    (hvalid : isValidPath path = true)
    (hmaster : startsWithMaster path.data = false ∨ n.PARENT_FINGERPRINT = 0) :
    n.derivePath P path = hardenedFold P n (pathIndices path) ∧
    1 ≤ (pathIndices path).length ∧
    (n.isNeutered = false →
      ((∃ i ∈ pathIndices path, 2 ^ 31 - 1 < i) →
        n.derivePath P path = .error Err.hardenedOverflow) ∧
      ((∀ i ∈ pathIndices path, i ≤ 2 ^ 31 - 1) → ∃ child, n.derivePath P path = .ok child)) := by
  have heq : n.derivePath P path = hardenedFold P n (pathIndices path) := by
    rw [derivePath_eq_fold P n path hvalid, if_neg]
    rintro ⟨h1, h2⟩
    rcases hmaster with h | h
    · rw [h] at h1
      cases h1
    · exact h2 h
  refine ⟨heq, ?_, ?_⟩
  · have hne := split_ne_nil '/' (pathBody path.data)
    unfold pathIndices
    rw [List.length_map]
    cases hs : split '/' (pathBody path.data) with
    | nil => exact absurd hs hne
    | cons a t => simp
  · intro hn
    obtain ⟨d, hd⟩ : ∃ d, n.D = some d := by
      cases h : n.D with
      | none => simp [isNeutered, h] at hn
      | some d => exact ⟨d, rfl⟩
    rw [heq]
    exact hardenedFold_private P _ (pathIndices_nonneg path) n d hd

theorem derivePath_eq_hardenedFold_witness :
    sampleMaster.derivePath samplePrimitives "m/44'/4343'/0'"
      = hardenedFold samplePrimitives sampleMaster (pathIndices "m/44'/4343'/0'") ∧
    1 ≤ (pathIndices "m/44'/4343'/0'").length ∧
    (sampleMaster.isNeutered = false →
      ((∃ i ∈ pathIndices "m/44'/4343'/0'", 2 ^ 31 - 1 < i) →
        sampleMaster.derivePath samplePrimitives "m/44'/4343'/0'"
          = .error Err.hardenedOverflow) ∧
      ((∀ i ∈ pathIndices "m/44'/4343'/0'", i ≤ 2 ^ 31 - 1) →
        ∃ child, sampleMaster.derivePath samplePrimitives "m/44'/4343'/0'" = .ok child)) :=
  derivePath_eq_hardenedFold samplePrimitives sampleMaster "m/44'/4343'/0'" (by decide)
    (Or.inr (by decide))

end NodeEd25519

/-! ## Apostrophes and the master test -/

namespace NodeEd25519

theorem split_filter (sep : Char) (q : Char → Bool) (hq : q sep = true) (x : List Char) :
    split sep (x.filter q) = (split sep x).map (List.filter q) := by
  induction x with
  | nil => rfl
  | cons c cs ih =>
    by_cases hc : c = sep
    · subst hc
      rw [List.filter_cons_of_pos hq, split, if_pos rfl, split, if_pos rfl, ih]
      rfl
    · obtain ⟨seg, rest, hsr⟩ : ∃ seg rest, split sep cs = seg :: rest := by
        cases h : split sep cs with
        | nil => exact absurd h (split_ne_nil sep cs)
        | cons seg rest => exact ⟨seg, rest, rfl⟩
      rw [hsr] at ih
      by_cases hqc : q c = true
      · rw [List.filter_cons_of_pos hqc, split, if_neg hc, ih]
        conv_rhs => rw [split, if_neg hc, hsr]
        simp [List.filter_cons_of_pos hqc]
      · rw [List.filter_cons_of_neg hqc, ih]
        conv_rhs => rw [split, if_neg hc, hsr]
        simp [List.filter_cons_of_neg hqc]

theorem isSegment_filter (s : List Char) (h : isSegment s = true) :
    isSegment (s.filter (fun c => c ≠ apostrophe)) = true ∧
    segmentIndex (s.filter (fun c => c ≠ apostrophe)) = segmentIndex s := by
  obtain ⟨ds, hne, hds, _, hf⟩ := segment_digits s h
  constructor
  · rw [hf]
    exact (isSegment_iff ds).2 ⟨ds, hne, hds, Or.inl rfl⟩
  · unfold segmentIndex
    rw [List.filter_filter]
    simp

/-- Removing the apostrophes of a valid path keeps it valid, keeps its leading `m/`
and keeps its indices. -/
theorem removeApostrophes_valid (path : String) (hvalid : isValidPath path = true) :
    isValidPath (removeApostrophes path) = true ∧
    startsWithMaster (removeApostrophes path).data = startsWithMaster path.data ∧
    pathIndices (removeApostrophes path) = pathIndices path := by
  have hsegs := (pathRegex_rmatch_iff path.data).1 hvalid
  have hall : ∀ s ∈ split '/' (pathBody path.data), isSegment s = true := by
    simpa [List.all_eq_true] using hsegs
  have hq : (fun c : Char => decide (c ≠ apostrophe)) '/' = true := by decide
  have hbody : pathBody (path.data.filter (fun c => c ≠ apostrophe))
        = (pathBody path.data).filter (fun c => c ≠ apostrophe) ∧
      startsWithMaster (path.data.filter (fun c => c ≠ apostrophe))
        = startsWithMaster path.data := by
    rcases pathBody_cases path.data with ⟨rest, hrest, hb, hm⟩ | ⟨hb, hm, _⟩
    · rw [hb, hm, hrest]
      have : ('m' :: '/' :: rest).filter (fun c => decide (c ≠ apostrophe))
          = 'm' :: '/' :: rest.filter (fun c => decide (c ≠ apostrophe)) := by
        rw [List.filter_cons_of_pos (by decide), List.filter_cons_of_pos (by decide)]
      rw [this]
      exact ⟨rfl, rfl⟩
    · obtain ⟨_, _, _, _, c, t, hct, hc⟩ := reBody_head (pathBody path.data) hsegs
      rw [hb] at hct
      rw [hb, hm, hct]
      have hca : (c :: t).filter (fun c => decide (c ≠ apostrophe))
          = c :: t.filter (fun c => decide (c ≠ apostrophe)) :=
        List.filter_cons_of_pos (by simpa using isDecimalDigit_ne_apostrophe c hc)
      rw [hca]
      have hcm := isDecimalDigit_ne_m c hc
      constructor
      · unfold pathBody
        split
        · rename_i heq
          injection heq with h1 _
          exact absurd h1 hcm
        · rfl
      · unfold startsWithMaster
        split
        · rename_i heq
          injection heq with h1 _
          exact absurd h1 hcm
        · rfl
  have hsplit : split '/' (pathBody (removeApostrophes path).data)
      = (split '/' (pathBody path.data)).map (List.filter (fun c => c ≠ apostrophe)) := by
    show split '/' (pathBody (path.data.filter (fun c => c ≠ apostrophe))) = _
    rw [hbody.1, split_filter '/' _ hq]
  refine ⟨?_, hbody.2, ?_⟩
  · apply (pathRegex_rmatch_iff _).2
    rw [hsplit, List.all_eq_true]
    intro s hs
    rw [List.mem_map] at hs
    obtain ⟨s0, hs0, rfl⟩ := hs
    exact (isSegment_filter s0 (hall s0 hs0)).1
  · unfold pathIndices
    rw [hsplit, List.map_map]
    apply List.map_congr_left
    intro s hs
    exact (isSegment_filter s (hall s hs)).2

/-- C9: for a valid path `p`, the path `p'` without its apostrophes is valid too and
`derivePath(p)` and `derivePath(p')` have the same outcome: the same error or the same
node. -/
theorem derivePath_removeApostrophes (P : Primitives) (n : NodeEd25519) (p : String)
    (hvalid : isValidPath p = true) :
    isValidPath (removeApostrophes p) = true ∧
    n.derivePath P (removeApostrophes p) = n.derivePath P p := by
  obtain ⟨hv, hm, hi⟩ := removeApostrophes_valid p hvalid
  refine ⟨hv, ?_⟩
  rw [derivePath_eq_fold P n p hvalid, derivePath_eq_fold P n _ hv, hm, hi]

theorem derivePath_removeApostrophes_witness :
    removeApostrophes "m/44'/4343'/0'" = "m/44/4343/0" ∧
    isValidPath (removeApostrophes "m/44'/4343'/0'") = true ∧
    sampleMaster.derivePath samplePrimitives (removeApostrophes "m/44'/4343'/0'")
      = sampleMaster.derivePath samplePrimitives "m/44'/4343'/0'" :=
  ⟨by decide,
    derivePath_removeApostrophes samplePrimitives sampleMaster "m/44'/4343'/0'" (by decide)⟩

/-- C10: on a node whose parent fingerprint is not `0`, every valid path that starts
with `m/` makes `derivePath` fail with the non-master error, before any derivation;
on a node whose parent fingerprint is `0`, and for a path that does not start with
`m`, `derivePath` never fails with that error. -/
theorem derivePath_nonMaster (P : Primitives) (n : NodeEd25519) (path : String) :
    (isValidPath path = true → startsWithMaster path.data = true →
      n.PARENT_FINGERPRINT ≠ 0 → n.derivePath P path = .error Err.nonMaster) ∧
    (n.PARENT_FINGERPRINT = 0 ∨ path.data.head? ≠ some 'm' →
      n.derivePath P path ≠ .error Err.nonMaster) := by
  constructor
  · intro hvalid hm hpf
    rw [derivePath_eq_fold P n path hvalid, if_pos ⟨hm, hpf⟩]
  · intro h
    cases hv : isValidPath path with
    | false =>
      rw [derivePath_invalid P n path hv]
      exact fun e => by cases e
    | true =>
      rw [derivePath_eq_fold P n path hv, if_neg]
      · intro e
        exact absurd (hardenedFold_error P _ n _ e) (by decide)
      · rintro ⟨h1, h2⟩
        rcases h with h | h
        · exact h2 h
        · rcases pathBody_cases path.data with ⟨rest, hrest, _, _⟩ | ⟨_, hm, _⟩
          · rw [hrest] at h
            exact h rfl
          · rw [hm] at h1
            cases h1

theorem derivePath_nonMaster_witness :
    sampleChild.derivePath samplePrimitives "m/0'" = .error Err.nonMaster ∧
    sampleMaster.derivePath samplePrimitives "m/0'" ≠ .error Err.nonMaster ∧
    sampleChild.derivePath samplePrimitives "0'" ≠ .error Err.nonMaster :=
  ⟨(derivePath_nonMaster samplePrimitives sampleChild "m/0'").1 (by decide) (by decide)
      (by decide),
    (derivePath_nonMaster samplePrimitives sampleMaster "m/0'").2 (Or.inl (by decide)),
    (derivePath_nonMaster samplePrimitives sampleChild "0'").2 (Or.inr (by decide))⟩

end NodeEd25519

/-! ## Root construction and seed lengths -/

namespace NodeEd25519

/-- The node `fromSeed` returns for a seed of 16 to 64 bytes. -/
theorem fromSeed_ok (P : Primitives) (seed : Buffer) (network : Network) (macType : MACType)
    (hlo : 16 ≤ seed.length) (hhi : seed.length ≤ 64) :
    fromSeed P seed network macType = .ok (new4
      (some (slice (MACImpl.create P macType (utf8 "ed25519 seed") seed none) 0 32)) none
      ((MACImpl.create P macType (utf8 "ed25519 seed") seed none).drop 32) network) := by
  unfold fromSeed
  rw [if_neg (by omega), if_neg (by omega)]

/-- C12: for a seed of 16 to 64 bytes, `fromSeed` returns a node with a private key, no
stored public key, depth `0`, index `0`, parent fingerprint `0` and the network given,
whose private key is `I[0:32]` and whose chain code is `I[32:]`, for
`I = MACImpl.create(macType, utf8("ed25519 seed"), seed)`. -/
theorem fromSeed_root (P : Primitives) (seed : Buffer) (network : Network) (macType : MACType)
    (hlo : 16 ≤ seed.length) (hhi : seed.length ≤ 64) :
    utf8 "ed25519 seed" = [101, 100, 50, 53, 53, 49, 57, 32, 115, 101, 101, 100] ∧
    ∃ node, fromSeed P seed network macType = .ok node ∧ node.isNeutered = false ∧
      node.DEPTH = 0 ∧ node.INDEX = 0 ∧ node.PARENT_FINGERPRINT = 0 ∧
      node.network = network ∧ node.Q = none ∧
      node.privateKey =
        .ok (slice (MACImpl.create P macType (utf8 "ed25519 seed") seed none) 0 32) ∧
      node.chainCode = (MACImpl.create P macType (utf8 "ed25519 seed") seed none).drop 32 := by
  refine ⟨by decide, _, fromSeed_ok P seed network macType hlo hhi, ?_⟩
  exact ⟨rfl, rfl, rfl, rfl, rfl, rfl, rfl, rfl⟩

theorem fromSeed_root_witness :
    utf8 "ed25519 seed" = [101, 100, 50, 53, 53, 49, 57, 32, 115, 101, 101, 100] ∧
    ∃ node, fromSeed samplePrimitives (fromHex sampleSeedHex.data) Network.BITXOR MACType.KMAC
        = .ok node ∧ node.isNeutered = false ∧
      node.DEPTH = 0 ∧ node.INDEX = 0 ∧ node.PARENT_FINGERPRINT = 0 ∧
      node.network = Network.BITXOR ∧ node.Q = none ∧
      node.privateKey =
        .ok (slice (MACImpl.create samplePrimitives MACType.KMAC (utf8 "ed25519 seed")
          (fromHex sampleSeedHex.data) none) 0 32) ∧
      node.chainCode = (MACImpl.create samplePrimitives MACType.KMAC (utf8 "ed25519 seed")
          (fromHex sampleSeedHex.data) none).drop 32 :=
  fromSeed_root samplePrimitives (fromHex sampleSeedHex.data) Network.BITXOR MACType.KMAC
    (by decide) (by decide)

end NodeEd25519

/-- C11: `fromSeed` fails exactly when the seed has fewer than 16 bytes (error 'Seed
should be at least 128 bits') or more than 64 bytes (error 'Seed should be at most 512
bits') and returns a node for every seed of 16 to 64 bytes; `ExtendedKey.createFromSeed`
on the object `Network.BITXOR` fails in the same cases, with the same errors, on the
number of bytes `Buffer.from(seed, 'hex')` decodes from the seed text. -/
theorem fromSeed_length_validation (P : Primitives) (E : Bip32) (seed : Buffer)
    (seedHex : String) (network : Network) (macType : MACType) :
    (NodeEd25519.fromSeed P seed network macType = .error Err.seedTooShort ↔ seed.length < 16) ∧
    (NodeEd25519.fromSeed P seed network macType = .error Err.seedTooLong ↔ 64 < seed.length) ∧
    ((∃ node, NodeEd25519.fromSeed P seed network macType = .ok node) ↔
      16 ≤ seed.length ∧ seed.length ≤ 64) ∧
    (ExtendedKey.createFromSeed P E seedHex NetworkObject.BITXOR macType
        = .error Err.seedTooShort ↔ (fromHex seedHex.data).length < 16) ∧
    (ExtendedKey.createFromSeed P E seedHex NetworkObject.BITXOR macType
        = .error Err.seedTooLong ↔ 64 < (fromHex seedHex.data).length) ∧
    ((∃ key, ExtendedKey.createFromSeed P E seedHex NetworkObject.BITXOR macType = .ok key) ↔
      16 ≤ (fromHex seedHex.data).length ∧ (fromHex seedHex.data).length ≤ 64) := by
  have key : ∀ (s : Buffer) (N : Network),
      (NodeEd25519.fromSeed P s N macType = .error Err.seedTooShort ↔ s.length < 16) ∧
      (NodeEd25519.fromSeed P s N macType = .error Err.seedTooLong ↔ 64 < s.length) ∧
      ((∃ node, NodeEd25519.fromSeed P s N macType = .ok node) ↔
        16 ≤ s.length ∧ s.length ≤ 64) := by
    intro s N
    by_cases h1 : s.length < 16
    · have : NodeEd25519.fromSeed P s N macType = .error Err.seedTooShort := by
        unfold NodeEd25519.fromSeed
        rw [if_pos h1]
      rw [this]
      refine ⟨by simp [h1], ?_, ?_⟩
      · constructor
        · intro h; cases h
        · intro h; omega
      · constructor
        · rintro ⟨node, h⟩; cases h
        · intro h; omega
    · by_cases h2 : 64 < s.length
      · have : NodeEd25519.fromSeed P s N macType = .error Err.seedTooLong := by
          unfold NodeEd25519.fromSeed
          rw [if_neg h1, if_pos h2]
        rw [this]
        refine ⟨?_, by simp [h2], ?_⟩
        · constructor
          · intro h; cases h
          · intro h; omega
        · constructor
          · rintro ⟨node, h⟩; cases h
          · intro h; omega
      · rw [NodeEd25519.fromSeed_ok P s N macType (by omega) (by omega)]
        refine ⟨?_, ?_, ?_⟩
        · constructor
          · intro h; cases h
          · intro h; omega
        · constructor
          · intro h; cases h
          · intro h; omega
        · constructor
          · intro _; omega
          · intro _; exact ⟨_, rfl⟩
  obtain ⟨k1, k2, k3⟩ := key (fromHex seedHex.data) NetworkObject.BITXOR.val
  refine ⟨(key seed network).1, (key seed network).2.1, (key seed network).2.2, ?_, ?_, ?_⟩
  all_goals
    unfold ExtendedKey.createFromSeed
    rw [if_pos (Or.inl rfl)]
    cases hres : NodeEd25519.fromSeed P (fromHex seedHex.data) NetworkObject.BITXOR.val macType
      with
    | error e =>
      rw [hres] at k1 k2 k3
      simp only [bind, Except.bind]
      first
        | (rw [← k1]; constructor <;> (intro h; cases h; rfl))
        | (rw [← k2]; constructor <;> (intro h; cases h; rfl))
        | (rw [← k3]; constructor <;> (rintro ⟨_, h⟩; cases h))
    | ok node =>
      rw [hres] at k1 k2 k3
      simp only [bind, Except.bind, pure, Except.pure]
      first
        | (rw [← k1]; constructor <;> (intro h; cases h))
        | (rw [← k2]; constructor <;> (intro h; cases h))
        | (rw [← k3]; exact ⟨fun _ => ⟨_, rfl⟩, fun _ => ⟨_, rfl⟩⟩)

/-! ## The range of `deriveHardened`, neutered nodes -/

/-- On the inputs of the tests: a seed of 8 bytes is too short, a seed of 96 bytes is
too long, the seed of 16 bytes is accepted; so is the text whose last two characters
are U+0130 and U+0146, which decodes to the same 16 bytes. -/
theorem fromSeed_length_validation_witness :
    ExtendedKey.createFromSeed samplePrimitives sampleBip32 "0001020304050607"
      NetworkObject.BITXOR MACType.HMAC = .error Err.seedTooShort ∧
    ExtendedKey.createFromSeed samplePrimitives sampleBip32
      (String.mk (List.replicate 192 '0')) NetworkObject.BITXOR MACType.HMAC
      = .error Err.seedTooLong ∧
    (∃ key, ExtendedKey.createFromSeed samplePrimitives sampleBip32 sampleSeedHex
      NetworkObject.BITXOR MACType.HMAC = .ok key) ∧
    fromHex sampleSeedHexLowByte.data = fromHex sampleSeedHex.data ∧
    (fromHex sampleSeedHexLowByte.data).length = 16 ∧
    ExtendedKey.createFromSeed samplePrimitives sampleBip32 sampleSeedHexLowByte
      NetworkObject.BITXOR MACType.HMAC ≠ .error Err.seedTooShort ∧
    ExtendedKey.createFromSeed samplePrimitives sampleBip32 sampleSeedHexLowByte
      NetworkObject.BITXOR MACType.HMAC = .ok sampleSeedKey :=
  ⟨(fromSeed_length_validation samplePrimitives sampleBip32 [] "0001020304050607"
      Network.BITXOR MACType.HMAC).2.2.2.1.2 (by decide),
    (fromSeed_length_validation samplePrimitives sampleBip32 []
      (String.mk (List.replicate 192 '0')) Network.BITXOR MACType.HMAC).2.2.2.2.1.2 (by decide),
    (fromSeed_length_validation samplePrimitives sampleBip32 [] sampleSeedHex
      Network.BITXOR MACType.HMAC).2.2.2.2.2.2 (by decide),
    by decide, by decide,
    fun h => absurd ((fromSeed_length_validation samplePrimitives sampleBip32 []
      sampleSeedHexLowByte Network.BITXOR MACType.HMAC).2.2.2.1.1 h) (by decide),
    rfl⟩

namespace NodeEd25519

/-- C13 (as the code behaves): on a node with a private key `deriveHardened(index)`
fails with the index overflow error when `index > 2^31 - 1`, but it tests no lower
bound: for `-2^31 ≤ index < 0` it returns the node `CKDPriv(node, index + 2^31)`, a
child for an index below `2^31`, and for `index < -2^31` it fails with the range error
of `writeUInt32BE`, not with the index overflow error. -/
theorem deriveHardened_range (P : Primitives) (p : NodeEd25519) (d : Buffer) (index : Int)
    (hd : p.D = some d) :
    (2 ^ 31 - 1 < index → p.deriveHardened P index = .error Err.hardenedOverflow) ∧
    (0 ≤ index → index ≤ 2 ^ 31 - 1 → ∃ child, p.deriveHardened P index = .ok child) ∧
    (-2 ^ 31 ≤ index → index < 0 →
      ∃ child, p.deriveHardened P index = .ok child ∧
        CKDPriv P p (index + 2 ^ 31) MACType.HMAC = .ok child) ∧
    (index < -2 ^ 31 → p.deriveHardened P index = .error Err.outOfRange) := by
  refine ⟨?_, ?_, ?_, ?_⟩
  · intro h
    unfold deriveHardened
    dsimp only
    rw [if_pos h]
  · intro h0 h1
    obtain ⟨child, _, hc, _⟩ := deriveHardened_private P p d index hd h0 h1
    exact ⟨child, hc⟩
  · intro h0 h1
    unfold deriveHardened
    dsimp only
    rw [if_neg (by omega), derive_private P p d _ hd]
    have hH : index + HIGHEST_BIT = index + 2 ^ 31 := by unfold HIGHEST_BIT; norm_num
    rw [hH, CKDPriv_ok P p d _ _ hd (by omega) (by omega)]
    exact ⟨_, rfl, rfl⟩
  · intro h
    unfold deriveHardened
    dsimp only
    rw [if_neg (by omega), derive_private P p d _ hd]
    unfold CKDPriv
    rw [writeUInt32BE_allocUnsafe, if_pos (Or.inl (by unfold HIGHEST_BIT; omega))]
    rfl

theorem deriveHardened_range_witness :
    ∃ child, sampleMaster.deriveHardened samplePrimitives (-1) = .ok child ∧
      CKDPriv samplePrimitives sampleMaster (-1 + 2 ^ 31) MACType.HMAC = .ok child :=
  (deriveHardened_range samplePrimitives sampleMaster (List.replicate 32 7) (-1) rfl).2.2.1
    (by decide) (by decide)

/-- The first step of a neutered node. -/
theorem deriveHardened_neutered (P : Primitives) (n : NodeEd25519) (index : Int)
    (hn : n.isNeutered = true) (h0 : 0 ≤ index) (h1 : index ≤ 2 ^ 31 - 1) :
    n.deriveHardened P index = .error Err.missingPrivateKeyHardened := by
  unfold deriveHardened derive
  dsimp only
  rw [if_neg (by omega)]
  have : HIGHEST_BIT ≤ index + HIGHEST_BIT := by omega
  simp [hn, this]

/-- C14: on a neutered node `deriveHardened(index)` fails with the missing-private-key
error for every index from `0` to `2^31 - 1`, and so does `derivePath(p)` on a neutered
node with parent fingerprint `0` for every valid path `p` whose first segment is at
most `2^31 - 1`. -/
theorem neutered_cannot_derive (P : Primitives) (n : NodeEd25519) (hn : n.isNeutered = true) :
    (∀ index : Int, 0 ≤ index → index ≤ 2 ^ 31 - 1 →
      n.deriveHardened P index = .error Err.missingPrivateKeyHardened) ∧
    (∀ (p : String) (first : Int) (rest : List Int), n.PARENT_FINGERPRINT = 0 →
      isValidPath p = true → pathIndices p = first :: rest → first ≤ 2 ^ 31 - 1 →
      n.derivePath P p = .error Err.missingPrivateKeyHardened) := by
  refine ⟨fun index h0 h1 => deriveHardened_neutered P n index hn h0 h1, ?_⟩
  intro p first rest hpf hvalid hidx hfirst
  rw [derivePath_eq_fold P n p hvalid, if_neg (fun h => h.2 hpf), hidx, hardenedFold]
  have h0 : 0 ≤ first := pathIndices_nonneg p first (by rw [hidx]; simp)
  rw [deriveHardened_neutered P n first hn h0 hfirst]

theorem neutered_cannot_derive_witness :
    fromSeed samplePrimitives (fromHex sampleSeedHex.data) Network.BITXOR MACType.HMAC
      = .ok sampleSeedMaster ∧
    sampleSeedMaster.neutered samplePrimitives = .ok sampleSeedPublic ∧
    sampleSeedPublic.deriveHardened samplePrimitives 0 = .error Err.missingPrivateKeyHardened ∧
    sampleSeedPublic.derivePath samplePrimitives "m/0'" = .error Err.missingPrivateKeyHardened :=
  ⟨by decide, by decide,
    (neutered_cannot_derive samplePrimitives sampleSeedPublic (by decide)).1 0 (by decide)
      (by decide),
    (neutered_cannot_derive samplePrimitives sampleSeedPublic (by decide)).2 "m/0'" 0 []
      (by decide) (by decide) (by decide) (by decide)⟩

end NodeEd25519

/-! ## Payloads of 78 bytes -/

theorem byte_read32 (x0 x1 x2 x3 : Byte) :
    be32 (x0.val * 2 ^ 24 + x1.val * 2 ^ 16 + x2.val * 2 ^ 8 + x3.val) = [x0, x1, x2, x3] := by
  have h0 := x0.isLt
  have h1 := x1.isLt
  have h2 := x2.isLt
  have h3 := x3.isLt
  simp only [be32, byte, List.cons.injEq, and_true]
  refine ⟨?_, ?_, ?_, ?_⟩ <;> (apply Fin.ext; simp only; omega)

theorem read32_lt (b : Buffer) (off : Nat) : readUInt32BE b off < 2 ^ 32 := by
  unfold readUInt32BE readUInt8
  have h0 := (b.getD off 0).isLt
  have h1 := (b.getD (off + 1) 0).isLt
  have h2 := (b.getD (off + 2) 0).isLt
  have h3 := (b.getD (off + 3) 0).isLt
  omega

theorem read8_le (b : Buffer) (off : Nat) : readUInt8 b off ≤ 255 := by
  unfold readUInt8
  have h0 := (b.getD off 0).isLt
  omega

/-- The first thirteen bytes of a payload are the header of the four numbers read
from them. -/
theorem header_of_read (b : Buffer) (hb : 13 ≤ b.length) :
    b = header (readUInt32BE b 0) (readUInt8 b 4) (readUInt32BE b 5) (readUInt32BE b 9)
      ++ b.drop 13 := by
  rcases b with _ | ⟨x0, _ | ⟨x1, _ | ⟨x2, _ | ⟨x3, _ | ⟨x4, _ | ⟨x5, _ | ⟨x6, _ | ⟨x7,
    _ | ⟨x8, _ | ⟨x9, _ | ⟨x10, _ | ⟨x11, _ | ⟨x12, t⟩⟩⟩⟩⟩⟩⟩⟩⟩⟩⟩⟩⟩ <;>
    simp at hb
  have e0 := byte_read32 x0 x1 x2 x3
  have e5 := byte_read32 x5 x6 x7 x8
  have e9 := byte_read32 x9 x10 x11 x12
  have e4 : byte x4.val = x4 := by
    apply Fin.ext
    simp only [byte]
    have := x4.isLt
    omega
  simp only [header, readUInt32BE, readUInt8, List.getD_cons_zero, List.getD_cons_succ, e0, e5,
    e9, e4]
  simp

/-- A payload of 78 bytes is a header, a chain code of 32 bytes and 33 bytes of key
data. -/
theorem payload_decompose (b : Buffer) (hb : b.length = 78) :
    b = header (readUInt32BE b 0) (readUInt8 b 4) (readUInt32BE b 5) (readUInt32BE b 9)
      ++ slice b 13 45 ++ slice b 45 78 ∧
    (slice b 13 45).length = 32 ∧ (slice b 45 78).length = 33 := by
  have h1 := header_of_read b (by omega)
  have h2 : b.drop 13 = slice b 13 45 ++ slice b 45 78 := by
    unfold slice
    rw [List.take_of_length_le (by omega : b.length ≤ 78)]
    conv_lhs => rw [← List.take_append_drop 45 b]
    rw [List.drop_append_of_le_length (by simp [hb])]
  refine ⟨?_, ?_, ?_⟩
  · rw [List.append_assoc, ← h2]
    exact h1
  · simp [slice, hb]
  · simp [slice, hb]

/-! ## Acceptance of payloads -/

namespace NodeEd25519

/-- When `fromBase58` accepts a decoded payload. -/
theorem fromPayload_ok_iff (b : Buffer) (N : Network) :
    (∃ node, fromPayload b N = .ok node) ↔
      b.length = 78 ∧
      (readUInt32BE b 0 = Network.BITXOR.privateKeyPrefix ∨
        readUInt32BE b 0 = Network.BITXOR.publicKeyPrefix) ∧
      (readUInt8 b 4 = 0 → readUInt32BE b 5 = 0 ∧ readUInt32BE b 9 = 0) ∧
      (readUInt32BE b 0 = Network.BITXOR.privateKeyPrefix → readUInt8 b 45 = 0) := by
  unfold fromPayload
  dsimp only
  constructor
  · rintro ⟨node, h⟩
    split_ifs at h with h1 h2 h3 h4 h5 h6
    · exact ⟨not_not.1 h1, Or.inl h5,
        fun hd => ⟨not_not.1 (fun hpf => h3 ⟨hd, hpf⟩), not_not.1 (fun hi => h4 ⟨hd, hi⟩)⟩,
        fun _ => not_not.1 h6⟩
    · refine ⟨not_not.1 h1, ?_,
        fun hd => ⟨not_not.1 (fun hpf => h3 ⟨hd, hpf⟩), not_not.1 (fun hi => h4 ⟨hd, hi⟩)⟩,
        fun hv => absurd hv h5⟩
      by_contra hc
      exact h2 ⟨fun e => hc (Or.inl e), fun e => hc (Or.inr e)⟩
  · rintro ⟨hlen, hv, hm, hk⟩
    rw [if_neg (not_not.2 hlen), if_neg (fun h => hv.elim h.1 h.2),
      if_neg (fun h => h.2 (hm h.1).1), if_neg (fun h => h.2 (hm h.1).2)]
    by_cases hp : readUInt32BE b 0 = Network.BITXOR.privateKeyPrefix
    · rw [if_pos hp, if_neg (not_not.2 (hk hp))]
      exact ⟨_, rfl⟩
    · rw [if_neg hp]
      exact ⟨_, rfl⟩

/-- C15: for a text that Base58Check-decodes to the payload `b`, `fromBase58` on
`Network.BITXOR` returns a node exactly when `b` has 78 bytes, its version is the
private or the public prefix, depth `0` comes with parent fingerprint `0` and index
`0`, and a private version comes with `b[45] = 0`; otherwise it fails, and a payload of
another length fails with the payload length error. -/
theorem fromBase58_accepts_iff (P : Primitives) (s : String) (b : Buffer)
    (hdec : P.bs58decode s = some b) :
    ((∃ node, fromBase58 P s Network.BITXOR = .ok node) ↔
      b.length = 78 ∧
      (readUInt32BE b 0 = Network.BITXOR.privateKeyPrefix ∨
        readUInt32BE b 0 = Network.BITXOR.publicKeyPrefix) ∧
      (readUInt8 b 4 = 0 → readUInt32BE b 5 = 0 ∧ readUInt32BE b 9 = 0) ∧
      (readUInt32BE b 0 = Network.BITXOR.privateKeyPrefix → readUInt8 b 45 = 0)) ∧
    ((∃ e, fromBase58 P s Network.BITXOR = .error e) ↔
      ¬ ∃ node, fromBase58 P s Network.BITXOR = .ok node) ∧
    (b.length ≠ 78 → fromBase58 P s Network.BITXOR = .error (Err.payloadLength b.length)) ∧
    (b.length = 78 → readUInt32BE b 0 = Network.BITXOR.privateKeyPrefix →
      (readUInt8 b 4 = 0 → readUInt32BE b 5 = 0 ∧ readUInt32BE b 9 = 0) →
      readUInt8 b 45 ≠ 0 → fromBase58 P s Network.BITXOR = .error Err.privateKeyMarker) ∧
    (b.length = 78 → readUInt8 b 4 = 0 →
      readUInt32BE b 5 ≠ 0 ∨ readUInt32BE b 9 ≠ 0 →
      ¬ ∃ node, fromBase58 P s Network.BITXOR = .ok node) := by
  have hfb : fromBase58 P s Network.BITXOR = fromPayload b Network.BITXOR := by
    unfold fromBase58
    rw [hdec]
  rw [hfb]
  refine ⟨fromPayload_ok_iff b _, ?_, ?_, ?_, ?_⟩
  · cases fromPayload b Network.BITXOR with
    | error e =>
      refine ⟨fun _ => ?_, fun _ => ⟨e, rfl⟩⟩
      rintro ⟨_, h⟩
      cases h
    | ok n =>
      refine ⟨?_, fun h => absurd ⟨n, rfl⟩ h⟩
      rintro ⟨_, h⟩
      cases h
  · intro h
    unfold fromPayload
    rw [if_pos h]
  · intro hlen hv hm hk
    unfold fromPayload
    dsimp only
    rw [if_neg (not_not.2 hlen), if_neg (fun h => h.1 hv), if_neg (fun h => h.2 (hm h.1).1),
      if_neg (fun h => h.2 (hm h.1).2), if_pos hv, if_pos hk]
  · intro hlen hd hne
    rw [fromPayload_ok_iff]
    rintro ⟨_, _, hm, _⟩
    rcases hne with h | h
    · exact h (hm hd).1
    · exact h (hm hd).2

theorem fromBase58_accepts_iff_witness :
    fromBase58 samplePrimitives (samplePrimitives.bs58encode (List.replicate 77 0))
      Network.BITXOR = .error (Err.payloadLength 77) ∧
    fromBase58 samplePrimitives (samplePrimitives.bs58encode (samplePayload 1 5 0 1))
      Network.BITXOR = .error Err.privateKeyMarker ∧
    ¬ (∃ node, fromBase58 samplePrimitives
      (samplePrimitives.bs58encode (samplePayload 0 5 0 0)) Network.BITXOR = .ok node) :=
  ⟨(fromBase58_accepts_iff samplePrimitives _ (List.replicate 77 0)
      (samplePrimitives_codec _)).2.2.1 (by decide),
    (fromBase58_accepts_iff samplePrimitives _ (samplePayload 1 5 0 1)
      (samplePrimitives_codec _)).2.2.2.1 (by decide) (by decide) (by decide) (by decide),
    (fromBase58_accepts_iff samplePrimitives _ (samplePayload 0 5 0 0)
      (samplePrimitives_codec _)).2.2.2.2 (by decide) (by decide) (by decide)⟩

end NodeEd25519

/-! ## Serializing what was parsed -/

namespace NodeEd25519

/-- The node `fromBase58` makes of an accepted payload. -/
theorem fromPayload_ok_cases (b : Buffer) (N : Network) (node : NodeEd25519)
    (h : fromPayload b N = .ok node) :
    b.length = 78 ∧
    (readUInt8 b 4 = 0 → readUInt32BE b 5 = 0 ∧ readUInt32BE b 9 = 0) ∧
    ((readUInt32BE b 0 = Network.BITXOR.privateKeyPrefix ∧ readUInt8 b 45 = 0 ∧
        node = new (some (slice b 46 78)) none (slice b 13 45) N (readUInt8 b 4)
          (readUInt32BE b 9) (readUInt32BE b 5)) ∨
      (readUInt32BE b 0 = Network.BITXOR.publicKeyPrefix ∧
        node = new none (some (slice b 45 78)) (slice b 13 45) N (readUInt8 b 4)
          (readUInt32BE b 9) (readUInt32BE b 5))) := by
  unfold fromPayload at h
  dsimp only at h
  split_ifs at h with h1 h2 h3 h4 h5 h6
  · injection h with h
    exact ⟨not_not.1 h1,
      fun hd => ⟨not_not.1 (fun hpf => h3 ⟨hd, hpf⟩), not_not.1 (fun hi => h4 ⟨hd, hi⟩)⟩,
      Or.inl ⟨h5, not_not.1 h6, h.symm⟩⟩
  · injection h with h
    refine ⟨not_not.1 h1,
      fun hd => ⟨not_not.1 (fun hpf => h3 ⟨hd, hpf⟩), not_not.1 (fun hi => h4 ⟨hd, hi⟩)⟩,
      Or.inr ⟨?_, h.symm⟩⟩
    by_contra hc
    exact h2 ⟨h5, hc⟩

theorem slice_marker (b : Buffer) (hb : b.length = 78) (h : readUInt8 b 45 = 0) :
    slice b 45 78 = [0] ++ slice b 46 78 := by
  unfold slice
  rw [List.take_of_length_le (by omega)]
  have hlt : 45 < b.length := by omega
  rw [List.drop_eq_getElem_cons hlt]
  have hb45 : b[45] = 0 := by
    apply Fin.ext
    unfold readUInt8 at h
    rw [List.getD_eq_getElem _ _ hlt] at h
    exact h
  rw [hb45]
  rfl

/-- The bytes `toBase58` encodes for a node that `fromBase58` made on
`Network.BITXOR` are the payload the node was read from. -/
theorem toBase58Buffer_fromPayload (P : Primitives) (mem : Nat → Byte) (b : Buffer)
    (node : NodeEd25519) (h : fromPayload b Network.BITXOR = .ok node) :
    toBase58Buffer P mem node = .ok b := by
  obtain ⟨hlen, _, hcase⟩ := fromPayload_ok_cases b _ node h
  obtain ⟨hdec, hcc, hkey⟩ := payload_decompose b hlen
  have hk32 : (slice b 46 78).length = 32 := by simp [slice, hlen]
  have hdrop : ∀ k, 78 ≤ k → (allocUnsafe mem 78).drop k = [] := fun k hk =>
    List.drop_of_length_le (by rw [length_allocUnsafe]; exact hk)
  rcases hcase with ⟨hv, hm, hnode⟩ | ⟨hv, hnode⟩
  · subst hnode
    rw [toBase58Buffer_private P mem _ (slice b 46 78) rfl
      (by show Network.BITXOR.privateKeyPrefix < 2 ^ 32; decide) (read8_le b 4)
      (read32_lt b 5) (read32_lt b 9) hcc]
    simp only [new]
    rw [hdrop _ (by omega), List.take_of_length_le (by omega), List.append_nil,
      List.append_assoc _ [0], ← slice_marker b hlen hm]
    have hv' : Network.BITXOR.privateKeyPrefix = readUInt32BE b 0 := hv.symm
    rw [hv', ← hdec]
  · subst hnode
    rw [toBase58Buffer_public P mem _ (slice b 45 78) rfl rfl
      (by show Network.BITXOR.publicKeyPrefix < 2 ^ 32; decide) (read8_le b 4)
      (read32_lt b 5) (read32_lt b 9) hcc]
    simp only [new]
    rw [hdrop _ (by omega), List.take_of_length_le (by omega), List.append_nil]
    have hv' : Network.BITXOR.publicKeyPrefix = readUInt32BE b 0 := hv.symm
    rw [hv', ← hdec]

end NodeEd25519

/-- C16: a text `s` that `fromBase58(s, Network.BITXOR)` accepts comes back from
`toBase58()` of the node read (the Base58Check encoder giving `s` back from the payload
decoded from `s`), for private and for public payloads alike, whatever the fresh
buffer of `toBase58` held; and so through `ExtendedKey.createFromBase58` and
`ExtendedKey.toBase58`. -/
theorem toBase58_fromBase58 (P : Primitives) (E : Bip32) (mem : Nat → Byte) (s : String)
    (b : Buffer) (node : NodeEd25519) (macType : MACType)
    (hdec : P.bs58decode s = some b) (henc : P.bs58encode b = s)
    (hacc : NodeEd25519.fromBase58 P s Network.BITXOR = .ok node) :
    node.toBase58 P mem = .ok s ∧
    ∃ key, ExtendedKey.createFromBase58 P E s NetworkObject.BITXOR macType = .ok key ∧
      key.toBase58 P mem = .ok s := by
  have hpay : NodeEd25519.fromPayload b Network.BITXOR = .ok node := by
    unfold NodeEd25519.fromBase58 at hacc
    rw [hdec] at hacc
    exact hacc
  have hto : node.toBase58 P mem = .ok s := by
    unfold NodeEd25519.toBase58
    rw [NodeEd25519.toBase58Buffer_fromPayload P mem b node hpay]
    simp only [bind, Except.bind, pure, Except.pure, henc]
  refine ⟨hto, ⟨HDNode.ed25519 node, NetworkObject.BITXOR, macType⟩, ?_, hto⟩
  unfold ExtendedKey.createFromBase58
  rw [if_pos (Or.inl rfl)]
  have : NetworkObject.BITXOR.val = Network.BITXOR := rfl
  rw [this, hacc]
  rfl

theorem toBase58_fromBase58_witness :
    (NodeEd25519.new (some (List.replicate 32 7)) none (List.replicate 32 9)
        Network.BITXOR 1 0 5).toBase58 samplePrimitives (fun _ => 255)
      = .ok (samplePrimitives.bs58encode (samplePayload 1 5 0 0)) ∧
    ∃ key, ExtendedKey.createFromBase58 samplePrimitives sampleBip32
        (samplePrimitives.bs58encode (samplePayload 1 5 0 0)) NetworkObject.BITXOR
        MACType.HMAC = .ok key ∧
      key.toBase58 samplePrimitives (fun _ => 255)
        = .ok (samplePrimitives.bs58encode (samplePayload 1 5 0 0)) :=
  toBase58_fromBase58 samplePrimitives sampleBip32 (fun _ => 255)
    (samplePrimitives.bs58encode (samplePayload 1 5 0 0)) (samplePayload 1 5 0 0)
    _ MACType.HMAC (samplePrimitives_codec _) rfl (by decide)

/-! ## The layout of `toBase58`, neutering -/

namespace NodeEd25519

/-- C17 (as the code behaves): for a node with a chain code of 32 bytes, a depth of at
most 255 and an index, a parent fingerprint and network prefixes below `2^32`, the
buffer that `toBase58` encodes has 78 bytes and starts with `BE32(version) ‖ depth ‖
BE32(parentFingerprint) ‖ BE32(index) ‖ chainCode`. For a node with a private key (of
32 bytes) the version is the private prefix and the key data is `0x00 ‖ privateKey`.
For a neutered node the version is the public prefix and the key data is the public
key only when that key has 33 bytes: for a public key of 32 bytes, which is what
`neutered()` stores for an Ed25519 node, the last 33 bytes are the public key followed
by byte 77 of the memory `Buffer.allocUnsafe(78)` returned, not the public key. -/
theorem toBase58Buffer_layout (P : Primitives) (mem : Nat → Byte) (n : NodeEd25519)
    (hcc : n.chainCode.length = 32) (hdepth : n.DEPTH ≤ 255) (hidx : n.INDEX < 2 ^ 32)
    (hpf : n.PARENT_FINGERPRINT < 2 ^ 32) (hprv : n.network.privateKeyPrefix < 2 ^ 32)
    (hpub : n.network.publicKeyPrefix < 2 ^ 32) :
    (∀ d, n.D = some d → d.length = 32 →
      ∃ buffer, n.toBase58Buffer P mem = .ok buffer ∧
        n.toBase58 P mem = .ok (P.bs58encode buffer) ∧ buffer.length = 78 ∧
        buffer = be32 n.network.privateKeyPrefix ++ [byte n.DEPTH]
          ++ be32 n.PARENT_FINGERPRINT ++ be32 n.INDEX ++ n.chainCode ++ ([0] ++ d)) ∧
    (∀ q, n.D = none → n.Q = some q → q.length = 33 →
      ∃ buffer, n.toBase58Buffer P mem = .ok buffer ∧
        n.toBase58 P mem = .ok (P.bs58encode buffer) ∧ buffer.length = 78 ∧
        buffer = be32 n.network.publicKeyPrefix ++ [byte n.DEPTH]
          ++ be32 n.PARENT_FINGERPRINT ++ be32 n.INDEX ++ n.chainCode ++ q) ∧
    (∀ q, n.D = none → n.Q = some q → q.length = 32 →
      ∃ buffer, n.toBase58Buffer P mem = .ok buffer ∧
        n.toBase58 P mem = .ok (P.bs58encode buffer) ∧ buffer.length = 78 ∧
        buffer = be32 n.network.publicKeyPrefix ++ [byte n.DEPTH]
          ++ be32 n.PARENT_FINGERPRINT ++ be32 n.INDEX ++ n.chainCode ++ (q ++ [mem 77]) ∧
        n.publicKey P = .ok q ∧
        slice buffer 45 78 = q ++ [mem 77] ∧ slice buffer 45 78 ≠ q) := by
  have hdrop : ∀ k, 78 ≤ k → (allocUnsafe mem 78).drop k = [] := fun k hk =>
    List.drop_of_length_le (by rw [length_allocUnsafe]; exact hk)
  refine ⟨?_, ?_, ?_⟩
  · intro d hD hdl
    have hbuf := toBase58Buffer_private P mem n d hD hprv hdepth hpf hidx hcc
    rw [hdrop _ (by omega), List.take_of_length_le (by omega), List.append_nil,
      List.append_assoc _ [0] d] at hbuf
    refine ⟨_, hbuf, by simp only [toBase58, hbuf]; rfl, ?_, rfl⟩
    simp [header, length_be32, hcc, hdl]
  · intro q hD hQ hql
    have hbuf := toBase58Buffer_public P mem n q hD hQ hpub hdepth hpf hidx hcc
    rw [hdrop _ (by omega), List.take_of_length_le (by omega), List.append_nil] at hbuf
    refine ⟨_, hbuf, by simp only [toBase58, hbuf]; rfl, ?_, rfl⟩
    simp [header, length_be32, hcc, hql]
  · intro q hD hQ hql
    have hbuf := toBase58Buffer_public P mem n q hD hQ hpub hdepth hpf hidx hcc
    have h77 : (allocUnsafe mem 78).drop (45 + q.length) = [mem 77] := by
      rw [hql]
      rfl
    rw [h77, List.take_of_length_le (by omega), List.append_assoc _ q [mem 77]] at hbuf
    have hkey : slice (header n.network.publicKeyPrefix n.DEPTH n.PARENT_FINGERPRINT n.INDEX
        ++ n.chainCode ++ (q ++ [mem 77])) 45 78 = q ++ [mem 77] :=
      slice_key _ _ _ _ _ _ hcc (by simp [hql])
    refine ⟨_, hbuf, by simp only [toBase58, hbuf]; rfl, ?_, rfl, ?_, hkey, ?_⟩
    · simp [header, length_be32, hcc, hql]
    · simp [publicKey, hQ]
    · rw [hkey]
      intro h
      have := congrArg List.length h
      simp at this

theorem toBase58Buffer_layout_witness :
    (∃ buffer, sampleChild.toBase58Buffer samplePrimitives (fun _ => 255) = .ok buffer ∧
      sampleChild.toBase58 samplePrimitives (fun _ => 255)
        = .ok (samplePrimitives.bs58encode buffer) ∧ buffer.length = 78 ∧
      buffer = be32 sampleChild.network.privateKeyPrefix ++ [byte sampleChild.DEPTH]
        ++ be32 sampleChild.PARENT_FINGERPRINT ++ be32 sampleChild.INDEX
        ++ sampleChild.chainCode ++ ([0] ++ List.replicate 32 7)) ∧
    sampleSeedMaster.neutered samplePrimitives = .ok sampleSeedPublic ∧
    ∃ buffer, sampleSeedPublic.toBase58Buffer samplePrimitives (fun _ => 255) = .ok buffer ∧
      sampleSeedPublic.toBase58 samplePrimitives (fun _ => 255)
        = .ok (samplePrimitives.bs58encode buffer) ∧ buffer.length = 78 ∧
      buffer = be32 sampleSeedPublic.network.publicKeyPrefix ++ [byte sampleSeedPublic.DEPTH]
        ++ be32 sampleSeedPublic.PARENT_FINGERPRINT ++ be32 sampleSeedPublic.INDEX
        ++ sampleSeedPublic.chainCode ++ (sampleSeedQ ++ [255]) ∧
      sampleSeedPublic.publicKey samplePrimitives = .ok sampleSeedQ ∧
      slice buffer 45 78 = sampleSeedQ ++ [255] ∧ slice buffer 45 78 ≠ sampleSeedQ :=
  ⟨(toBase58Buffer_layout samplePrimitives (fun _ => 255) sampleChild rfl (by decide)
    (by decide) (by decide) (by decide) (by decide)).1 (List.replicate 32 7) rfl rfl,
    by decide,
    (toBase58Buffer_layout samplePrimitives (fun _ => 255) sampleSeedPublic (by decide)
      (by decide) (by decide) (by decide) (by decide) (by decide)).2.2 sampleSeedQ rfl rfl
      (by decide)⟩

/-- C18: for a node with a stored public key, or with a private key of 32 bytes,
`neutered()` returns a node without private key (`isNeutered()` is true) whose public
key is the public key of the node and whose chain code, depth, index, parent
fingerprint and network are those of the node. -/
theorem neutered_node (P : Primitives) (n : NodeEd25519)
    (hkey : (∃ q, n.Q = some q) ∨ (∃ d, n.D = some d ∧ d.length = 32)) :
    ∃ m pk, n.neutered P = .ok m ∧ n.publicKey P = .ok pk ∧ m.publicKey P = .ok pk ∧
      m.D = none ∧ m.isNeutered = true ∧ m.privateKey = .error Err.missingPrivateKey ∧
      m.chainCode = n.chainCode ∧ m.DEPTH = n.DEPTH ∧ m.INDEX = n.INDEX ∧
      m.PARENT_FINGERPRINT = n.PARENT_FINGERPRINT ∧ m.network = n.network := by
  have hpk : ∃ pk, n.publicKey P = .ok pk := by
    cases hQ : n.Q with
    | some q => exact ⟨q, by simp [publicKey, hQ]⟩
    | none =>
      rcases hkey with ⟨q, hq⟩ | ⟨d, hd, hdl⟩
      · rw [hQ] at hq
        cases hq
      · exact ⟨P.ed25519PublicKey d, by
          simp [publicKey, hQ, privateKey, hd, keyPairFromSeed, hdl, bind, Except.bind]⟩
  obtain ⟨pk, hpk⟩ := hpk
  refine ⟨new none (some pk) n.chainCode n.network n.DEPTH n.INDEX n.PARENT_FINGERPRINT, pk,
    ?_, hpk, rfl, rfl, rfl, rfl, rfl, rfl, rfl, rfl, rfl⟩
  unfold neutered
  rw [hpk]
  rfl

theorem neutered_node_witness :
    ∃ m pk, sampleSeedMaster.neutered samplePrimitives = .ok m ∧
      sampleSeedMaster.publicKey samplePrimitives = .ok pk ∧
      m.publicKey samplePrimitives = .ok pk ∧
      m.D = none ∧ m.isNeutered = true ∧ m.privateKey = .error Err.missingPrivateKey ∧
      m.chainCode = sampleSeedMaster.chainCode ∧ m.DEPTH = sampleSeedMaster.DEPTH ∧
      m.INDEX = sampleSeedMaster.INDEX ∧
      m.PARENT_FINGERPRINT = sampleSeedMaster.PARENT_FINGERPRINT ∧
      m.network = sampleSeedMaster.network :=
  neutered_node samplePrimitives sampleSeedMaster (Or.inr ⟨_, rfl, by decide⟩)

end NodeEd25519

/-! ## Invariants of the returned nodes -/

namespace NodeEd25519

theorem fromSeed_shape (P : Primitives) (seed : Buffer) (N : Network) (macType : MACType)
    (n : NodeEd25519) (h : fromSeed P seed N macType = .ok n) : isFreshPrivate n := by
  unfold fromSeed at h
  split_ifs at h
  injection h with h
  subst h
  exact ⟨rfl, rfl, rfl, rfl, rfl⟩

theorem CKDPriv_shape (P : Primitives) (p : NodeEd25519) (i : Int) (m : MACType)
    (n : NodeEd25519) (h : CKDPriv P p i m = .ok n) : isFreshPrivate n := by
  unfold CKDPriv at h
  cases hw : writeUInt32BE (allocUnsafe (fun _ => 0) 4) i 0 with
  | error e => simp [hw, bind, Except.bind] at h
  | ok buf =>
    cases hd : p.privateKey with
    | error e => simp [hw, hd, bind, Except.bind] at h
    | ok d =>
      simp only [hw, hd, bind, Except.bind, pure, Except.pure] at h
      injection h with h
      subst h
      exact ⟨rfl, rfl, rfl, rfl, rfl⟩

theorem derive_shape (P : Primitives) (p : NodeEd25519) (i : Int) (n : NodeEd25519)
    (h : p.derive P i = .ok n) : isFreshPrivate n := by
  unfold derive at h
  dsimp only at h
  split_ifs at h
  exact CKDPriv_shape P p i _ n h

theorem deriveHardened_shape (P : Primitives) (p : NodeEd25519) (i : Int) (n : NodeEd25519)
    (h : p.deriveHardened P i = .ok n) : isFreshPrivate n := by
  unfold deriveHardened at h
  dsimp only at h
  split_ifs at h
  exact derive_shape P p _ n h

theorem hardenedFold_shape (P : Primitives) (is : List Int) (i : Int) (p n : NodeEd25519)
    (h : hardenedFold P p (i :: is) = .ok n) : isFreshPrivate n := by
  induction is generalizing p i with
  | nil =>
    rw [hardenedFold] at h
    cases hd : p.deriveHardened P i with
    | error e => rw [hd] at h; cases h
    | ok c =>
      rw [hd] at h
      change Except.ok c = Except.ok n at h
      injection h with h
      subst h
      exact deriveHardened_shape P p i c hd
  | cons j is ih =>
    rw [hardenedFold] at h
    cases hd : p.deriveHardened P i with
    | error e => rw [hd] at h; cases h
    | ok c =>
      rw [hd] at h
      exact ih j c h

theorem derivePath_shape (P : Primitives) (p : NodeEd25519) (path : String) (n : NodeEd25519)
    (h : p.derivePath P path = .ok n) : isFreshPrivate n := by
  cases hv : isValidPath path with
  | false =>
    rw [derivePath_invalid P p path hv] at h
    cases h
  | true =>
    rw [derivePath_eq_fold P p path hv] at h
    split_ifs at h
    have hne := split_ne_nil '/' (pathBody path.data)
    unfold pathIndices at h
    cases hs : split '/' (pathBody path.data) with
    | nil => exact absurd hs hne
    | cons a t =>
      rw [hs, List.map_cons] at h
      exact hardenedFold_shape P _ _ p n h

/-- The node `neutered()` returns. -/
theorem neutered_shape (P : Primitives) (n m : NodeEd25519) (h : n.neutered P = .ok m) :
    ∃ pk, m = new none (some pk) n.chainCode n.network n.DEPTH n.INDEX
      n.PARENT_FINGERPRINT := by
  unfold neutered at h
  cases hp : n.publicKey P with
  | error e => simp [hp, bind, Except.bind] at h
  | ok pk =>
    simp only [hp, bind, Except.bind, pure, Except.pure] at h
    injection h with h
    exact ⟨pk, h.symm⟩

theorem fromBase58_shape (P : Primitives) (s : String) (N : Network) (n : NodeEd25519)
    (h : fromBase58 P s N = .ok n) : ∃ b, fromPayload b N = .ok n := by
  unfold fromBase58 at h
  cases hd : P.bs58decode s with
  | none => rw [hd] at h; cases h
  | some b =>
    rw [hd] at h
    exact ⟨b, h⟩

/-- C19 (refuted as stated): `fromBase58` accepts a payload of depth `1` with parent
fingerprint `5` and index `0`; the node it returns has index `0` and a depth and a
parent fingerprint that are not `0`. -/
theorem masterConstraintIff_counterexample :
    ∃ node, fromBase58 samplePrimitives (samplePrimitives.bs58encode (samplePayload 1 5 0 0))
        Network.BITXOR = .ok node ∧
      node.DEPTH = 1 ∧ node.PARENT_FINGERPRINT = 5 ∧ node.INDEX = 0 ∧
      ¬ masterConstraintIff node := by
  refine ⟨new (some (List.replicate 32 7)) none (List.replicate 32 9) Network.BITXOR 1 0 5,
    by decide, rfl, rfl, rfl, ?_⟩
  unfold masterConstraintIff
  decide

/-- C19 (amended): every node returned by `fromSeed`, by `fromBase58`, by `derive`,
`deriveHardened` or `derivePath`, and by `neutered()` of a node with the property, has
the property: depth `0` implies parent fingerprint `0` and index `0`. -/
theorem masterConstraint_invariant (P : Primitives) :
    (∀ seed N macType n, fromSeed P seed N macType = .ok n → masterConstraint n) ∧
    (∀ s N n, fromBase58 P s N = .ok n → masterConstraint n) ∧
    (∀ (p : NodeEd25519) i n, p.derive P i = .ok n → masterConstraint n) ∧
    (∀ (p : NodeEd25519) i n, p.deriveHardened P i = .ok n → masterConstraint n) ∧
    (∀ (p : NodeEd25519) path n, p.derivePath P path = .ok n → masterConstraint n) ∧
    (∀ (n m : NodeEd25519), masterConstraint n → n.neutered P = .ok m → masterConstraint m) := by
  have fresh : ∀ n, isFreshPrivate n → masterConstraint n :=
    fun n h _ => ⟨h.2.2.2.2, h.2.2.2.1⟩
  refine ⟨fun seed N mt n h => fresh n (fromSeed_shape P seed N mt n h), ?_,
    fun p i n h => fresh n (derive_shape P p i n h),
    fun p i n h => fresh n (deriveHardened_shape P p i n h),
    fun p path n h => fresh n (derivePath_shape P p path n h), ?_⟩
  · intro s N n h
    obtain ⟨b, hb⟩ := fromBase58_shape P s N n h
    obtain ⟨_, hm, hcase⟩ := fromPayload_ok_cases b N n hb
    rcases hcase with ⟨_, _, hn⟩ | ⟨_, hn⟩ <;>
    · subst hn
      exact hm
  · intro n m hn h
    obtain ⟨pk, hm⟩ := neutered_shape P n m h
    subst hm
    exact hn

theorem masterConstraint_invariant_witness :
    masterConstraint (new (some (List.replicate 32 7)) none (List.replicate 32 9)
      Network.BITXOR 1 0 5) :=
  (masterConstraint_invariant samplePrimitives).2.1
    (samplePrimitives.bs58encode (samplePayload 1 5 0 0)) Network.BITXOR _ (by decide)

/-- C20: every node returned by `fromSeed`, `fromBase58`, `derive`, `deriveHardened`,
`derivePath` or `neutered()` has a private key or a stored public key, and
`isNeutered()` is true exactly for the nodes without a private key. -/
theorem hasKey_invariant (P : Primitives) :
    (∀ seed N macType n, fromSeed P seed N macType = .ok n → hasKey n) ∧
    (∀ s N n, fromBase58 P s N = .ok n → hasKey n) ∧
    (∀ (p : NodeEd25519) i n, p.derive P i = .ok n → hasKey n) ∧
    (∀ (p : NodeEd25519) i n, p.deriveHardened P i = .ok n → hasKey n) ∧
    (∀ (p : NodeEd25519) path n, p.derivePath P path = .ok n → hasKey n) ∧
    (∀ (n m : NodeEd25519), n.neutered P = .ok m → hasKey m) ∧
    (∀ n : NodeEd25519, n.isNeutered = true ↔ n.D = none) ∧
    (∀ n : NodeEd25519, n.isNeutered = true ↔ n.privateKey = .error Err.missingPrivateKey) := by
  have fresh : ∀ n, isFreshPrivate n → hasKey n := fun n h => Or.inl h.1
  refine ⟨fun seed N mt n h => fresh n (fromSeed_shape P seed N mt n h), ?_,
    fun p i n h => fresh n (derive_shape P p i n h),
    fun p i n h => fresh n (deriveHardened_shape P p i n h),
    fun p path n h => fresh n (derivePath_shape P p path n h), ?_, ?_, ?_⟩
  · intro s N n h
    obtain ⟨b, hb⟩ := fromBase58_shape P s N n h
    obtain ⟨_, _, hcase⟩ := fromPayload_ok_cases b N n hb
    rcases hcase with ⟨_, _, hn⟩ | ⟨_, hn⟩
    · subst hn
      exact Or.inl rfl
    · subst hn
      exact Or.inr rfl
  · intro n m h
    obtain ⟨pk, hm⟩ := neutered_shape P n m h
    subst hm
    exact Or.inr rfl
  · intro n
    unfold isNeutered
    cases n.D <;> simp
  · intro n
    unfold isNeutered privateKey
    cases n.D <;> simp

theorem hasKey_invariant_witness :
    hasKey sampleSeedMaster ∧ hasKey sampleSeedPublic ∧
    (sampleSeedPublic.isNeutered = true ↔ sampleSeedPublic.D = none) :=
  ⟨(hasKey_invariant samplePrimitives).1 (fromHex sampleSeedHex.data) Network.BITXOR
      MACType.HMAC sampleSeedMaster (by decide),
    (hasKey_invariant samplePrimitives).2.2.2.2.2.1 sampleSeedMaster sampleSeedPublic
      (by decide),
    (hasKey_invariant samplePrimitives).2.2.2.2.2.2.1 sampleSeedPublic⟩

end NodeEd25519

/-! ## The facade: ExtendedKey, Wallet and the MAC selection -/

/-- C30: `MACImpl.create` with the type KMAC is KMAC256 of the key and the data with the
salt as customization, the empty customization when the salt is absent; with every
other type it is HMAC-SHA512 of the key and the data, whatever the salt. -/
theorem MACImpl_create_selection (P : Primitives) (type : MACType) (key data : Buffer)
    (salt : Option Buffer) :
    (∀ custom, MACImpl.create P MACType.KMAC key data (some custom) = P.kmac256 key data custom) ∧
    MACImpl.create P MACType.KMAC key data none = P.kmac256 key data [] ∧
    (type ≠ MACType.KMAC →
      MACImpl.create P type key data salt = P.hmacSha512 key data ∧
      ∀ salt', MACImpl.create P type key data salt' = MACImpl.create P type key data salt) := by
  refine ⟨fun custom => rfl, rfl, ?_⟩
  intro h
  have hne : ¬ MACType.KMAC = type := fun e => h e.symm
  constructor
  · unfold MACImpl.create
    rw [if_neg hne]
    rfl
  · intro salt'
    unfold MACImpl.create
    rw [if_neg hne, if_neg hne]

theorem MACImpl_create_selection_witness :
    MACImpl.create sampleKmacPrimitives MACType.HMAC [1] [2] (some [3])
      = sampleKmacPrimitives.hmacSha512 [1] [2] ∧
    ∀ salt', MACImpl.create sampleKmacPrimitives MACType.HMAC [1] [2] salt'
      = MACImpl.create sampleKmacPrimitives MACType.HMAC [1] [2] (some [3]) :=
  (MACImpl_create_selection sampleKmacPrimitives MACType.HMAC [1] [2] (some [3])).2.2
    (by decide)

namespace ExtendedKey

/-- C21 (refuted as stated): for a network object with the curve ed25519 that is not
the object `Network.BITXOR`, `createFromSeed` and `createFromBase58` wrap a node of the
external engine, not a `NodeEd25519`. -/
theorem createFromSeed_curve_counterexample :
    sampleEd25519Network.val.curve = CurveAlgorithm.ed25519 ∧
    (∃ key, createFromSeed samplePrimitives sampleBip32 sampleSeedHex sampleEd25519Network
        MACType.HMAC = .ok key ∧ key.node.isEd25519 = false) ∧
    (∃ key, createFromBase58 samplePrimitives sampleBip32
        (samplePrimitives.bs58encode (samplePayload 0 0 0 0)) sampleEd25519Network
        MACType.HMAC = .ok key ∧ key.node.isEd25519 = false) :=
  ⟨rfl, ⟨_, rfl, rfl⟩, ⟨_, rfl, rfl⟩⟩

/-- C21 (amended): the dispatch is by the network object: `createFromSeed` wraps the
node of `NodeEd25519.fromSeed` exactly when the network is the object `Network.BITXOR`
(whose curve is ed25519) and wraps the node of the external engine for every other
network object, whatever its curve; `createFromBase58` dispatches the same way. -/
theorem createFromSeed_dispatch (P : Primitives) (E : Bip32) (text : String)
    (network : NetworkObject) (macType : MACType) :
    NetworkObject.BITXOR.val.curve = CurveAlgorithm.ed25519 ∧
    (network = NetworkObject.BITXOR →
      createFromSeed P E text network macType
        = (NodeEd25519.fromSeed P (fromHex text.data) Network.BITXOR macType).map
            (fun node => ⟨HDNode.ed25519 node, network, macType⟩) ∧
      createFromBase58 P E text network macType
        = (NodeEd25519.fromBase58 P text Network.BITXOR).map
            (fun node => ⟨HDNode.ed25519 node, network, macType⟩)) ∧
    (network ≠ NetworkObject.BITXOR →
      createFromSeed P E text network macType
        = (E.fromSeed (fromHex text.data)).map
            (fun node => ⟨HDNode.bip32 node, network, macType⟩) ∧
      createFromBase58 P E text network macType
        = (E.fromBase58 text).map (fun node => ⟨HDNode.bip32 node, network, macType⟩)) := by
  refine ⟨rfl, ?_, ?_⟩
  · intro h
    subst h
    unfold createFromSeed createFromBase58
    have hv : NetworkObject.BITXOR.val = Network.BITXOR := rfl
    rw [if_pos (Or.inl rfl), if_pos (Or.inl rfl), hv]
    constructor
    · cases NodeEd25519.fromSeed P (fromHex text.data) Network.BITXOR macType <;> rfl
    · cases NodeEd25519.fromBase58 P text Network.BITXOR <;> rfl
  · intro h
    unfold createFromSeed createFromBase58
    rw [if_neg (fun hc => hc.elim h h), if_neg (fun hc => hc.elim h h)]
    constructor
    · cases E.fromSeed (fromHex text.data) <;> rfl
    · cases E.fromBase58 text <;> rfl

theorem createFromSeed_dispatch_witness :
    createFromSeed samplePrimitives sampleBip32 sampleSeedHex sampleEd25519Network
        MACType.HMAC
      = (sampleBip32.fromSeed (fromHex sampleSeedHex.data)).map
          (fun node => ⟨HDNode.bip32 node, sampleEd25519Network, MACType.HMAC⟩) ∧
    createFromBase58 samplePrimitives sampleBip32 sampleSeedHex sampleEd25519Network
        MACType.HMAC
      = (sampleBip32.fromBase58 sampleSeedHex).map
          (fun node => ⟨HDNode.bip32 node, sampleEd25519Network, MACType.HMAC⟩) :=
  (createFromSeed_dispatch samplePrimitives sampleBip32 sampleSeedHex sampleEd25519Network
    MACType.HMAC).2.2 (by decide)

end ExtendedKey

theorem length_toHexChars (b : Buffer) : (toHexChars b).length = 2 * b.length := by
  induction b with
  | nil => rfl
  | cons x rest ih =>
    simp only [toHexChars, List.length_cons, ih]
    omega

theorem length_toHex (b : Buffer) : (toHex b).length = 2 * b.length := by
  unfold toHex
  rw [String.length_mk]
  exact length_toHexChars b

theorem hexChar_lower (n : Nat) (h : n < 16) :
    hexChar n ∈ ['0', '1', '2', '3', '4', '5', '6', '7', '8', '9', 'a', 'b', 'c', 'd', 'e', 'f'] := by
  interval_cases n <;> decide

theorem unhex_hexChar (n : Nat) (h : n < 16) :
    utf16Units (hexChar n) = [(hexChar n).toNat] ∧ unhex (hexChar n).toNat = some n := by
  interval_cases n <;> decide

/-- The digits of `toString('hex')` are the lower-case hexadecimal digits. -/
theorem toHexChars_lower (b : Buffer) : ∀ c ∈ toHexChars b,
    c ∈ ['0', '1', '2', '3', '4', '5', '6', '7', '8', '9', 'a', 'b', 'c', 'd', 'e', 'f'] := by
  induction b with
  | nil =>
    intro c hc
    cases hc
  | cons x rest ih =>
    intro c hc
    have hx := x.isLt
    simp only [toHexChars, List.mem_cons] at hc
    rcases hc with rfl | rfl | hc
    · exact hexChar_lower _ (by omega)
    · exact hexChar_lower _ (by omega)
    · exact ih c hc

/-- Decoding the hexadecimal string of a buffer gives the buffer back. -/
theorem fromHex_toHexChars (b : Buffer) : fromHex (toHexChars b) = b := by
  unfold fromHex
  induction b with
  | nil => rfl
  | cons x rest ih =>
    have hx := x.isLt
    obtain ⟨h1, h2⟩ := unhex_hexChar (x.val / 16) (by omega)
    obtain ⟨h3, h4⟩ := unhex_hexChar (x.val % 16) (by omega)
    rw [toHexChars, utf16, utf16, h1, h3, List.singleton_append, List.singleton_append,
      hexDecode, h2, h4]
    simp only [ih, List.cons.injEq, and_true]
    apply Fin.ext
    simp only [byte]
    omega

namespace ExtendedKey

/-- C25: when the public key of the wrapped node has 33 bytes `getPublicKey` returns it
without its first byte, when it has 32 bytes it returns the key itself: 32 bytes either
way, as the raw bytes for ENC_BIN and as 64 lower-case hexadecimal digits (which decode
to those bytes) for ENC_HEX; the node may be neutered or not, of either curve. -/
theorem getPublicKey_32 (P : Primitives) {E : Bip32} (k : ExtendedKey E) (pk : Buffer)
    (hpk : k.nodePublicKey P = .ok pk) (hlen : pk.length = 33 ∨ pk.length = 32) :
    ∃ key, (pk.length = 33 → key = pk.drop 1) ∧ (pk.length = 32 → key = pk) ∧
      key.length = 32 ∧
      k.getPublicKey P KeyEncoding.ENC_BIN = .ok (Encoded.bin key) ∧
      k.getPublicKey P KeyEncoding.ENC_HEX = .ok (Encoded.hex (toHex key)) ∧
      (toHex key).length = 64 ∧
      (∀ c ∈ (toHex key).data,
        c ∈ ['0', '1', '2', '3', '4', '5', '6', '7', '8', '9', 'a', 'b', 'c', 'd', 'e', 'f']) ∧
      fromHex (toHex key).data = key := by
  have hget : ∀ enc, k.getPublicKey P enc
      = .ok (encodeAs (if pk.length = 33 then pk.drop 1 else pk) enc) := by
    intro enc
    unfold getPublicKey
    rw [hpk]
    rfl
  refine ⟨if pk.length = 33 then pk.drop 1 else pk, fun h => by rw [if_pos h],
    fun h => by rw [if_neg (by omega)], ?_, hget _, hget _, ?_, ?_, ?_⟩
  · rcases hlen with h | h
    · rw [if_pos h, List.length_drop, h]
    · rw [if_neg (by omega), h]
  · rw [length_toHex]
    rcases hlen with h | h
    · rw [if_pos h, List.length_drop, h]
    · rw [if_neg (by omega), h]
  · exact toHexChars_lower _
  · exact fromHex_toHexChars _

theorem getPublicKey_32_witness :
    ∃ key, ((samplePrimitives.ed25519PublicKey (List.replicate 32 7)).length = 33 →
        key = (samplePrimitives.ed25519PublicKey (List.replicate 32 7)).drop 1) ∧
      ((samplePrimitives.ed25519PublicKey (List.replicate 32 7)).length = 32 →
        key = samplePrimitives.ed25519PublicKey (List.replicate 32 7)) ∧
      key.length = 32 ∧
      (⟨HDNode.ed25519 sampleMaster, NetworkObject.BITXOR, MACType.HMAC⟩ :
          ExtendedKey sampleBip32).getPublicKey samplePrimitives KeyEncoding.ENC_BIN
        = .ok (Encoded.bin key) ∧
      (⟨HDNode.ed25519 sampleMaster, NetworkObject.BITXOR, MACType.HMAC⟩ :
          ExtendedKey sampleBip32).getPublicKey samplePrimitives KeyEncoding.ENC_HEX
        = .ok (Encoded.hex (toHex key)) ∧
      (toHex key).length = 64 ∧
      (∀ c ∈ (toHex key).data,
        c ∈ ['0', '1', '2', '3', '4', '5', '6', '7', '8', '9', 'a', 'b', 'c', 'd', 'e', 'f']) ∧
      fromHex (toHex key).data = key :=
  getPublicKey_32 samplePrimitives
    (⟨HDNode.ed25519 sampleMaster, NetworkObject.BITXOR, MACType.HMAC⟩ : ExtendedKey sampleBip32)
    (samplePrimitives.ed25519PublicKey (List.replicate 32 7)) (by decide) (Or.inr (by decide))

/-- C26: `getPrivateKey` fails with 'Cannot read private key out of extended public
key.' exactly when the key is neutered; otherwise, for a `NodeEd25519` and for a node
of the external engine that has its private key, it returns the private key of the
node: as lower-case hexadecimal digits, twice as many as the key has bytes, for ENC_HEX
and as the buffer for ENC_BIN. -/
theorem getPrivateKey_iff {E : Bip32} (k : ExtendedKey E) (encoding : KeyEncoding) :
    (k.getPrivateKey encoding = .error Err.extendedPublicKey ↔ k.isNeutered = true) ∧
    (∀ node d, k.node = HDNode.ed25519 node → node.privateKey = .ok d →
      k.isNeutered = false ∧
      k.getPrivateKey KeyEncoding.ENC_HEX = .ok (Encoded.hex (toHex d)) ∧
      k.getPrivateKey KeyEncoding.ENC_BIN = .ok (Encoded.bin d)) ∧
    (∀ node d, k.node = HDNode.bip32 node → E.isNeutered node = false →
      E.privateKey node = some d →
      k.getPrivateKey KeyEncoding.ENC_HEX = .ok (Encoded.hex (toHex d)) ∧
      k.getPrivateKey KeyEncoding.ENC_BIN = .ok (Encoded.bin d)) ∧
    (∀ d : Buffer, (toHex d).length = 2 * d.length ∧ fromHex (toHex d).data = d ∧
      ∀ c ∈ (toHex d).data,
        c ∈ ['0', '1', '2', '3', '4', '5', '6', '7', '8', '9', 'a', 'b', 'c', 'd', 'e', 'f']) := by
  refine ⟨?_, ?_, ?_, fun d => ⟨length_toHex d, fromHex_toHexChars d, toHexChars_lower d⟩⟩
  · constructor
    · intro h
      by_contra hn
      unfold getPrivateKey at h
      rw [if_neg hn] at h
      cases hk : k.node with
      | bip32 node =>
        rw [hk] at h
        dsimp only at h
        cases hp : E.privateKey node with
        | none => rw [hp] at h; cases h
        | some d => rw [hp] at h; cases h
      | ed25519 node =>
        rw [hk] at h
        dsimp only at h
        have hD : ∃ d, node.D = some d := by
          cases hD : node.D with
          | none => simp [isNeutered, hk, NodeEd25519.isNeutered, hD] at hn
          | some d => exact ⟨d, rfl⟩
        obtain ⟨d, hD⟩ := hD
        simp [NodeEd25519.privateKey, hD, bind, Except.bind, pure, Except.pure] at h
    · intro h
      unfold getPrivateKey
      rw [if_pos h]
  · intro node d hk hd
    have hD : node.D = some d := by
      unfold NodeEd25519.privateKey at hd
      cases hD : node.D with
      | none => rw [hD] at hd; cases hd
      | some d' =>
        rw [hD] at hd
        injection hd with hd
        rw [hd]
    have hn : k.isNeutered = false := by
      simp [isNeutered, hk, NodeEd25519.isNeutered, hD]
    refine ⟨hn, ?_, ?_⟩ <;>
    · unfold getPrivateKey
      rw [hn, hk]
      simp only [hd]
      rfl
  · intro node d hk hn hd
    have hn' : k.isNeutered = false := by
      simp [isNeutered, hk, hn]
    constructor <;>
    · unfold getPrivateKey
      rw [hn', hk]
      simp only [hd]
      rfl

theorem getPrivateKey_iff_witness :
    (⟨HDNode.ed25519 sampleMaster, NetworkObject.BITXOR, MACType.HMAC⟩ :
        ExtendedKey sampleBip32).isNeutered = false ∧
    (⟨HDNode.ed25519 sampleMaster, NetworkObject.BITXOR, MACType.HMAC⟩ :
        ExtendedKey sampleBip32).getPrivateKey KeyEncoding.ENC_HEX
      = .ok (Encoded.hex (toHex (List.replicate 32 7))) ∧
    (⟨HDNode.ed25519 sampleMaster, NetworkObject.BITXOR, MACType.HMAC⟩ :
        ExtendedKey sampleBip32).getPrivateKey KeyEncoding.ENC_BIN
      = .ok (Encoded.bin (List.replicate 32 7)) :=
  (getPrivateKey_iff (⟨HDNode.ed25519 sampleMaster, NetworkObject.BITXOR, MACType.HMAC⟩ :
    ExtendedKey sampleBip32) KeyEncoding.ENC_HEX).2.1 sampleMaster (List.replicate 32 7) rfl rfl

end ExtendedKey

namespace Wallet

theorem new_ok {E : Bip32} (P : Primitives) (k : ExtendedKey E) (w : Wallet E)
    (hw : Wallet.new P k = .ok w) :
    w.extendedKey = k ∧ w.readOnly = k.isNeutered ∧
      k.getPublicKey P KeyEncoding.ENC_BIN = .ok w.publicKey := by
  unfold Wallet.new at hw
  cases hp : k.getPublicKey P KeyEncoding.ENC_BIN with
  | error e => rw [hp] at hw; cases hw
  | ok pk =>
    rw [hp] at hw
    injection hw with hw
    subst hw
    refine ⟨rfl, ?_, rfl⟩
    cases k.isNeutered <;> rfl

/-- C27: a wallet made from the extended key `k` is read-only exactly when `k` is
neutered; a read-only wallet refuses `getAccountPrivateKey()` with 'Missing private key,
please use method getAccountPublicKey().' and `getChildAccountPrivateKey(path)`, for
every path and for the call without one, with 'Missing private key, please use method
getChildAccountPublicKey().', whatever `derivePath` would do; a wallet that is not
read-only answers `getAccountPrivateKey()` with `k.getPrivateKey(ENC_HEX)`. -/
theorem readOnly_iff_neutered {E : Bip32} (P : Primitives) (k : ExtendedKey E) (w : Wallet E)
    (hw : Wallet.new P k = .ok w) :
    w.isReadOnly = k.isNeutered ∧
    (w.isReadOnly = true →
      w.getAccountPrivateKey = .error Err.walletReadOnly ∧
      ∀ path, w.getChildAccountPrivateKey P path = .error Err.walletReadOnlyChild) ∧
    (w.isReadOnly = false →
      w.getAccountPrivateKey = k.getPrivateKey KeyEncoding.ENC_HEX) := by
  obtain ⟨hk, hr, -⟩ := new_ok P k w hw
  refine ⟨hr, ?_, ?_⟩
  · intro h
    have h' : w.readOnly = true := h
    refine ⟨?_, fun path => ?_⟩
    · unfold getAccountPrivateKey
      rw [h']
      rfl
    · unfold getChildAccountPrivateKey
      simp only [h']
      rfl
  · intro h
    have h' : w.readOnly = false := h
    unfold getAccountPrivateKey
    rw [h', hk]
    rfl

theorem readOnly_iff_neutered_witness :
    Wallet.new samplePrimitives sampleSeedPublicKey = .ok sampleReadOnlyWallet ∧
    Wallet.new samplePrimitives sampleSeedKey = .ok sampleWallet ∧
    (sampleReadOnlyWallet.isReadOnly = sampleSeedPublicKey.isNeutered ∧
      (sampleReadOnlyWallet.isReadOnly = true →
        sampleReadOnlyWallet.getAccountPrivateKey = .error Err.walletReadOnly ∧
        ∀ path, sampleReadOnlyWallet.getChildAccountPrivateKey samplePrimitives path
          = .error Err.walletReadOnlyChild) ∧
      (sampleReadOnlyWallet.isReadOnly = false →
        sampleReadOnlyWallet.getAccountPrivateKey
          = sampleSeedPublicKey.getPrivateKey KeyEncoding.ENC_HEX)) ∧
    (sampleWallet.isReadOnly = false →
      sampleWallet.getAccountPrivateKey = sampleSeedKey.getPrivateKey KeyEncoding.ENC_HEX) :=
  ⟨rfl, rfl, readOnly_iff_neutered samplePrimitives sampleSeedPublicKey sampleReadOnlyWallet rfl,
    (readOnly_iff_neutered samplePrimitives sampleSeedKey sampleWallet rfl).2.2⟩

/-- C28: for an extended key `k` over a `NodeEd25519`, making a wallet of the public node
of `k` and asking its account public key, making a wallet of `k` itself and asking its
account public key, and `k.getPublicKey(ENC_HEX)` have the same outcome: the same
hexadecimal string when the public key of the node can be read, the same exception when
it cannot. -/
theorem accountPublicKey_of_public_node {E : Bip32} (P : Primitives) (k : ExtendedKey E)
    (node : NodeEd25519) (hk : k.node = HDNode.ed25519 node) :
    (k.getPublicNode P >>= fun pub => Wallet.new P pub >>= fun w => pure w.getAccountPublicKey)
      = (Wallet.new P k >>= fun w => pure w.getAccountPublicKey) ∧
    (Wallet.new P k >>= fun w => pure w.getAccountPublicKey)
      = (k.getPublicKey P KeyEncoding.ENC_HEX >>= fun key => pure key.toStringHex) ∧
    (∀ pk, node.publicKey P = .ok pk →
      ∃ pub wpub w, k.getPublicNode P = .ok pub ∧ pub.isNeutered = true ∧
        Wallet.new P pub = .ok wpub ∧ Wallet.new P k = .ok w ∧
        k.getPublicKey P KeyEncoding.ENC_HEX = .ok (Encoded.hex w.getAccountPublicKey) ∧
        wpub.getAccountPublicKey = w.getAccountPublicKey ∧
        w.getAccountPublicKey = toHex (if pk.length = 33 then pk.drop 1 else pk)) := by
  have hnew : ∀ k' : ExtendedKey E, Wallet.new P k'
      = (k'.getPublicKey P KeyEncoding.ENC_BIN >>= fun q =>
          pure ⟨k', k'.isNeutered, q⟩) := by
    intro k'
    unfold Wallet.new
    cases k'.isNeutered <;> rfl
  have hget : ∀ (k' : ExtendedKey E) enc, k'.getPublicKey P enc
      = (k'.nodePublicKey P >>= fun q =>
          pure (ExtendedKey.encodeAs (if q.length = 33 then q.drop 1 else q) enc)) :=
    fun _ _ => rfl
  have hnode : k.nodePublicKey P = node.publicKey P := by
    unfold ExtendedKey.nodePublicKey
    rw [hk]
  cases hp : node.publicKey P with
  | error e =>
    refine ⟨?_, ?_, fun pk h => by cases h⟩
    · rw [hnew k, hget k, hnode, hp]
      unfold ExtendedKey.getPublicNode
      rw [hk]
      simp only [NodeEd25519.neutered, hp]
      rfl
    · rw [hnew k, hget k, hget k, hnode, hp]
      rfl
  | ok pk =>
    have hpub : k.getPublicNode P = .ok ⟨HDNode.ed25519 (NodeEd25519.new none (some pk)
        node.chainCode node.network node.DEPTH node.INDEX node.PARENT_FINGERPRINT),
        k.network, k.macType⟩ := by
      unfold ExtendedKey.getPublicNode
      rw [hk]
      simp only [NodeEd25519.neutered, hp]
      rfl
    have hw : Wallet.new P k = .ok ⟨k, k.isNeutered,
        Encoded.bin (if pk.length = 33 then pk.drop 1 else pk)⟩ := by
      rw [hnew k, hget k, hnode, hp]
      rfl
    have hwpub : Wallet.new P (⟨HDNode.ed25519 (NodeEd25519.new none (some pk)
        node.chainCode node.network node.DEPTH node.INDEX node.PARENT_FINGERPRINT),
        k.network, k.macType⟩ : ExtendedKey E) = .ok ⟨⟨HDNode.ed25519 (NodeEd25519.new none
        (some pk) node.chainCode node.network node.DEPTH node.INDEX node.PARENT_FINGERPRINT),
        k.network, k.macType⟩, true,
        Encoded.bin (if pk.length = 33 then pk.drop 1 else pk)⟩ := by
      rw [hnew, hget]
      rfl
    have hhex : k.getPublicKey P KeyEncoding.ENC_HEX
        = .ok (Encoded.hex (toHex (if pk.length = 33 then pk.drop 1 else pk))) := by
      rw [hget k, hnode, hp]
      rfl
    refine ⟨?_, ?_, ?_⟩
    · rw [hpub, hw]
      simp only [bind, Except.bind, hwpub]
      rfl
    · rw [hw, hhex]
      rfl
    · intro pk' hpk'
      injection hpk' with hpk'
      subst hpk'
      exact ⟨_, _, _, hpub, rfl, hwpub, hw, hhex, rfl, rfl⟩

theorem accountPublicKey_of_public_node_witness :
    ∃ pub wpub w, sampleSeedKey.getPublicNode samplePrimitives = .ok pub ∧
      pub.isNeutered = true ∧
      Wallet.new samplePrimitives pub = .ok wpub ∧
      Wallet.new samplePrimitives sampleSeedKey = .ok w ∧
      sampleSeedKey.getPublicKey samplePrimitives KeyEncoding.ENC_HEX
        = .ok (Encoded.hex w.getAccountPublicKey) ∧
      wpub.getAccountPublicKey = w.getAccountPublicKey ∧
      w.getAccountPublicKey
        = toHex (if sampleSeedQ.length = 33 then sampleSeedQ.drop 1 else sampleSeedQ) :=
  (accountPublicKey_of_public_node samplePrimitives sampleSeedKey sampleSeedMaster rfl).2.2
    sampleSeedQ rfl

theorem default_path_valid : NodeEd25519.isValidPath DEFAULT_WALLET_PATH = true := by
  rw [NodeEd25519.isValidPath_eq_pathGrammar]
  decide

theorem default_path_indices :
    NodeEd25519.pathIndices DEFAULT_WALLET_PATH = [44, 4343, 0, 0, 0] := by
  decide

end Wallet

theorem length_copy (src tgt : Buffer) (off : Nat) (h : off ≤ tgt.length) :
    (copy src tgt off).length = tgt.length := by
  unfold copy
  simp only [List.length_append, List.length_take, List.length_drop]
  omega

theorem take_copy (src tgt : Buffer) (off k : Nat) (hk : k ≤ off) (h : off ≤ tgt.length) :
    (copy src tgt off).take k = tgt.take k := by
  unfold copy
  rw [List.append_assoc, List.take_append_of_le_length (by rw [List.length_take]; omega),
    List.take_take, Nat.min_eq_left hk]

theorem writeUInt32BE_big (buf : Buffer) (v off : Nat) (h : ¬ v < 2 ^ 32) :
    writeUInt32BE buf (v : Int) off = .error Err.outOfRange := by
  unfold writeUInt32BE
  rw [if_pos (by omega)]

theorem writeUInt8_big (buf : Buffer) (v off : Nat) (h : ¬ v ≤ 255) :
    writeUInt8 buf (v : Int) off = .error Err.outOfRange := by
  unfold writeUInt8
  rw [if_pos (by omega)]

namespace NodeEd25519

theorem afterChainCode_spec (mem : Nat → Byte) (n : NodeEd25519) :
    (afterChainCode mem n).length = 78 ∧
    (afterChainCode mem n).take 13 = header (if !n.isNeutered then n.network.privateKeyPrefix
      else n.network.publicKeyPrefix) n.DEPTH n.PARENT_FINGERPRINT n.INDEX := by
  have hlen := length_allocUnsafe mem 78
  have hl : (header (if !n.isNeutered then n.network.privateKeyPrefix
      else n.network.publicKeyPrefix) n.DEPTH n.PARENT_FINGERPRINT n.INDEX
      ++ (allocUnsafe mem 78).drop 13).length = 78 := by
    rw [List.length_append, length_header, List.length_drop, hlen]
  unfold afterChainCode
  refine ⟨by rw [length_copy _ _ _ (by omega), hl], ?_⟩
  rw [take_copy _ _ _ _ (le_refl _) (by omega),
    List.take_append_of_le_length (by rw [length_header])]
  exact List.take_of_length_le (by rw [length_header])

/-- The body of `toBase58` in terms of `afterChainCode`: the range checks of the four
header writes, then the key. -/
theorem toBase58Buffer_eq (P : Primitives) (mem : Nat → Byte) (n : NodeEd25519) :
    toBase58Buffer P mem n =
      if (if !n.isNeutered then n.network.privateKeyPrefix else n.network.publicKeyPrefix)
          < 2 ^ 32 ∧ n.DEPTH ≤ 255 ∧ n.PARENT_FINGERPRINT < 2 ^ 32 ∧ n.INDEX < 2 ^ 32 then
        match n.D with
        | some d => .ok (copy d (copy [0] (afterChainCode mem n) 45) 46)
        | none => (n.publicKey P).map (fun pub => copy pub (afterChainCode mem n) 45)
      else .error Err.outOfRange := by
  have hlen := length_allocUnsafe mem 78
  generalize hvdef : (if !n.isNeutered then n.network.privateKeyPrefix
    else n.network.publicKeyPrefix) = v
  unfold toBase58Buffer afterChainCode
  simp only [hvdef]
  by_cases hv : v < 2 ^ 32
  swap
  · rw [writeUInt32BE_big _ _ _ hv, if_neg (fun h => hv h.1)]
    rfl
  have e0 : copy (be32 v) (allocUnsafe mem 78) 0 = be32 v ++ (allocUnsafe mem 78).drop 4 := by
    have := copy_step_fit [] (be32 v) (allocUnsafe mem 78) 0 4 rfl rfl (by omega)
    simpa using this
  rw [writeUInt32BE_nat _ _ _ hv]
  simp only [Except.bind, bind, pure, Except.pure]
  rw [e0]
  by_cases hd : n.DEPTH ≤ 255
  swap
  · rw [writeUInt8_big _ _ _ hd, if_neg (fun h => hd h.2.1)]
  rw [writeUInt8_nat _ _ _ hd]
  simp only
  rw [copy_step_fit (be32 _) [byte _] (allocUnsafe mem 78) 4 5 rfl rfl (by omega)]
  by_cases hp : n.PARENT_FINGERPRINT < 2 ^ 32
  swap
  · rw [writeUInt32BE_big _ _ _ hp, if_neg (fun h => hp h.2.2.1)]
  rw [writeUInt32BE_nat _ _ _ hp]
  simp only
  rw [copy_step_fit (be32 _ ++ [byte _]) (be32 _) (allocUnsafe mem 78) 5 9 rfl rfl (by omega)]
  by_cases hi : n.INDEX < 2 ^ 32
  swap
  · rw [writeUInt32BE_big _ _ _ hi, if_neg (fun h => hi h.2.2.2)]
  rw [writeUInt32BE_nat _ _ _ hi]
  simp only
  rw [copy_step_fit (be32 _ ++ [byte _] ++ be32 _) (be32 _) (allocUnsafe mem 78) 9 13 rfl rfl
    (by omega)]
  rw [if_pos (show v < 2 ^ 32 ∧ n.DEPTH ≤ 255 ∧ n.PARENT_FINGERPRINT < 2 ^ 32
    ∧ n.INDEX < 2 ^ 32 from ⟨hv, hd, hp, hi⟩)]
  cases hD : n.D with
  | some d =>
    simp only [isNeutered, hD, Option.isNone_some, Bool.not_false, if_true, privateKey]
    have h8 := writeUInt8_nat (copy n.chainCode (be32 v ++ [byte n.DEPTH]
      ++ be32 n.PARENT_FINGERPRINT ++ be32 n.INDEX ++ List.drop 13 (allocUnsafe mem 78)) 13)
      0 45 (by omega)
    simp only [Nat.cast_zero] at h8
    rw [h8]
    rfl
  | none =>
    simp only [isNeutered, hD, Option.isNone_none, Bool.not_true]
    rw [if_neg (by simp)]
    cases n.publicKey P <;> rfl

/-- What `toBase58` encodes starts with the header of the node, whatever the chain code
and the key are: the range checks passed, the payload has 78 bytes and its first
thirteen are the version, the depth, the parent fingerprint and the index. -/
theorem toBase58Buffer_header (P : Primitives) (mem : Nat → Byte) (n : NodeEd25519)
    (buf : Buffer) (h : toBase58Buffer P mem n = .ok buf) :
    n.PARENT_FINGERPRINT < 2 ^ 32 ∧ buf.length = 78 ∧
    buf.take 13 = header (if !n.isNeutered then n.network.privateKeyPrefix
      else n.network.publicKeyPrefix) n.DEPTH n.PARENT_FINGERPRINT n.INDEX := by
  obtain ⟨hl, ht⟩ := afterChainCode_spec mem n
  rw [toBase58Buffer_eq] at h
  by_cases hr : (if !n.isNeutered then n.network.privateKeyPrefix
      else n.network.publicKeyPrefix) < 2 ^ 32 ∧ n.DEPTH ≤ 255
      ∧ n.PARENT_FINGERPRINT < 2 ^ 32 ∧ n.INDEX < 2 ^ 32
  swap
  · rw [if_neg hr] at h
    cases h
  rw [if_pos hr] at h
  refine ⟨hr.2.2.1, ?_⟩
  cases hD : n.D with
  | some d =>
    rw [hD] at h
    injection h with h
    subst h
    have hl1 : (copy [0] (afterChainCode mem n) 45).length = 78 := by
      rw [length_copy _ _ _ (by omega), hl]
    refine ⟨by rw [length_copy _ _ _ (by omega), hl1], ?_⟩
    rw [take_copy _ _ _ _ (by omega) (by omega), take_copy _ _ _ _ (by omega) (by omega), ht]
  | none =>
    rw [hD] at h
    cases hq : n.publicKey P with
    | error e => rw [hq] at h; cases h
    | ok q =>
      rw [hq] at h
      injection h with h
      subst h
      refine ⟨by rw [length_copy _ _ _ (by omega), hl], ?_⟩
      rw [take_copy _ _ _ _ (by omega) (by omega), ht]

theorem read_parentFingerprint_take (buf : Buffer) (v d p i : Nat) (hp : p < 2 ^ 32)
    (h : buf.take 13 = header v d p i) : readUInt32BE buf 5 = p := by
  rw [← List.take_append_drop 13 buf, h]
  exact read_parentFingerprint v d p i _ hp

theorem CKDPriv_network (P : Primitives) (p : NodeEd25519) (i : Int) (m : MACType)
    (n : NodeEd25519) (h : CKDPriv P p i m = .ok n) : n.network = p.network := by
  unfold CKDPriv at h
  cases hw : writeUInt32BE (allocUnsafe (fun _ => 0) 4) i 0 with
  | error e => simp [hw, bind, Except.bind] at h
  | ok buf =>
    cases hd : p.privateKey with
    | error e => simp [hw, hd, bind, Except.bind] at h
    | ok d =>
      simp only [hw, hd, bind, Except.bind, pure, Except.pure] at h
      injection h with h
      subst h
      rfl

theorem deriveHardened_network (P : Primitives) (p : NodeEd25519) (i : Int) (n : NodeEd25519)
    (h : p.deriveHardened P i = .ok n) : n.network = p.network := by
  unfold deriveHardened derive at h
  dsimp only at h
  split_ifs at h
  exact CKDPriv_network P p _ _ n h

theorem hardenedFold_network (P : Primitives) (is : List Int) (p n : NodeEd25519)
    (h : hardenedFold P p is = .ok n) : n.network = p.network := by
  induction is generalizing p with
  | nil =>
    change Except.ok p = Except.ok n at h
    injection h with h
    rw [h]
  | cons i is ih =>
    rw [hardenedFold] at h
    cases hd : p.deriveHardened P i with
    | error e => rw [hd] at h; cases h
    | ok c =>
      rw [hd] at h
      rw [ih c h, deriveHardened_network P p i c hd]

theorem derivePath_network (P : Primitives) (p : NodeEd25519) (path : String)
    (n : NodeEd25519) (h : p.derivePath P path = .ok n) : n.network = p.network := by
  cases hv : isValidPath path with
  | false =>
    rw [derivePath_invalid P p path hv] at h
    cases h
  | true =>
    rw [derivePath_eq_fold P p path hv] at h
    split_ifs at h
    exact hardenedFold_network P _ p n h

/-- The child `deriveHardened(i)` returns for a node with a private key: both halves
come from `createHmac('sha512', ...)`. -/
theorem deriveHardened_value (P : Primitives) (p : NodeEd25519) (d : Buffer) (i : Int)
    (hd : p.D = some d) (h0 : 0 ≤ i) (h1 : i ≤ 2 ^ 31 - 1) :
    p.deriveHardened P i = .ok (new4
      (some (slice (P.hmacSha512 p.chainCode ([0] ++ d ++ be32 (i + HIGHEST_BIT).toNat)) 0 32))
      none
      ((P.hmacSha512 p.chainCode ([0] ++ d ++ be32 (i + HIGHEST_BIT).toNat)).drop 32)
      p.network) := by
  unfold deriveHardened
  dsimp only
  rw [if_neg (by omega), derive_private P p d _ hd,
    CKDPriv_ok P p d _ _ hd (by unfold HIGHEST_BIT; omega) (by unfold HIGHEST_BIT; omega)]
  rfl

end NodeEd25519

namespace ExtendedKey

/-- What `isMaster()` answers for a `NodeEd25519` whose `toBase58` succeeds, for a codec
whose `decode` undoes `encode`. -/
theorem isMaster_value (P : Primitives) {E : Bip32} (mem : Nat → Byte) (k : ExtendedKey E)
    (node : NodeEd25519) (s : String)
    (hcodec : ∀ b, P.bs58decode (P.bs58encode b) = some b)
    (hk : k.node = HDNode.ed25519 node) (hs : k.toBase58 P mem = .ok s) :
    (∃ buf, P.bs58decode s = some buf ∧ buf.length = 78 ∧
      readUInt32BE buf 5 = node.PARENT_FINGERPRINT) ∧
    k.isMaster P mem = .ok (decide (node.PARENT_FINGERPRINT = 0)) := by
  have hs' : node.toBase58 P mem = .ok s := by
    unfold toBase58 at hs
    rw [hk] at hs
    exact hs
  unfold NodeEd25519.toBase58 at hs'
  cases hb : NodeEd25519.toBase58Buffer P mem node with
  | error e => simp [hb, bind, Except.bind] at hs'
  | ok buf =>
    simp only [hb, bind, Except.bind, pure, Except.pure] at hs'
    injection hs' with hs'
    subst hs'
    obtain ⟨hp, hl, ht⟩ := NodeEd25519.toBase58Buffer_header P mem node buf hb
    have hr := NodeEd25519.read_parentFingerprint_take buf _ _ _ _ hp ht
    refine ⟨⟨buf, hcodec buf, hl, hr⟩, ?_⟩
    unfold isMaster
    rw [hs]
    simp only [bind, Except.bind, hcodec buf]
    rw [if_neg (by omega), hr]
    rfl

/-- C22: for an `ExtendedKey` over a `NodeEd25519` whose `toBase58` succeeds (and a
Base58Check codec whose `decode` undoes `encode`), the 32-bit number at offset 5 of the
decoded serialization is the parent fingerprint of the node, and `isMaster()` returns
true exactly when that parent fingerprint is 0, whatever the depth, the index, the
chain code and the key are. -/
theorem isMaster_iff_parentFingerprint (P : Primitives) {E : Bip32} (mem : Nat → Byte)
    (k : ExtendedKey E) (node : NodeEd25519) (s : String)
    (hcodec : ∀ b, P.bs58decode (P.bs58encode b) = some b)
    (hk : k.node = HDNode.ed25519 node) (hs : k.toBase58 P mem = .ok s) :
    (∃ buf, P.bs58decode s = some buf ∧ readUInt32BE buf 5 = node.PARENT_FINGERPRINT) ∧
    (∃ b, k.isMaster P mem = .ok b) ∧
    (k.isMaster P mem = .ok true ↔ node.PARENT_FINGERPRINT = 0) ∧
    (k.isMaster P mem = .ok false ↔ node.PARENT_FINGERPRINT ≠ 0) := by
  obtain ⟨⟨buf, hb, -, hr⟩, hm⟩ := isMaster_value P mem k node s hcodec hk hs
  refine ⟨⟨buf, hb, hr⟩, ⟨_, hm⟩, ?_, ?_⟩
  · rw [hm]
    constructor
    · intro h
      injection h with h
      exact of_decide_eq_true h
    · intro h
      rw [decide_eq_true h]
  · rw [hm]
    constructor
    · intro h
      injection h with h
      exact of_decide_eq_false h
    · intro h
      rw [decide_eq_false h]

theorem isMaster_iff_parentFingerprint_witness :
    ((∃ b, (⟨HDNode.ed25519 sampleChild, NetworkObject.BITXOR, MACType.HMAC⟩ :
        ExtendedKey sampleBip32).isMaster samplePrimitives (fun _ => 0) = .ok b) ∧
      ((⟨HDNode.ed25519 sampleChild, NetworkObject.BITXOR, MACType.HMAC⟩ :
        ExtendedKey sampleBip32).isMaster samplePrimitives (fun _ => 0) = .ok true
        ↔ sampleChild.PARENT_FINGERPRINT = 0) ∧
      ((⟨HDNode.ed25519 sampleChild, NetworkObject.BITXOR, MACType.HMAC⟩ :
        ExtendedKey sampleBip32).isMaster samplePrimitives (fun _ => 0) = .ok false
        ↔ sampleChild.PARENT_FINGERPRINT ≠ 0)) ∧
    sampleChild.PARENT_FINGERPRINT = 16909060 ∧ sampleChild.DEPTH = 1 :=
  ⟨(isMaster_iff_parentFingerprint samplePrimitives (fun _ => 0)
    (⟨HDNode.ed25519 sampleChild, NetworkObject.BITXOR, MACType.HMAC⟩ : ExtendedKey sampleBip32)
    sampleChild _ samplePrimitives_codec rfl rfl).2, rfl, rfl⟩

/-- A node as `fromSeed` and `CKDPriv` return them serializes, and `isMaster()` is true
of it. -/
theorem isMaster_fresh (P : Primitives) {E : Bip32} (mem : Nat → Byte) (k : ExtendedKey E)
    (node : NodeEd25519) (hcodec : ∀ b, P.bs58decode (P.bs58encode b) = some b)
    (hk : k.node = HDNode.ed25519 node) (hf : isFreshPrivate node)
    (hv : node.network.privateKeyPrefix < 2 ^ 32) :
    k.isMaster P mem = .ok true := by
  obtain ⟨hD, -, hdepth, hindex, hpf⟩ := hf
  obtain ⟨d, hd⟩ := Option.isSome_iff_exists.1 hD
  have hn : node.isNeutered = false := by
    simp [NodeEd25519.isNeutered, hd]
  have hb : NodeEd25519.toBase58Buffer P mem node
      = .ok (copy d (copy [0] (NodeEd25519.afterChainCode mem node) 45) 46) := by
    rw [NodeEd25519.toBase58Buffer_eq, if_pos, hd]
    rw [hn, hdepth, hindex, hpf]
    exact ⟨hv, by omega, by omega, by omega⟩
  have hs : k.toBase58 P mem
      = .ok (P.bs58encode (copy d (copy [0] (NodeEd25519.afterChainCode mem node) 45) 46)) := by
    unfold toBase58
    rw [hk]
    show NodeEd25519.toBase58 P mem node = _
    unfold NodeEd25519.toBase58
    rw [hb]
    rfl
  rw [(isMaster_value P mem k node _ hcodec hk hs).2, hpf]
  rfl

theorem createFromSeed_bitxor (P : Primitives) (E : Bip32) (seed : String) (macType : MACType)
    (k : ExtendedKey E)
    (hk : createFromSeed P E seed NetworkObject.BITXOR macType = .ok k) :
    ∃ node, NodeEd25519.fromSeed P (fromHex seed.data) Network.BITXOR macType = .ok node ∧
      k = ⟨HDNode.ed25519 node, NetworkObject.BITXOR, macType⟩ := by
  unfold createFromSeed at hk
  rw [if_pos (Or.inl rfl)] at hk
  have hv : NetworkObject.BITXOR.val = Network.BITXOR := rfl
  rw [hv] at hk
  cases hn : NodeEd25519.fromSeed P (fromHex seed.data) Network.BITXOR macType with
  | error e => simp [hn, bind, Except.bind] at hk
  | ok node =>
    simp only [hn, bind, Except.bind, pure, Except.pure] at hk
    injection hk with hk
    exact ⟨node, rfl, hk.symm⟩

theorem derivePath_ed25519 (P : Primitives) {E : Bip32} (node : NodeEd25519)
    (network : NetworkObject) (macType : MACType) (path : String) :
    (⟨HDNode.ed25519 node, network, macType⟩ : ExtendedKey E).derivePath P path
      = (node.derivePath P path).map (fun n => ⟨HDNode.ed25519 n, network, macType⟩) := by
  unfold derivePath
  dsimp only
  cases node.derivePath P path <;> rfl

/-- C23 (as the code behaves): on `Network.BITXOR` the key `createFromSeed` returns is a master key,
and so is every key `derivePath` derives from it: the derived node has the parent
fingerprint 0 of the constructor defaults, so `isMaster()` is true, not false, for
every seed, MAC type and path on which the derivation succeeds (for a Base58Check codec
whose `decode` undoes `encode`). -/
theorem derived_key_isMaster (P : Primitives) (E : Bip32) (mem : Nat → Byte) (seed : String)
    (macType : MACType) (path : String) (k child : ExtendedKey E)
    (hcodec : ∀ b, P.bs58decode (P.bs58encode b) = some b)
    (hk : createFromSeed P E seed NetworkObject.BITXOR macType = .ok k)
    (hd : k.derivePath P path = .ok child) :
    k.isMaster P mem = .ok true ∧ child.isMaster P mem = .ok true ∧
      child.isMaster P mem ≠ .ok false := by
  obtain ⟨node, hnode, rfl⟩ := createFromSeed_bitxor P E seed macType k hk
  have hnet : node.network = Network.BITXOR := by
    unfold NodeEd25519.fromSeed at hnode
    split_ifs at hnode
    injection hnode with hnode
    rw [← hnode]
    rfl
  have hpre : Network.BITXOR.privateKeyPrefix < 2 ^ 32 := by decide
  rw [derivePath_ed25519] at hd
  cases hc : node.derivePath P path with
  | error e => rw [hc] at hd; cases hd
  | ok c =>
    rw [hc] at hd
    change Except.ok _ = Except.ok child at hd
    injection hd with hd
    subst hd
    have hchild : isMaster P mem (⟨HDNode.ed25519 c, NetworkObject.BITXOR, macType⟩ :
        ExtendedKey E) = .ok true :=
      isMaster_fresh P mem _ c hcodec rfl (NodeEd25519.derivePath_shape P node path c hc)
        (by rw [NodeEd25519.derivePath_network P node path c hc, hnet]; exact hpre)
    refine ⟨isMaster_fresh P mem _ node hcodec rfl
      (NodeEd25519.fromSeed_shape P _ _ _ node hnode) (by rw [hnet]; exact hpre), hchild, ?_⟩
    rw [hchild]
    intro h
    cases h

theorem derived_key_isMaster_witness :
    createFromSeed samplePrimitives sampleBip32 sampleSeedHex NetworkObject.BITXOR MACType.HMAC
      = .ok sampleSeedKey ∧
    ∃ child, sampleSeedKey.derivePath samplePrimitives "m/0'" = .ok child ∧
      sampleSeedKey.isMaster samplePrimitives (fun _ => 0) = .ok true ∧
      child.isMaster samplePrimitives (fun _ => 0) = .ok true ∧
      child.isMaster samplePrimitives (fun _ => 0) ≠ .ok false :=
  ⟨rfl, _, rfl, derived_key_isMaster samplePrimitives sampleBip32 (fun _ => 0) sampleSeedHex
    MACType.HMAC "m/0'" sampleSeedKey _ samplePrimitives_codec rfl rfl⟩

/-- C24 (as the code behaves): `derive` calls `CKDPriv` without the MAC type, so every step of
`derivePath` on a node with a private key computes `I` with `createHmac('sha512', ...)`
over `0x00 || privateKey || BE32(index + 2^31)`, keyed by the chain code: the child is a
function of the parent and the index alone; `derivePath` of the extended key wraps what
`derivePath` of the node returns and only carries the MAC type along, so keys that
differ in their MAC type alone derive the same node. -/
theorem derivePath_ignores_macType (P : Primitives) {E : Bip32} (node : NodeEd25519)
    (network : NetworkObject) (M : MACType) (path : String) (d : Buffer) (i : Int)
    (hd : node.D = some d) (h0 : 0 ≤ i) (h1 : i ≤ 2 ^ 31 - 1) :
    node.deriveHardened P i
      = NodeEd25519.CKDPriv P node (i + NodeEd25519.HIGHEST_BIT) MACType.HMAC ∧
    node.deriveHardened P i = .ok (NodeEd25519.new4
      (some (slice (P.hmacSha512 node.chainCode
        ([0] ++ d ++ be32 (i + NodeEd25519.HIGHEST_BIT).toNat)) 0 32))
      none
      ((P.hmacSha512 node.chainCode
        ([0] ++ d ++ be32 (i + NodeEd25519.HIGHEST_BIT).toNat)).drop 32)
      node.network) ∧
    (⟨HDNode.ed25519 node, network, M⟩ : ExtendedKey E).derivePath P path
      = (node.derivePath P path).map (fun n => ⟨HDNode.ed25519 n, network, M⟩) ∧
    ((⟨HDNode.ed25519 node, network, M⟩ : ExtendedKey E).derivePath P path).map
        (fun key => key.node)
      = ((⟨HDNode.ed25519 node, network, MACType.HMAC⟩ : ExtendedKey E).derivePath P path).map
        (fun key => key.node) := by
  refine ⟨?_, NodeEd25519.deriveHardened_value P node d i hd h0 h1,
    derivePath_ed25519 P node network M path, ?_⟩
  · unfold NodeEd25519.deriveHardened
    dsimp only
    rw [if_neg (by omega), NodeEd25519.derive_private P node d _ hd]
  · rw [derivePath_ed25519, derivePath_ed25519]
    cases node.derivePath P path <;> rfl

theorem derivePath_ignores_macType_witness :
    (∃ key child, createFromSeed sampleKmacPrimitives sampleBip32 sampleSeedHex
        NetworkObject.BITXOR MACType.KMAC = .ok key ∧ key.macType = MACType.KMAC ∧
      key.node = HDNode.ed25519 sampleKmacMaster ∧
      key.derivePath sampleKmacPrimitives "m/0'" = .ok child ∧
      child.node = HDNode.ed25519 sampleKmacChild) ∧
    sampleKmacMaster.deriveHardened sampleKmacPrimitives 0 = .ok sampleKmacChild ∧
    NodeEd25519.CKDPriv sampleKmacPrimitives sampleKmacMaster 2147483648 MACType.KMAC
      ≠ .ok sampleKmacChild ∧
    sampleKmacMaster.deriveHardened sampleKmacPrimitives 0
      = NodeEd25519.CKDPriv sampleKmacPrimitives sampleKmacMaster
        (0 + NodeEd25519.HIGHEST_BIT) MACType.HMAC :=
  ⟨⟨_, _, rfl, rfl, rfl, rfl, rfl⟩, rfl, by decide,
    (derivePath_ignores_macType sampleKmacPrimitives (E := sampleBip32) sampleKmacMaster
      NetworkObject.BITXOR MACType.KMAC "m/0'" _ 0 rfl (by decide) (by decide)).1⟩

end ExtendedKey

namespace Wallet

/-- C29: for a wallet that is not read-only over a `NodeEd25519` master key (parent
fingerprint 0), `getChildAccountPrivateKey()` without argument is
`getChildAccountPrivateKey("m/44'/4343'/0'/0'/0'")`; the indices of that path are 44,
4343, 0, 0, 0; the five `deriveHardened` steps succeed one after the other, and the
call succeeds with the hexadecimal private key of the last node;
`getChildAccountPublicKey()` is `getPublicKey(ENC_HEX)` of the extended key of that same
node, which for a private key of 32 bytes is the hexadecimal Ed25519 public key. -/
theorem default_wallet_path {E : Bip32} (P : Primitives) (k : ExtendedKey E)
    (node : NodeEd25519) (w : Wallet E)
    (hk : k.node = HDNode.ed25519 node) (hm : node.PARENT_FINGERPRINT = 0)
    (hw : Wallet.new P k = .ok w) (hro : w.isReadOnly = false) :
    DEFAULT_WALLET_PATH = "m/44'/4343'/0'/0'/0'" ∧
    NodeEd25519.pathIndices DEFAULT_WALLET_PATH = [44, 4343, 0, 0, 0] ∧
    w.getChildAccountPrivateKey P none
      = w.getChildAccountPrivateKey P (some "m/44'/4343'/0'/0'/0'") ∧
    w.getChildAccountPublicKey P none
      = w.getChildAccountPublicKey P (some "m/44'/4343'/0'/0'/0'") ∧
    ∃ n1 n2 n3 n4 n5 d5,
      node.deriveHardened P 44 = .ok n1 ∧ n1.deriveHardened P 4343 = .ok n2 ∧
      n2.deriveHardened P 0 = .ok n3 ∧ n3.deriveHardened P 0 = .ok n4 ∧
      n4.deriveHardened P 0 = .ok n5 ∧ n5.privateKey = .ok d5 ∧
      w.getChildAccountPrivateKey P none = .ok (Encoded.hex (toHex d5)) ∧
      w.getChildAccountPublicKey P none
        = (⟨HDNode.ed25519 n5, k.network, k.macType⟩ : ExtendedKey E).getPublicKey P
          KeyEncoding.ENC_HEX ∧
      (d5.length = 32 →
        n5.publicKey P = .ok (P.ed25519PublicKey d5) ∧
        w.getChildAccountPublicKey P none = .ok (Encoded.hex (toHex
          (if (P.ed25519PublicKey d5).length = 33 then (P.ed25519PublicKey d5).drop 1
            else P.ed25519PublicKey d5)))) := by
  obtain ⟨hwk, hwr, -⟩ := new_ok P k w hw
  have hro' : w.readOnly = false := hro
  have hnn : k.isNeutered = false := by rw [← hwr]; exact hro'
  obtain ⟨d, hd⟩ : ∃ d, node.D = some d := by
    cases hD : node.D with
    | none => simp [ExtendedKey.isNeutered, hk, NodeEd25519.isNeutered, hD] at hnn
    | some d => exact ⟨d, rfl⟩
  have hkeq : k = ⟨HDNode.ed25519 node, k.network, k.macType⟩ := by
    cases k
    simp only at hk
    rw [hk]
  refine ⟨rfl, default_path_indices, rfl, rfl, ?_⟩
  have s1 := NodeEd25519.deriveHardened_value P node d 44 hd (by omega) (by omega)
  have s2 := NodeEd25519.deriveHardened_value P _ _ 4343
    (show (NodeEd25519.new4 (some (slice (P.hmacSha512 node.chainCode
      ([0] ++ d ++ be32 (44 + NodeEd25519.HIGHEST_BIT).toNat)) 0 32)) none
      ((P.hmacSha512 node.chainCode
        ([0] ++ d ++ be32 (44 + NodeEd25519.HIGHEST_BIT).toNat)).drop 32) node.network).D
      = some _ from rfl) (by omega) (by omega)
  generalize NodeEd25519.new4 (some (slice (P.hmacSha512 node.chainCode
      ([0] ++ d ++ be32 (44 + NodeEd25519.HIGHEST_BIT).toNat)) 0 32)) none
      ((P.hmacSha512 node.chainCode
        ([0] ++ d ++ be32 (44 + NodeEd25519.HIGHEST_BIT).toNat)).drop 32) node.network
    = n1 at s1 s2
  obtain ⟨n2, d2, hs2, hd2⟩ : ∃ n2 d2, n1.deriveHardened P 4343 = .ok n2 ∧ n2.D = some d2 :=
    ⟨_, _, s2, rfl⟩
  obtain ⟨n3, d3, hs3, hd3⟩ :=
    NodeEd25519.deriveHardened_private P n2 d2 0 hd2 (by omega) (by omega)
  obtain ⟨n4, d4, hs4, hd4⟩ :=
    NodeEd25519.deriveHardened_private P n3 d3 0 hd3 (by omega) (by omega)
  obtain ⟨n5, d5, hs5, hd5⟩ :=
    NodeEd25519.deriveHardened_private P n4 d4 0 hd4 (by omega) (by omega)
  have hfold : node.derivePath P DEFAULT_WALLET_PATH = .ok n5 := by
    rw [NodeEd25519.derivePath_eq_fold P node _ default_path_valid,
      if_neg (fun h => h.2 hm), default_path_indices]
    simp only [NodeEd25519.hardenedFold, s1, hs2, hs3, hs4, hs5]
  have hder : w.extendedKey.derivePath P DEFAULT_WALLET_PATH
      = .ok ⟨HDNode.ed25519 n5, k.network, k.macType⟩ := by
    rw [hwk, hkeq, ExtendedKey.derivePath_ed25519, hfold]
    rfl
  have hpriv : n5.privateKey = .ok d5 := by
    unfold NodeEd25519.privateKey
    rw [hd5]
  have hchildpub : w.getChildAccountPublicKey P none
      = (⟨HDNode.ed25519 n5, k.network, k.macType⟩ : ExtendedKey E).getPublicKey P
        KeyEncoding.ENC_HEX := by
    unfold getChildAccountPublicKey
    simp only [Option.getD_none, hder, bind, Except.bind]
  refine ⟨n1, n2, n3, n4, n5, d5, s1, hs2, hs3, hs4, hs5, hpriv, ?_, hchildpub, ?_⟩
  · unfold getChildAccountPrivateKey
    simp only [Option.getD_none, hro', hder, bind, Except.bind]
    unfold ExtendedKey.getPrivateKey
    have hn5 : (⟨HDNode.ed25519 n5, k.network, k.macType⟩ : ExtendedKey E).isNeutered
        = false := by
      simp [ExtendedKey.isNeutered, NodeEd25519.isNeutered, hd5]
    rw [hn5]
    simp only [hpriv]
    rfl
  · intro hlen
    have hq5 : n5.Q = none :=
      (NodeEd25519.deriveHardened_shape P n4 0 n5 hs5).2.1
    have hpub : n5.publicKey P = .ok (P.ed25519PublicKey d5) := by
      unfold NodeEd25519.publicKey
      rw [hq5]
      simp only [hpriv, bind, Except.bind]
      unfold NodeEd25519.keyPairFromSeed
      rw [if_neg (by omega)]
    refine ⟨hpub, ?_⟩
    rw [hchildpub]
    unfold ExtendedKey.getPublicKey ExtendedKey.nodePublicKey
    simp only [hpub, bind, Except.bind]
    rfl

theorem default_wallet_path_witness :
    Wallet.new samplePrimitives sampleSeedKey = .ok sampleWallet ∧
    ∃ n1 n2 n3 n4 n5 d5,
      sampleSeedMaster.deriveHardened samplePrimitives 44 = .ok n1 ∧
      n1.deriveHardened samplePrimitives 4343 = .ok n2 ∧
      n2.deriveHardened samplePrimitives 0 = .ok n3 ∧
      n3.deriveHardened samplePrimitives 0 = .ok n4 ∧
      n4.deriveHardened samplePrimitives 0 = .ok n5 ∧ n5.privateKey = .ok d5 ∧
      sampleWallet.getChildAccountPrivateKey samplePrimitives none
        = .ok (Encoded.hex (toHex d5)) ∧
      sampleWallet.getChildAccountPublicKey samplePrimitives none
        = (⟨HDNode.ed25519 n5, sampleSeedKey.network, sampleSeedKey.macType⟩ :
            ExtendedKey sampleBip32).getPublicKey samplePrimitives KeyEncoding.ENC_HEX ∧
      (d5.length = 32 →
        n5.publicKey samplePrimitives = .ok (samplePrimitives.ed25519PublicKey d5) ∧
        sampleWallet.getChildAccountPublicKey samplePrimitives none = .ok (Encoded.hex (toHex
          (if (samplePrimitives.ed25519PublicKey d5).length = 33
            then (samplePrimitives.ed25519PublicKey d5).drop 1
            else samplePrimitives.ed25519PublicKey d5)))) :=
  ⟨rfl, (default_wallet_path samplePrimitives sampleSeedKey sampleSeedMaster sampleWallet
    rfl rfl rfl rfl).2.2.2.2⟩

end Wallet

/-! ## Networks, derivation entry points, export of public keys, invariants -/

/-- C31: `a.equals(b)` is true exactly when the public prefixes, the private prefixes
and the curves of `a` and `b` are equal, that is when `a` and `b` are the same value;
`equals` is reflexive, symmetric and transitive; `Network.BITCOIN` and `Network.BITXOR`
have the same two prefixes and `Network.BITCOIN.equals(Network.BITXOR)` is false. -/
theorem Network_equals_iff (a b c : Network) :
    (a.equals b = true ↔ a.publicKeyPrefix = b.publicKeyPrefix ∧
      a.privateKeyPrefix = b.privateKeyPrefix ∧ a.curve = b.curve) ∧
    (a.equals b = true ↔ a = b) ∧
    a.equals a = true ∧
    a.equals b = b.equals a ∧
    (a.equals b = true → b.equals c = true → a.equals c = true) ∧
    Network.BITCOIN.publicKeyPrefix = Network.BITXOR.publicKeyPrefix ∧
    Network.BITCOIN.privateKeyPrefix = Network.BITXOR.privateKeyPrefix ∧
    Network.BITCOIN.equals Network.BITXOR = false ∧
    Network.BITXOR.equals Network.BITCOIN = false := by
  have hiff : ∀ x y : Network, x.equals y = true ↔ x.publicKeyPrefix = y.publicKeyPrefix ∧
      x.privateKeyPrefix = y.privateKeyPrefix ∧ x.curve = y.curve := by
    intro x y
    unfold Network.equals
    simp only [Bool.and_eq_true, decide_eq_true_eq]
    constructor
    · rintro ⟨⟨h1, h2⟩, h3⟩
      exact ⟨h2, h1, h3⟩
    · rintro ⟨h2, h1, h3⟩
      exact ⟨⟨h1, h2⟩, h3⟩
  have heq : ∀ x y : Network, x.equals y = true ↔ x = y := by
    intro x y
    rw [hiff]
    constructor
    · rintro ⟨h1, h2, h3⟩
      cases x
      cases y
      simp only at h1 h2 h3
      rw [h1, h2, h3]
    · rintro rfl
      exact ⟨rfl, rfl, rfl⟩
  refine ⟨hiff a b, heq a b, (heq a a).2 rfl, ?_, ?_, rfl, rfl, by decide, by decide⟩
  · cases h : a.equals b with
    | true =>
      have := (heq a b).1 h
      rw [this]
      exact ((heq b b).2 rfl).symm
    | false =>
      cases h' : b.equals a with
      | false => rfl
      | true =>
        have := (heq b a).1 h'
        rw [this, (heq a a).2 rfl] at h
        cases h
  · intro h1 h2
    rw [(heq a b).1 h1]
    exact h2

theorem Network_equals_iff_witness :
    Network.BITXOR.equals sampleEd25519Network.val = true ∧
    (Network.BITXOR.equals sampleEd25519Network.val = true →
      sampleEd25519Network.val.equals Network.BITXOR = true →
      Network.BITXOR.equals Network.BITXOR = true) :=
  ⟨by decide,
    (Network_equals_iff Network.BITXOR sampleEd25519Network.val Network.BITXOR).2.2.2.2.1⟩

namespace NodeEd25519

/-- C32: `toWIF()` fails for every node, neutered or not, whatever its fields, with
'Bitxor BIP32 keys cannot be converted to WIF. Please use the toHex() method.'; it
returns for no node. -/
theorem toWIF_fails (n : NodeEd25519) :
    n.toWIF = .error Err.wif ∧ ∀ text, n.toWIF ≠ .ok text := by
  refine ⟨rfl, fun text h => ?_⟩
  cases h

/-- C33 (refuted as stated): the data `CKDPriv` hands to the MAC for a parent with a
private key of 32 bytes has 37 bytes, one for `0x00`, 32 for the key and four for the
index, not 41. -/
theorem CKDPriv_data_length_counterexample :
    sampleMaster.privateKey = .ok (List.replicate 32 7) ∧
    (List.replicate 32 7 : Buffer).length = 32 ∧
    CKDPriv samplePrimitives sampleMaster 2147483648 MACType.HMAC
      = .ok (new4
        (some (slice (MACImpl.create samplePrimitives MACType.HMAC sampleMaster.chainCode
          (alloc 1 0 ++ List.replicate 32 7 ++ be32 2147483648) none) 0 32))
        none
        ((MACImpl.create samplePrimitives MACType.HMAC sampleMaster.chainCode
          (alloc 1 0 ++ List.replicate 32 7 ++ be32 2147483648) none).drop 32)
        sampleMaster.network) ∧
    (alloc 1 0 ++ List.replicate 32 7 ++ be32 2147483648 : Buffer).length = 37 ∧
    (alloc 1 0 ++ List.replicate 32 7 ++ be32 2147483648 : Buffer).length ≠ 41 := by
  refine ⟨rfl, rfl, ?_, rfl, by decide⟩
  decide

/-- C33 (amended): for a parent with a private key `d` of 32 bytes and an index `i` of
32 bits, `CKDPriv(p, i, macType)` computes `I = MACImpl.create(macType, p.chainCode,
data)` with `data = 0x00 || d || BE32(i)`, 37 bytes whose last four read back as `i`
big-endian, and returns the node with the private key `I[0:32]`, the chain code
`I[32:]`, no stored public key and the network of the parent; that child is not
neutered. -/
theorem CKDPriv_key_material (P : Primitives) (p : NodeEd25519) (d : Buffer) (i : Nat)
    (macType : MACType) (hD : p.D = some d) (hlen : d.length = 32) (hi : i < 2 ^ 32) :
    ∃ data I child, data = alloc 1 0 ++ d ++ be32 i ∧ data.length = 37 ∧
      readUInt8 data 0 = 0 ∧ slice data 1 33 = d ∧ readUInt32BE data 33 = i ∧
      I = MACImpl.create P macType p.chainCode data none ∧
      CKDPriv P p i macType = .ok child ∧
      child.isNeutered = false ∧ child.privateKey = .ok (slice I 0 32) ∧
      child.chainCode = I.drop 32 ∧ child.Q = none ∧ child.network = p.network := by
  have hok := CKDPriv_ok P p d (i : Int) macType hD (by omega) (by omega)
  rw [Int.toNat_ofNat] at hok
  have ha : (alloc 1 0 : Buffer) = [0] := rfl
  rw [ha]
  refine ⟨[0] ++ d ++ be32 i, _, _, rfl, ?_, rfl, ?_, ?_, rfl, hok, rfl, rfl, rfl, rfl, rfl⟩
  · simp [hlen, length_be32]
  · unfold slice
    rw [List.append_assoc, List.singleton_append, List.take_succ_cons, List.drop_succ_cons,
      List.drop_zero, List.take_append_of_le_length (by omega)]
    exact List.take_of_length_le (by omega)
  · have h33 : ([0] ++ d : Buffer).length = 33 := by simp [hlen]
    have hget : ∀ k, k < 4 → readUInt8 ([0] ++ d ++ be32 i) (33 + k) = readUInt8 (be32 i) k := by
      intro k _
      unfold readUInt8
      rw [List.getD_append_right _ _ _ _ (by omega), h33, Nat.add_sub_cancel_left]
    unfold readUInt32BE
    rw [show 33 = 33 + 0 from rfl, hget 0 (by omega), show 33 + 0 + 1 = 33 + 1 from rfl,
      hget 1 (by omega), show 33 + 0 + 2 = 33 + 2 from rfl, hget 2 (by omega),
      show 33 + 0 + 3 = 33 + 3 from rfl, hget 3 (by omega)]
    exact be32_value i hi

theorem CKDPriv_key_material_witness :
    ∃ data I child, data = alloc 1 0 ++ List.replicate 32 7 ++ be32 2147483648 ∧
      data.length = 37 ∧
      readUInt8 data 0 = 0 ∧ slice data 1 33 = List.replicate 32 7 ∧
      readUInt32BE data 33 = 2147483648 ∧
      I = MACImpl.create sampleKmacPrimitives MACType.KMAC sampleMaster.chainCode data none ∧
      CKDPriv sampleKmacPrimitives sampleMaster ((2147483648 : Nat) : Int) MACType.KMAC
        = .ok child ∧
      child.isNeutered = false ∧ child.privateKey = .ok (slice I 0 32) ∧
      child.chainCode = I.drop 32 ∧ child.Q = none ∧ child.network = sampleMaster.network :=
  CKDPriv_key_material sampleKmacPrimitives sampleMaster (List.replicate 32 7) 2147483648
    MACType.KMAC rfl rfl (by decide)

/-- C34: on a node with a private key, for `0 ≤ i ≤ 2^31 - 1` the index `i + 2^31` is
an unsigned 32-bit integer and `deriveHardened(i)`, `derive(i + 2^31)` and
`CKDPriv(n, i + 2^31)` (with its default MAC type) are the same child, which they do
return; for `2^31 ≤ j < 2^32`, `derive(j)` is `deriveHardened(j - 2^31)`. -/
theorem deriveHardened_eq_derive (P : Primitives) (n : NodeEd25519)
    (hn : n.isNeutered = false) :
    HIGHEST_BIT = 2 ^ 31 ∧
    (∀ i : Int, 0 ≤ i → i ≤ 2 ^ 31 - 1 →
      0 ≤ i + 2 ^ 31 ∧ i + 2 ^ 31 < 2 ^ 32 ∧
      n.deriveHardened P i = n.derive P (i + 2 ^ 31) ∧
      n.derive P (i + 2 ^ 31) = CKDPriv P n (i + 2 ^ 31) MACType.HMAC ∧
      ∃ child, CKDPriv P n (i + 2 ^ 31) MACType.HMAC = .ok child) ∧
    (∀ j : Int, 2 ^ 31 ≤ j → j < 2 ^ 32 →
      n.derive P j = n.deriveHardened P (j - 2 ^ 31)) := by
  have hH : HIGHEST_BIT = 2 ^ 31 := by unfold HIGHEST_BIT; norm_num
  obtain ⟨d, hd⟩ : ∃ d, n.D = some d := by
    cases hD : n.D with
    | none => simp [isNeutered, hD] at hn
    | some d => exact ⟨d, rfl⟩
  have hdh : ∀ i : Int, i ≤ 2 ^ 31 - 1 → n.deriveHardened P i = n.derive P (i + 2 ^ 31) := by
    intro i h1
    unfold deriveHardened
    dsimp only
    rw [if_neg (by omega), hH]
  refine ⟨hH, ?_, ?_⟩
  · intro i h0 h1
    refine ⟨by omega, by omega, hdh i h1, derive_private P n d _ hd, ?_⟩
    exact ⟨_, CKDPriv_ok P n d _ _ hd (by omega) (by omega)⟩
  · intro j h0 h1
    rw [hdh (j - 2 ^ 31) (by omega), Int.sub_add_cancel]

theorem deriveHardened_eq_derive_witness :
    HIGHEST_BIT = 2 ^ 31 ∧
    (∀ i : Int, 0 ≤ i → i ≤ 2 ^ 31 - 1 →
      0 ≤ i + 2 ^ 31 ∧ i + 2 ^ 31 < 2 ^ 32 ∧
      sampleMaster.deriveHardened samplePrimitives i
        = sampleMaster.derive samplePrimitives (i + 2 ^ 31) ∧
      sampleMaster.derive samplePrimitives (i + 2 ^ 31)
        = CKDPriv samplePrimitives sampleMaster (i + 2 ^ 31) MACType.HMAC ∧
      ∃ child, CKDPriv samplePrimitives sampleMaster (i + 2 ^ 31) MACType.HMAC = .ok child) ∧
    (∀ j : Int, 2 ^ 31 ≤ j → j < 2 ^ 32 →
      sampleMaster.derive samplePrimitives j
        = sampleMaster.deriveHardened samplePrimitives (j - 2 ^ 31)) :=
  deriveHardened_eq_derive samplePrimitives sampleMaster rfl

/-- C35 (refuted as stated): on a neutered node `derive(0)` fails with 'Non-Hardened key
derivation is not permitted with ED25519 curve.', not with a missing-private-key
error. -/
theorem derive_neutered_counterexample :
    sampleSeedPublic.isNeutered = true ∧
    sampleSeedPublic.derive samplePrimitives 0 = .error Err.nonHardened ∧
    sampleSeedPublic.derive samplePrimitives 0 ≠ .error Err.missingPrivateKeyHardened ∧
    sampleSeedPublic.derive samplePrimitives 0 ≠ .error Err.missingPrivateKey := by
  decide

/-- C35 (amended): on a neutered node, for every index below `2^31`, `derive(index)`
fails with 'Non-Hardened key derivation is not permitted with ED25519 curve.': not with
a missing-private-key error, and it returns no node. -/
theorem derive_neutered_error (P : Primitives) (n : NodeEd25519) (index : Int)
    (hn : n.isNeutered = true) (hi : index < 2 ^ 31) :
    n.derive P index = .error Err.nonHardened ∧
    n.derive P index ≠ .error Err.missingPrivateKeyHardened ∧
    n.derive P index ≠ .error Err.missingPrivateKey ∧
    ∀ child, n.derive P index ≠ .ok child := by
  have hH : HIGHEST_BIT = 2 ^ 31 := by unfold HIGHEST_BIT; norm_num
  have h : n.derive P index = .error Err.nonHardened := by
    unfold derive
    simp only [hn, hH]
    rw [decide_eq_false (by omega)]
    rfl
  rw [h]
  refine ⟨rfl, ?_, ?_, ?_⟩ <;>
  · intros
    intro hc
    cases hc

theorem derive_neutered_error_witness :
    sampleSeedPublic.derive samplePrimitives 5 = .error Err.nonHardened ∧
    sampleSeedPublic.derive samplePrimitives 5 ≠ .error Err.missingPrivateKeyHardened ∧
    sampleSeedPublic.derive samplePrimitives 5 ≠ .error Err.missingPrivateKey ∧
    ∀ child, sampleSeedPublic.derive samplePrimitives 5 ≠ .ok child :=
  derive_neutered_error samplePrimitives sampleSeedPublic 5 rfl (by decide)

end NodeEd25519

/-- The hexadecimal string of a buffer determines the buffer. -/
theorem toHex_injective (a b : Buffer) (h : toHex a = toHex b) : a = b := by
  have h' : toHexChars a = toHexChars b := by
    unfold toHex at h
    injection h
  rw [← fromHex_toHexChars a, ← fromHex_toHexChars b, h']

namespace NodeEd25519

/-- The payload `toBase58` encodes for a neutered node whose public key has 32 bytes:
the key fills the bytes 45 to 76 and byte 77 is what the memory held. -/
theorem toBase58Buffer_public32 (P : Primitives) (mem : Nat → Byte) (n : NodeEd25519)
    (q : Buffer) (hD : n.D = none) (hQ : n.Q = some q) (hq : q.length = 32)
    (hv : n.network.publicKeyPrefix < 2 ^ 32)
    (hd : n.DEPTH ≤ 255) (hp : n.PARENT_FINGERPRINT < 2 ^ 32) (hi : n.INDEX < 2 ^ 32)
    (hcc : n.chainCode.length = 32) :
    toBase58Buffer P mem n = .ok (header n.network.publicKeyPrefix n.DEPTH
      n.PARENT_FINGERPRINT n.INDEX ++ n.chainCode ++ (q ++ [mem 77])) := by
  rw [toBase58Buffer_public P mem n q hD hQ hv hd hp hi hcc]
  have hdrop : (allocUnsafe mem 78).drop (45 + q.length) = [mem 77] := by
    rw [hq]
    rfl
  rw [hdrop, List.take_of_length_le (by omega), List.append_assoc _ _ [mem 77]]

/-- The node `neutered()` returns for a node with a private key of 32 bytes and no
stored public key. -/
theorem neutered_private (P : Primitives) (n0 : NodeEd25519) (d : Buffer)
    (hD : n0.D = some d) (hQ : n0.Q = none) (hdl : d.length = 32) :
    n0.publicKey P = .ok (P.ed25519PublicKey d) ∧
    n0.neutered P = .ok (new none (some (P.ed25519PublicKey d)) n0.chainCode
      n0.network n0.DEPTH n0.INDEX n0.PARENT_FINGERPRINT) := by
  constructor <;>
  simp [neutered, publicKey, hQ, privateKey, hD, keyPairFromSeed, hdl, bind, Except.bind,
    pure, Except.pure]

/-- What `fromBase58` reads back from the export of a neutered node, on
`Network.BITXOR`, whose public key has 32 bytes: a public key of 33 bytes, the key
followed by byte 77 of the memory. -/
theorem fromBase58_public32 (P : Primitives) (mem : Nat → Byte) (n : NodeEd25519)
    (q : Buffer) (hcodec : ∀ b, P.bs58decode (P.bs58encode b) = some b)
    (hnet : n.network = Network.BITXOR) (hD : n.D = none) (hQ : n.Q = some q)
    (hq : q.length = 32) (hcc : n.chainCode.length = 32) (hd : n.DEPTH ≤ 255)
    (hi : n.INDEX < 2 ^ 32) (hp : n.PARENT_FINGERPRINT < 2 ^ 32)
    (hmaster : n.DEPTH = 0 → n.PARENT_FINGERPRINT = 0 ∧ n.INDEX = 0) :
    ∃ s, n.toBase58 P mem = .ok s ∧
      fromBase58 P s Network.BITXOR = .ok (new none (some (q ++ [mem 77])) n.chainCode
        Network.BITXOR n.DEPTH n.INDEX n.PARENT_FINGERPRINT) := by
  have hbuf := toBase58Buffer_public32 P mem n q hD hQ hq
    (by rw [hnet]; decide) hd hp hi hcc
  refine ⟨_, by simp only [toBase58, hbuf]; rfl, ?_⟩
  unfold fromBase58
  rw [hcodec]
  simp only
  rw [fromPayload_layout _ _ _ _ _ _ _
    (by rw [hnet]; decide) hd hp hi hcc (by simp [hq])]
  have hv : n.network.publicKeyPrefix = 0x0488b21e := by rw [hnet]; rfl
  rw [hv]
  rw [if_neg (by simp [BITXOR_publicKeyPrefix])]
  rw [if_neg (fun h => by have := hmaster h.1; omega)]
  rw [if_neg (fun h => by have := hmaster h.1; omega)]
  rw [if_neg (by simp [BITXOR_privateKeyPrefix])]

end NodeEd25519

namespace ExtendedKey

/-- C36 (as the code behaves): let `k` be an extended key on `Network.BITXOR` over a
node with a private key of 32 bytes and no stored public key (what `fromSeed` and
`CKDPriv` return), whose Ed25519 public key `pk` has 32 bytes. `k.getPublicKey()` is
`pk`. The export `k.getPublicNode().toBase58()` leaves byte 77 of the unsafely
allocated buffer as it was, `createFromBase58` reads the 33 bytes `pk ++ [mem 77]` back
as the public key and `getPublicKey()` of that key drops the first of them: it is `pk`
without its first byte followed by `mem 77`, which is not `pk` unless `pk` ends with
`mem 77`. -/
theorem getPublicKey_after_export (P : Primitives) (E : Bip32) (mem : Nat → Byte)
    (n0 : NodeEd25519) (d : Buffer) (M M' : MACType) (enc : KeyEncoding)
    (hcodec : ∀ b, P.bs58decode (P.bs58encode b) = some b)
    (hnet : n0.network = Network.BITXOR) (hD : n0.D = some d) (hQ : n0.Q = none)
    (hdl : d.length = 32) (hpk : (P.ed25519PublicKey d).length = 32)
    (hcc : n0.chainCode.length = 32) (hdepth : n0.DEPTH ≤ 255) (hidx : n0.INDEX < 2 ^ 32)
    (hpf : n0.PARENT_FINGERPRINT < 2 ^ 32)
    (hmaster : n0.DEPTH = 0 → n0.PARENT_FINGERPRINT = 0 ∧ n0.INDEX = 0) :
    ∃ pub s back,
      (⟨HDNode.ed25519 n0, NetworkObject.BITXOR, M⟩ : ExtendedKey E).getPublicNode P
        = .ok pub ∧
      pub.toBase58 P mem = .ok s ∧
      createFromBase58 P E s NetworkObject.BITXOR M' = .ok back ∧
      (⟨HDNode.ed25519 n0, NetworkObject.BITXOR, M⟩ : ExtendedKey E).getPublicKey P enc
        = .ok (encodeAs (P.ed25519PublicKey d) enc) ∧
      back.getPublicKey P enc
        = .ok (encodeAs ((P.ed25519PublicKey d).drop 1 ++ [mem 77]) enc) ∧
      ((P.ed25519PublicKey d).getLast? ≠ some (mem 77) →
        back.getPublicKey P enc
          ≠ (⟨HDNode.ed25519 n0, NetworkObject.BITXOR, M⟩ : ExtendedKey E).getPublicKey P
            enc) := by
  obtain ⟨hpub, hneut⟩ := NodeEd25519.neutered_private P n0 d hD hQ hdl
  obtain ⟨s, hs, hback⟩ := NodeEd25519.fromBase58_public32 P mem
    (NodeEd25519.new none (some (P.ed25519PublicKey d)) n0.chainCode n0.network n0.DEPTH
      n0.INDEX n0.PARENT_FINGERPRINT) (P.ed25519PublicKey d) hcodec hnet rfl rfl hpk hcc
    hdepth hidx hpf hmaster
  have hk : (⟨HDNode.ed25519 n0, NetworkObject.BITXOR, M⟩ : ExtendedKey E).getPublicKey P enc
      = .ok (encodeAs (P.ed25519PublicKey d) enc) := by
    unfold getPublicKey nodePublicKey
    simp only [hpub, bind, Except.bind, pure, Except.pure]
    rw [if_neg (by omega)]
  have hb : (⟨HDNode.ed25519 (NodeEd25519.new none (some (P.ed25519PublicKey d ++ [mem 77]))
      n0.chainCode Network.BITXOR n0.DEPTH n0.INDEX n0.PARENT_FINGERPRINT),
      NetworkObject.BITXOR, M'⟩ : ExtendedKey E).getPublicKey P enc
      = .ok (encodeAs ((P.ed25519PublicKey d).drop 1 ++ [mem 77]) enc) := by
    unfold getPublicKey nodePublicKey
    simp only [NodeEd25519.publicKey, NodeEd25519.new, bind, Except.bind, pure, Except.pure]
    rw [if_pos (by simp [hpk]), List.drop_append_of_le_length (by omega)]
  refine ⟨⟨HDNode.ed25519 (NodeEd25519.new none (some (P.ed25519PublicKey d)) n0.chainCode
      n0.network n0.DEPTH n0.INDEX n0.PARENT_FINGERPRINT), NetworkObject.BITXOR, M⟩, s,
    ⟨HDNode.ed25519 (NodeEd25519.new none (some (P.ed25519PublicKey d ++ [mem 77]))
      n0.chainCode Network.BITXOR n0.DEPTH n0.INDEX n0.PARENT_FINGERPRINT),
      NetworkObject.BITXOR, M'⟩, ?_, hs, ?_, hk, hb, ?_⟩
  · unfold getPublicNode
    simp only [hneut, bind, Except.bind, pure, Except.pure]
  · unfold createFromBase58
    rw [if_pos (Or.inl rfl)]
    have hv : NetworkObject.BITXOR.val = Network.BITXOR := rfl
    rw [hv, hback]
    rfl
  · intro hlast
    rw [hb, hk]
    intro h
    injection h with h
    have hkey : (P.ed25519PublicKey d).drop 1 ++ [mem 77] = P.ed25519PublicKey d := by
      unfold encodeAs at h
      split_ifs at h
      · injection h with h
        exact toHex_injective _ _ h
      · injection h
    apply hlast
    rw [← hkey, List.getLast?_append, List.getLast?_singleton]
    rfl

theorem getPublicKey_after_export_witness :
    ∃ pub s back,
      sampleSeedKey.getPublicNode samplePrimitives = .ok pub ∧
      pub.toBase58 samplePrimitives (fun _ => 255) = .ok s ∧
      createFromBase58 samplePrimitives sampleBip32 s NetworkObject.BITXOR MACType.HMAC
        = .ok back ∧
      sampleSeedKey.getPublicKey samplePrimitives KeyEncoding.ENC_HEX
        = .ok (encodeAs sampleSeedQ KeyEncoding.ENC_HEX) ∧
      back.getPublicKey samplePrimitives KeyEncoding.ENC_HEX
        = .ok (encodeAs (sampleSeedQ.drop 1 ++ [255]) KeyEncoding.ENC_HEX) ∧
      back.getPublicKey samplePrimitives KeyEncoding.ENC_HEX
        ≠ sampleSeedKey.getPublicKey samplePrimitives KeyEncoding.ENC_HEX := by
  obtain ⟨pub, s, back, h1, h2, h3, h4, h5, h6⟩ :=
    getPublicKey_after_export samplePrimitives sampleBip32 (fun _ => 255) sampleSeedMaster _
      MACType.HMAC MACType.HMAC KeyEncoding.ENC_HEX samplePrimitives_codec rfl rfl rfl
      (by decide) (by decide) (by decide) (by decide) (by decide) (by decide) (by decide)
  exact ⟨pub, s, back, h1, h2, h3, h4, h5, h6 (by decide)⟩

end ExtendedKey

namespace NodeEd25519

/-- C37 (as the code behaves): `toBase58` of a node with a private key of 32 bytes and a
chain code of 32 bytes, and of a node `fromBase58` accepted, does not depend on what
the memory under `Buffer.allocUnsafe(78)` held. The neutered node that `neutered()`
returns for an Ed25519 node has the native public key of 32 bytes: its `toBase58`
writes the bytes 0 to 76 only, byte 77 of the encoded payload is the byte the memory
held, and two memories that differ there give two different strings. -/
theorem toBase58_uninitialised_byte (P : Primitives) (mem mem' : Nat → Byte)
    (n0 : NodeEd25519) (d : Buffer)
    (hcodec : ∀ b, P.bs58decode (P.bs58encode b) = some b)
    (hD : n0.D = some d) (hQ : n0.Q = none)
    (hdl : d.length = 32) (hpk : (P.ed25519PublicKey d).length = 32)
    (hcc : n0.chainCode.length = 32) (hdepth : n0.DEPTH ≤ 255) (hidx : n0.INDEX < 2 ^ 32)
    (hpf : n0.PARENT_FINGERPRINT < 2 ^ 32)
    (hprv : n0.network.privateKeyPrefix < 2 ^ 32)
    (hpub : n0.network.publicKeyPrefix < 2 ^ 32) :
    (∃ s, n0.toBase58 P mem = .ok s ∧ n0.toBase58 P mem' = .ok s) ∧
    (∀ text node, fromBase58 P text Network.BITXOR = .ok node →
      ∃ s, node.toBase58 P mem = .ok s ∧ node.toBase58 P mem' = .ok s) ∧
    ∃ n s s' buf, n0.neutered P = .ok n ∧ n.publicKey P = .ok (P.ed25519PublicKey d) ∧
      n.toBase58 P mem = .ok s ∧ n.toBase58 P mem' = .ok s' ∧
      P.bs58decode s = some buf ∧ buf.length = 78 ∧ buf.getD 77 0 = mem 77 ∧
      (mem 77 ≠ mem' 77 → s ≠ s') := by
  refine ⟨?_, ?_, ?_⟩
  · have hb : ∀ m : Nat → Byte, toBase58Buffer P m n0 = .ok (header n0.network.privateKeyPrefix
        n0.DEPTH n0.PARENT_FINGERPRINT n0.INDEX ++ n0.chainCode ++ [0] ++ d) := by
      intro m
      rw [toBase58Buffer_private P m n0 d hD hprv hdepth hpf hidx hcc,
        List.drop_of_length_le (by rw [length_allocUnsafe]; omega),
        List.take_of_length_le (by omega), List.append_nil]
    exact ⟨_, by simp only [toBase58, hb]; rfl, by simp only [toBase58, hb]; rfl⟩
  · intro text node h
    obtain ⟨b, hb⟩ := fromBase58_shape P text Network.BITXOR node h
    refine ⟨P.bs58encode b, ?_, ?_⟩ <;>
    · unfold toBase58
      rw [toBase58Buffer_fromPayload P _ b node hb]
      rfl
  · obtain ⟨hq, hneut⟩ := neutered_private P n0 d hD hQ hdl
    have hb : ∀ m : Nat → Byte, toBase58Buffer P m (new none (some (P.ed25519PublicKey d))
        n0.chainCode n0.network n0.DEPTH n0.INDEX n0.PARENT_FINGERPRINT)
        = .ok (header n0.network.publicKeyPrefix n0.DEPTH n0.PARENT_FINGERPRINT n0.INDEX
          ++ n0.chainCode ++ (P.ed25519PublicKey d ++ [m 77])) :=
      fun m => toBase58Buffer_public32 P m _ _ rfl rfl hpk hpub hdepth hpf hidx hcc
    have hs : ∀ m : Nat → Byte, toBase58 P m (new none (some (P.ed25519PublicKey d))
        n0.chainCode n0.network n0.DEPTH n0.INDEX n0.PARENT_FINGERPRINT)
        = .ok (P.bs58encode (header n0.network.publicKeyPrefix n0.DEPTH n0.PARENT_FINGERPRINT
          n0.INDEX ++ n0.chainCode ++ (P.ed25519PublicKey d ++ [m 77]))) := by
      intro m
      simp only [toBase58, hb]
      rfl
    have hlen : (header n0.network.publicKeyPrefix n0.DEPTH n0.PARENT_FINGERPRINT n0.INDEX
        ++ n0.chainCode : Buffer).length = 45 := by
      rw [List.length_append, length_header, hcc]
    refine ⟨_, _, _, _, hneut, rfl, hs mem, hs mem', hcodec _, ?_, ?_, ?_⟩
    · simp [length_header, hcc, hpk]
    · rw [List.getD_append_right _ _ _ _ (by omega), hlen,
        List.getD_append_right _ _ _ _ (by omega), hpk]
      rfl
    · intro hne h
      have h2 := congrArg P.bs58decode h
      rw [hcodec, hcodec] at h2
      injection h2 with h2
      have h3 := List.append_cancel_left (List.append_cancel_left h2)
      injection h3 with h3
      exact hne h3

theorem toBase58_uninitialised_byte_witness :
    ∃ n s s' buf, sampleSeedMaster.neutered samplePrimitives = .ok n ∧
      n.publicKey samplePrimitives = .ok sampleSeedQ ∧
      n.toBase58 samplePrimitives (fun _ => 0) = .ok s ∧
      n.toBase58 samplePrimitives (fun _ => 255) = .ok s' ∧
      samplePrimitives.bs58decode s = some buf ∧ buf.length = 78 ∧ buf.getD 77 0 = 0 ∧
      s ≠ s' := by
  obtain ⟨n, s, s', buf, h1, h2, h3, h4, h5, h6, h7, h8⟩ :=
    (toBase58_uninitialised_byte samplePrimitives (fun _ => 0) (fun _ => 255)
      sampleSeedMaster _ samplePrimitives_codec rfl rfl (by decide) (by decide) (by decide)
      (by decide) (by decide) (by decide) (by decide) (by decide)).2.2
  exact ⟨n, s, s', buf, h1, h2, h3, h4, h5, h6, h7, h8 (by decide)⟩

theorem split_concat (sep : Char) (a b : List Char) :
    split sep (a ++ sep :: b) = split sep a ++ split sep b := by
  induction a with
  | nil => simp [split]
  | cons c cs ih =>
    rw [List.cons_append, split]
    conv_rhs => rw [split]
    by_cases hc : c = sep
    · rw [if_pos hc, if_pos hc, ih]
      rfl
    · rw [if_neg hc, if_neg hc, ih]
      cases hs : split sep cs with
      | nil => exact absurd hs (split_ne_nil _ _)
      | cons s ss => rfl

theorem hardenedFold_append (P : Primitives) (a b : List Int) (n : NodeEd25519) :
    hardenedFold P n (a ++ b) = (hardenedFold P n a >>= fun c => hardenedFold P c b) := by
  induction a generalizing n with
  | nil => rfl
  | cons i is ih =>
    rw [List.cons_append, hardenedFold, hardenedFold]
    cases n.deriveHardened P i with
    | error e => rfl
    | ok c => exact ih c

theorem pathBody_of_head (x : List Char) (h : x.head? ≠ some 'm') :
    pathBody x = x ∧ startsWithMaster x = false := by
  rcases pathBody_cases x with ⟨rest, hx, -, -⟩ | ⟨h1, h2, -⟩
  · rw [hx] at h
    exact absurd rfl h
  · exact ⟨h1, h2⟩

/-- C38: for valid paths `p` and `q` that do not start with `m`, the path
`p + "/" + q` is valid, its indices are those of `p` followed by those of `q`, and
`derivePath(p + "/" + q)` has the outcome of `derivePath(p)` followed by
`derivePath(q)` on its result: the same error when one of them fails, the same node
otherwise. -/
theorem derivePath_compose (P : Primitives) (n : NodeEd25519) (p q : String)
    (hp : isValidPath p = true) (hq : isValidPath q = true)
    (hpm : p.data.head? ≠ some 'm') (hqm : q.data.head? ≠ some 'm') :
    isValidPath (p ++ "/" ++ q) = true ∧
    pathIndices (p ++ "/" ++ q) = pathIndices p ++ pathIndices q ∧
    n.derivePath P (p ++ "/" ++ q) = (n.derivePath P p >>= fun c => c.derivePath P q) ∧
    (∀ e, n.derivePath P p = .error e → n.derivePath P (p ++ "/" ++ q) = .error e) ∧
    (∀ c, n.derivePath P p = .ok c → n.derivePath P (p ++ "/" ++ q) = c.derivePath P q) := by
  have hdata : (p ++ "/" ++ q).data = p.data ++ '/' :: q.data := by
    simp [String.data_append]
  obtain ⟨hbp, hsp⟩ := pathBody_of_head p.data hpm
  obtain ⟨hbq, hsq⟩ := pathBody_of_head q.data hqm
  have hgp : (split '/' p.data).all isSegment = true := by
    have := hp
    rw [isValidPath_eq_pathGrammar, pathGrammar, hbp] at this
    exact this
  have hgq : (split '/' q.data).all isSegment = true := by
    have := hq
    rw [isValidPath_eq_pathGrammar, pathGrammar, hbq] at this
    exact this
  obtain ⟨-, -, -, -, c, t, hct, hc⟩ := reBody_head p.data hgp
  have hhead : (p ++ "/" ++ q).data.head? ≠ some 'm' := by
    rw [hdata, hct]
    rw [hct] at hpm
    exact hpm
  obtain ⟨hbpq, hspq⟩ := pathBody_of_head (p ++ "/" ++ q).data hhead
  have hvalid : isValidPath (p ++ "/" ++ q) = true := by
    rw [isValidPath_eq_pathGrammar, pathGrammar, hbpq, hdata, split_concat, List.all_append,
      hgp, hgq]
    rfl
  have hidx : pathIndices (p ++ "/" ++ q) = pathIndices p ++ pathIndices q := by
    unfold pathIndices
    rw [hbpq, hbp, hbq, hdata, split_concat, List.map_append]
  have hfold : ∀ (m : NodeEd25519) (x : String), isValidPath x = true →
      startsWithMaster x.data = false → m.derivePath P x = hardenedFold P m (pathIndices x) := by
    intro m x hx hs
    rw [derivePath_eq_fold P m x hx, if_neg (fun h => by rw [hs] at h; exact absurd h.1 (by decide))]
  have hmain : n.derivePath P (p ++ "/" ++ q)
      = (n.derivePath P p >>= fun c => c.derivePath P q) := by
    rw [hfold n _ hvalid hspq, hidx, hardenedFold_append, hfold n p hp hsp]
    cases hardenedFold P n (pathIndices p) with
    | error e => rfl
    | ok c =>
      show hardenedFold P c (pathIndices q) = c.derivePath P q
      rw [hfold c q hq hsq]
  refine ⟨hvalid, hidx, hmain, ?_, ?_⟩
  · intro e he
    rw [hmain, he]
    rfl
  · intro c hc
    rw [hmain, hc]
    rfl

theorem derivePath_compose_witness :
    isValidPath ("44'" ++ "/" ++ "4343'/0'") = true ∧
    pathIndices ("44'" ++ "/" ++ "4343'/0'") = pathIndices "44'" ++ pathIndices "4343'/0'" ∧
    sampleMaster.derivePath samplePrimitives ("44'" ++ "/" ++ "4343'/0'")
      = (sampleMaster.derivePath samplePrimitives "44'" >>= fun c =>
          c.derivePath samplePrimitives "4343'/0'") ∧
    (∀ e, sampleMaster.derivePath samplePrimitives "44'" = .error e →
      sampleMaster.derivePath samplePrimitives ("44'" ++ "/" ++ "4343'/0'") = .error e) ∧
    (∀ c, sampleMaster.derivePath samplePrimitives "44'" = .ok c →
      sampleMaster.derivePath samplePrimitives ("44'" ++ "/" ++ "4343'/0'")
        = c.derivePath samplePrimitives "4343'/0'") :=
  derivePath_compose samplePrimitives sampleMaster "44'" "4343'/0'"
    rfl rfl (by decide) (by decide)

/-- On a neutered node `derivePath` fails for every path. -/
theorem derivePath_neutered_fails (P : Primitives) (n : NodeEd25519) (path : String)
    (hn : n.isNeutered = true) :
    ∃ e, n.derivePath P path = .error e ∧
      (e = Err.invalidPath ∨ e = Err.nonMaster ∨ e = Err.hardenedOverflow
        ∨ e = Err.missingPrivateKeyHardened) := by
  cases hv : isValidPath path with
  | false => exact ⟨_, derivePath_invalid P n path hv, Or.inl rfl⟩
  | true =>
    rw [derivePath_eq_fold P n path hv]
    by_cases hm : startsWithMaster path.data = true ∧ n.PARENT_FINGERPRINT ≠ 0
    · rw [if_pos hm]
      exact ⟨_, rfl, Or.inr (Or.inl rfl)⟩
    · rw [if_neg hm]
      have hne := split_ne_nil '/' (pathBody path.data)
      have hnn := pathIndices_nonneg path
      unfold pathIndices at hnn ⊢
      cases hs : split '/' (pathBody path.data) with
      | nil => exact absurd hs hne
      | cons a t =>
        rw [hs] at hnn
        rw [List.map_cons] at hnn ⊢
        rw [hardenedFold]
        by_cases hi : segmentIndex a ≤ 2 ^ 31 - 1
        · rw [deriveHardened_neutered P n _ hn (hnn _ (by simp)) hi]
          exact ⟨_, rfl, Or.inr (Or.inr (Or.inr rfl))⟩
        · have hstep : n.deriveHardened P (segmentIndex a) = .error Err.hardenedOverflow := by
            unfold deriveHardened
            dsimp only
            rw [if_pos (by omega)]
          rw [hstep]
          exact ⟨_, rfl, Or.inr (Or.inr (Or.inl rfl))⟩

end NodeEd25519

namespace Wallet

/-- C39: a wallet over a neutered `NodeEd25519` key is read-only, and
`getChildAccountPublicKey(path)` fails for every path and for the call without one:
with the invalid-path error, the non-master error, the index-overflow error or the
missing-private-key error of the first derivation step; it returns no key. -/
theorem readOnly_no_child_publicKey {E : Bip32} (P : Primitives) (k : ExtendedKey E)
    (node : NodeEd25519) (w : Wallet E)
    (hk : k.node = HDNode.ed25519 node) (hn : node.isNeutered = true)
    (hw : Wallet.new P k = .ok w) :
    w.isReadOnly = true ∧
    ∀ path : Option String,
      (∃ e, w.getChildAccountPublicKey P path = .error e ∧
        (e = Err.invalidPath ∨ e = Err.nonMaster ∨ e = Err.hardenedOverflow
          ∨ e = Err.missingPrivateKeyHardened)) ∧
      ∀ key, w.getChildAccountPublicKey P path ≠ .ok key := by
  obtain ⟨hwk, hwr, -⟩ := new_ok P k w hw
  have hkeq : k = ⟨HDNode.ed25519 node, k.network, k.macType⟩ := by
    cases k
    simp only at hk
    rw [hk]
  have hro : w.isReadOnly = true := by
    show w.readOnly = true
    rw [hwr]
    unfold ExtendedKey.isNeutered
    rw [hk]
    exact hn
  refine ⟨hro, fun path => ?_⟩
  obtain ⟨e, he, hkind⟩ :=
    NodeEd25519.derivePath_neutered_fails P node (path.getD DEFAULT_WALLET_PATH) hn
  have hfail : w.getChildAccountPublicKey P path = .error e := by
    unfold getChildAccountPublicKey
    rw [hwk, hkeq]
    dsimp only
    rw [ExtendedKey.derivePath_ed25519, he]
    rfl
  refine ⟨⟨e, hfail, hkind⟩, fun key h => ?_⟩
  rw [hfail] at h
  cases h

theorem readOnly_no_child_publicKey_witness :
    sampleReadOnlyWallet.isReadOnly = true ∧
    ∀ path : Option String,
      (∃ e, sampleReadOnlyWallet.getChildAccountPublicKey samplePrimitives path = .error e ∧
        (e = Err.invalidPath ∨ e = Err.nonMaster ∨ e = Err.hardenedOverflow
          ∨ e = Err.missingPrivateKeyHardened)) ∧
      ∀ key, sampleReadOnlyWallet.getChildAccountPublicKey samplePrimitives path ≠ .ok key :=
  readOnly_no_child_publicKey samplePrimitives sampleSeedPublicKey sampleSeedPublic
    sampleReadOnlyWallet rfl rfl rfl

end Wallet

namespace NodeEd25519

theorem length_slice (b : Buffer) (lo hi : Nat) (h : hi ≤ b.length) :
    (slice b lo hi).length = hi - lo := by
  unfold slice
  rw [List.length_drop, List.length_take, Nat.min_eq_left h]

/-- The two halves of a digest of 64 bytes. -/
theorem privateSizes_of_digest (I : Buffer) (N : Network) (hI : I.length = 64) :
    privateSizes (new4 (some (slice I 0 32)) none (I.drop 32) N) ∧
    headerInRange (new4 (some (slice I 0 32)) none (I.drop 32) N) := by
  refine ⟨⟨?_, ?_⟩, Nat.zero_le _, Nat.pos_of_ne_zero (by decide),
    Nat.pos_of_ne_zero (by decide)⟩
  · show (I.drop 32).length = 32
    rw [List.length_drop, hI]
  · show some (slice I 0 32).length = some 32
    rw [length_slice I 0 32 (by omega)]

theorem CKDPriv_form (P : Primitives) (p : NodeEd25519) (i : Int) (m : MACType)
    (n : NodeEd25519) (h : CKDPriv P p i m = .ok n) :
    ∃ key data, n = new4 (some (slice (MACImpl.create P m key data none) 0 32)) none
      ((MACImpl.create P m key data none).drop 32) p.network := by
  unfold CKDPriv at h
  cases hw : writeUInt32BE (allocUnsafe (fun _ => 0) 4) i 0 with
  | error e => simp [hw, bind, Except.bind] at h
  | ok buf =>
    cases hd : p.privateKey with
    | error e => simp [hw, hd, bind, Except.bind] at h
    | ok d =>
      simp only [hw, hd, bind, Except.bind, pure, Except.pure] at h
      injection h with h
      exact ⟨_, _, h.symm⟩

theorem deriveHardened_form (P : Primitives) (p : NodeEd25519) (i : Int) (n : NodeEd25519)
    (h : p.deriveHardened P i = .ok n) :
    ∃ j, CKDPriv P p j MACType.HMAC = .ok n := by
  unfold deriveHardened derive at h
  dsimp only at h
  split_ifs at h
  exact ⟨_, h⟩

theorem hardenedFold_last (P : Primitives) (is : List Int) (i : Int) (p n : NodeEd25519)
    (h : hardenedFold P p (i :: is) = .ok n) :
    ∃ (q : NodeEd25519) (j : Int), q.deriveHardened P j = .ok n := by
  induction is generalizing p i with
  | nil =>
    rw [hardenedFold] at h
    cases hd : p.deriveHardened P i with
    | error e => rw [hd] at h; cases h
    | ok c =>
      rw [hd] at h
      change Except.ok c = Except.ok n at h
      injection h with h
      subst h
      exact ⟨p, i, hd⟩
  | cons j is ih =>
    rw [hardenedFold] at h
    cases hd : p.deriveHardened P i with
    | error e => rw [hd] at h; cases h
    | ok c =>
      rw [hd] at h
      exact ih j c h

theorem derivePath_last (P : Primitives) (p : NodeEd25519) (path : String) (n : NodeEd25519)
    (h : p.derivePath P path = .ok n) :
    ∃ (q : NodeEd25519) (j : Int), q.deriveHardened P j = .ok n := by
  cases hv : isValidPath path with
  | false =>
    rw [derivePath_invalid P p path hv] at h
    cases h
  | true =>
    rw [derivePath_eq_fold P p path hv] at h
    split_ifs at h
    have hne := split_ne_nil '/' (pathBody path.data)
    unfold pathIndices at h
    cases hs : split '/' (pathBody path.data) with
    | nil => exact absurd hs hne
    | cons a t =>
      rw [hs, List.map_cons] at h
      exact hardenedFold_last P _ _ p n h

/-- A node with the sizes of the spec and header fields in range serializes, on a
network whose two prefixes are 32-bit numbers. -/
theorem toBase58_ok_of_sizes (P : Primitives) (mem : Nat → Byte) (n : NodeEd25519)
    (hs : privateSizes n ∨ publicSizes n) (hr : headerInRange n)
    (hprv : n.network.privateKeyPrefix < 2 ^ 32) (hpub : n.network.publicKeyPrefix < 2 ^ 32) :
    ∃ buffer, n.toBase58Buffer P mem = .ok buffer ∧ buffer.length = 78 ∧
      n.toBase58 P mem = .ok (P.bs58encode buffer) := by
  obtain ⟨hd, hi, hp⟩ := hr
  have hbuf : ∃ buffer, n.toBase58Buffer P mem = .ok buffer := by
    rw [toBase58Buffer_eq]
    rcases hs with ⟨-, hD⟩ | ⟨-, hD, hQ⟩
    · cases hD' : n.D with
      | none => rw [hD'] at hD; cases hD
      | some d =>
        have hn : n.isNeutered = false := by simp [isNeutered, hD']
        rw [if_pos ⟨by rw [hn]; exact hprv, hd, hp, hi⟩]
        exact ⟨_, rfl⟩
    · cases hQ' : n.Q with
      | none => rw [hQ'] at hQ; cases hQ
      | some q =>
        have hn : n.isNeutered = true := by simp [isNeutered, hD]
        rw [if_pos ⟨by rw [hn]; exact hpub, hd, hp, hi⟩, hD]
        simp only [publicKey, hQ']
        exact ⟨_, rfl⟩
  obtain ⟨buffer, hb⟩ := hbuf
  refine ⟨buffer, hb, (toBase58Buffer_header P mem n buffer hb).2.1, ?_⟩
  unfold toBase58
  rw [hb]
  rfl

/-- C40: when `MACImpl.create` returns 64 bytes, every node that `fromSeed`, `derive`,
`deriveHardened` or `derivePath` returns has a private key of 32 bytes and a chain code
of 32 bytes; every node `fromBase58` accepts has a chain code of 32 bytes and a private
key of 32 bytes or, without a private key, a public key of 33 bytes; the depth, the
index and the parent fingerprint of all these nodes fit their places in the payload;
and `toBase58` succeeds, with a payload of 78 bytes, on every node of these sizes whose
header fields are in range, on a network whose prefixes are 32-bit numbers. -/
theorem key_size_invariant (P : Primitives)
    (hmac : ∀ type key data salt, (MACImpl.create P type key data salt).length = 64) :
    (∀ seed N macType n, fromSeed P seed N macType = .ok n →
      privateSizes n ∧ headerInRange n) ∧
    (∀ (p : NodeEd25519) i n, p.derive P i = .ok n → privateSizes n ∧ headerInRange n) ∧
    (∀ (p : NodeEd25519) i n, p.deriveHardened P i = .ok n →
      privateSizes n ∧ headerInRange n) ∧
    (∀ (p : NodeEd25519) path n, p.derivePath P path = .ok n →
      privateSizes n ∧ headerInRange n) ∧
    (∀ s N n, fromBase58 P s N = .ok n →
      (privateSizes n ∨ publicSizes n) ∧ headerInRange n) ∧
    (∀ (n : NodeEd25519) mem, (privateSizes n ∨ publicSizes n) → headerInRange n →
      n.network.privateKeyPrefix < 2 ^ 32 → n.network.publicKeyPrefix < 2 ^ 32 →
      ∃ buffer, n.toBase58Buffer P mem = .ok buffer ∧ buffer.length = 78 ∧
        n.toBase58 P mem = .ok (P.bs58encode buffer)) := by
  have hckd : ∀ (p : NodeEd25519) i m n, CKDPriv P p i m = .ok n →
      privateSizes n ∧ headerInRange n := by
    intro p i m n h
    obtain ⟨key, data, rfl⟩ := CKDPriv_form P p i m n h
    exact privateSizes_of_digest _ _ (hmac _ _ _ _)
  have hdh : ∀ (p : NodeEd25519) i n, p.deriveHardened P i = .ok n →
      privateSizes n ∧ headerInRange n := by
    intro p i n h
    obtain ⟨j, hj⟩ := deriveHardened_form P p i n h
    exact hckd p j _ n hj
  refine ⟨?_, ?_, hdh, ?_, ?_, fun n mem hs hr hprv hpub =>
    toBase58_ok_of_sizes P mem n hs hr hprv hpub⟩
  · intro seed N macType n h
    unfold fromSeed at h
    split_ifs at h
    injection h with h
    rw [← h]
    exact privateSizes_of_digest _ _ (hmac _ _ _ _)
  · intro p i n h
    unfold derive at h
    dsimp only at h
    split_ifs at h
    exact hckd p i _ n h
  · intro p path n h
    obtain ⟨q, j, hj⟩ := derivePath_last P p path n h
    exact hdh q j n hj
  · intro s N n h
    obtain ⟨b, hb⟩ := fromBase58_shape P s N n h
    obtain ⟨hlen, -, hcase⟩ := fromPayload_ok_cases b N n hb
    have hcc : (slice b 13 45).length = 32 := by rw [length_slice b 13 45 (by omega)]
    rcases hcase with ⟨-, -, rfl⟩ | ⟨-, rfl⟩
    · refine ⟨Or.inl ⟨hcc, ?_⟩, read8_le b 4, read32_lt b 9, read32_lt b 5⟩
      show some (slice b 46 78).length = some 32
      rw [length_slice b 46 78 (by omega)]
    · refine ⟨Or.inr ⟨hcc, rfl, ?_⟩, read8_le b 4, read32_lt b 9, read32_lt b 5⟩
      show some (slice b 45 78).length = some 33
      rw [length_slice b 45 78 (by omega)]

theorem samplePrimitives_mac_length (type : MACType) (key data : Buffer)
    (salt : Option Buffer) : (MACImpl.create samplePrimitives type key data salt).length = 64 := by
  unfold MACImpl.create
  split_ifs <;>
  · simp only [HMAC, KMAC, samplePrimitives, List.length_take, List.length_append,
      List.length_replicate]
    omega

theorem key_size_invariant_witness :
    (privateSizes sampleSeedMaster ∧ headerInRange sampleSeedMaster) ∧
    ∃ buffer, sampleSeedMaster.toBase58Buffer samplePrimitives (fun _ => 255) = .ok buffer ∧
      buffer.length = 78 ∧
      sampleSeedMaster.toBase58 samplePrimitives (fun _ => 255)
        = .ok (samplePrimitives.bs58encode buffer) :=
  ⟨(key_size_invariant samplePrimitives samplePrimitives_mac_length).1
      (fromHex sampleSeedHex.data) Network.BITXOR MACType.HMAC sampleSeedMaster rfl,
    (key_size_invariant samplePrimitives samplePrimitives_mac_length).2.2.2.2.2
      sampleSeedMaster (fun _ => 255) (Or.inl ⟨rfl, rfl⟩) ⟨by decide, by decide, by decide⟩
      (by decide) (by decide)⟩

end NodeEd25519

end BitxorHD
